import Mathlib

/-!
vault-hunter: manifest resolution and policy generation.

A shallow embedding of `internal/vaulthunter` (`vaultHunter.go`, `policies.go`).

Go strings are modelled as lists of Unicode code points (`Str`); every character the
code inspects (`/`, `{`, `}`, newline) is ASCII, so for valid UTF-8 text the byte-level
and the code-point-level readings of the library calls agree.
-/

set_option autoImplicit false

namespace VaultHunter

/-- Go `string`, as a list of code points. -/
abbrev Str := List Char

/-! ## Library functions used by the source (`strings`, `regexp`) -/

/-- The empty-`old` branch of `strings.Replace`: `new` is written before the first code point
and after each following one, for as long as the replacement budget `lim` lasts
(`none` is "no limit", the `n < 0` case). -/
def insertEach (new : Str) : Option Nat → Str → Str
  | lim, [] => if lim = some 0 then [] else new
  | lim, c :: rest =>
    if lim = some 0 then c :: rest
    else new ++ c :: insertEach new (lim.map (· - 1)) rest

/-- The non-empty-`old` branch of `strings.Replace`: a left-to-right scan that replaces
non-overlapping occurrences of `old` while the budget `lim` lasts. `skip` counts the
characters of an occurrence just replaced that are still to be passed over. -/
def replaceFrom (old new : Str) : Option Nat → Nat → Str → Str
  | _, _, [] => []
  | lim, skip + 1, _ :: rest => replaceFrom old new lim skip rest
  | lim, 0, c :: rest =>
    if lim ≠ some 0 ∧ old.isPrefixOf (c :: rest) = true then
      new ++ replaceFrom old new (lim.map (· - 1)) (old.length - 1) rest
    else c :: replaceFrom old new lim 0 rest

/-- Go `strings.Replace(s, old, new, n)`. -/
def stringsReplace (s old new : Str) (n : Int) : Str :=
  if old = new ∨ n = 0 then s
  else
    let lim : Option Nat := if n < 0 then none else some n.toNat
    if old = [] then insertEach new lim s else replaceFrom old new lim 0 s

/-- Go `strings.ReplaceAll(s, old, new)`, which is `strings.Replace(s, old, new, -1)`. -/
def stringsReplaceAll (s old new : Str) : Str := stringsReplace s old new (-1)

/-- Go `strings.Trim(s, cutset)`: drops the leading and trailing code points that occur
in `cutset`. -/
def stringsTrim (s cutset : Str) : Str :=
  (s.dropWhile (fun c => cutset.contains c)).rdropWhile (fun c => cutset.contains c)

/-- Go `regexp.MustCompile("^[^/]*").FindString(p)`: the longest prefix without `/`
(the pattern always matches, possibly the empty string). -/
def findStore (p : Str) : Str := p.takeWhile (fun c => c != '/')

/-- After the opening `{{` of the pattern `\{\{(.*?)\}\}`: the lazy `(.*?)` takes as few
characters as possible, none of them a newline (`.` does not match `\n`), up to the first
`}}`. Returns the captured text and the input left after the closing `}}`. -/
def scanName : Str → Option (Str × Str)
  | [] => none
  | c :: rest =>
    if c = '}' ∧ rest.head? = some '}' then some ([], rest.tail)
    else if c = '\n' then none
    else (scanName rest).map (fun p => (c :: p.1, p.2))

/-- The match of `\{\{(.*?)\}\}` that starts at the first character of the input, if any. -/
def matchPlaceholder : Str → Option Str
  | c1 :: c2 :: t =>
    if c1 = '{' ∧ c2 = '{' then
      (scanName t).map (fun p => '{' :: '{' :: (p.1 ++ ['}', '}']))
    else none
  | _ => none

/-- The `FindAllString` scan for `\{\{(.*?)\}\}`: successive leftmost non-overlapping matches.
`skip` counts the characters of the last match that are still to be passed over. -/
def findAllFrom : Nat → Str → List Str
  | _, [] => []
  | skip + 1, _ :: rest => findAllFrom skip rest
  | 0, c :: rest =>
    match matchPlaceholder (c :: rest) with
    | some m => m :: findAllFrom (m.length - 1) rest
    | none => findAllFrom 0 rest

/-- Go `regexp.MustCompile("\{\{(.*?)\}\}").FindAllString(s, -1)`. -/
def findAllPlaceholders (s : Str) : List Str := findAllFrom 0 s

/-- UTF-8 encoding of one code point, as byte values. -/
def utf8Bytes (c : Char) : List Nat :=
  let n := c.toNat
  if n < 0x80 then [n]
  else if n < 0x800 then [0xC0 + n / 64, 0x80 + n % 64]
  else if n < 0x10000 then [0xE0 + n / 4096, 0x80 + (n / 64) % 64, 0x80 + n % 64]
  else [0xF0 + n / 262144, 0x80 + (n / 4096) % 64, 0x80 + (n / 64) % 64, 0x80 + n % 64]

/-- The alphabet of `base64.StdEncoding`. -/
def b64Alphabet : Str :=
  "ABCDEFGHIJKLMNOPQRSTUVWXYZabcdefghijklmnopqrstuvwxyz0123456789+/".toList

/-- The `i`-th digit of the standard alphabet. -/
def b64Digit (i : Nat) : Char := b64Alphabet.getD i '='

/-- Standard base64 of a byte sequence, three bytes to four digits, padded with `=`. -/
def b64Bytes : List Nat → Str
  | a :: b :: c :: rest =>
    b64Digit (a / 4) :: b64Digit ((a % 4) * 16 + b / 16) ::
      b64Digit ((b % 16) * 4 + c / 64) :: b64Digit (c % 64) :: b64Bytes rest
  | [a, b] => [b64Digit (a / 4), b64Digit ((a % 4) * 16 + b / 16), b64Digit ((b % 16) * 4), '=']
  | [a] => [b64Digit (a / 4), b64Digit ((a % 4) * 16), '=', '=']
  | [] => []

/-- Go `base64.StdEncoding.EncodeToString` applied to the bytes of a string. -/
def base64StdEncode (s : Str) : Str := b64Bytes (s.flatMap utf8Bytes)

/-! ## Go maps and dynamically typed values -/

/-- A Go `map[string]V`: its entries, listed in the order in which a `range` loop visits
them (Go leaves that order unspecified; results are stated for every order). -/
abbrev GoMap (V : Type) := List (Str × V)

/-- The map lookup `m[k]` with its presence flag. -/
def mapGet {V : Type} : GoMap V → Str → Option V
  | [], _ => none
  | (k', v) :: rest, k => if k' = k then some v else mapGet rest k

/-- The map assignment `m[k] = v`. -/
def mapSet {V : Type} : GoMap V → Str → V → GoMap V
  | [], k, v => [(k, v)]
  | (k', v') :: rest, k, v =>
    if k' = k then (k, v) :: rest else (k', v') :: mapSet rest k v

/-- A value of type `interface{}` as the store client decodes it from JSON. -/
inductive Val where
  | null
  | str (s : Str)
  | num (digits : Str)
  | bool (b : Bool)
  | list (items : List Val)
  | map (fields : List (Str × Val))

/-- The index expression `m[k]` on a `map[string]interface{}`: a missing key yields the nil
interface. -/
def mapIndex (m : GoMap Val) (k : Str) : Val := (mapGet m k).getD Val.null

/-- The comparison `v == nil` on an `interface{}`. -/
def Val.isNil : Val → Bool
  | Val.null => true
  | _ => false

/-- The type assertion `v.(map[string]interface{})` in its two-result form: the map and `ok`
on success, the zero value (a nil map) and `false` otherwise. -/
def assertMap : Val → Option (GoMap Val) × Bool
  | Val.map m => (some m, true)
  | _ => (none, false)

/-- Joins already formatted items with single blanks. -/
def joinBlank : List Str → Str
  | [] => []
  | [a] => a
  | a :: b :: rest => a ++ ' ' :: joinBlank (b :: rest)

mutual
/-- Go `fmt.Sprintf("%v", v)`: strings and JSON numbers print as they are, nil as `<nil>`,
lists as `[a b]`, maps as `map[k:v k:v]` in ascending key order. -/
def fmtV : Val → Str
  | Val.null => "<nil>".toList
  | Val.str s => s
  | Val.num d => d
  | Val.bool b => if b then "true".toList else "false".toList
  | Val.list items => '[' :: (joinBlank (fmtItems items) ++ [']'])
  | Val.map fields =>
    "map[".toList ++ (joinBlank (((fmtFields fields).insertionSort
      (fun a b => a.1 ≤ b.1)).map (fun e => e.1 ++ ':' :: e.2)) ++ [']'])
/-- The items of a list, each formatted. -/
def fmtItems : List Val → List Str
  | [] => []
  | v :: rest => fmtV v :: fmtItems rest
/-- The fields of a map, each value formatted. -/
def fmtFields : List (Str × Val) → List (Str × Str)
  | [] => []
  | (k, v) :: rest => (k, fmtV v) :: fmtFields rest
end

/-! ## `vaultHunter.go` -/

/-- Source type `KeyDef`: path and key of a vault secret. -/
structure KeyDef where
  Path : Str
  Key : Str
  Base64 : Bool
deriving DecidableEq, Repr

/-- Source type `KeyConfig`: map of vault secret locations; `none` is the nil map. -/
abbrev KeyConfig := Option (GoMap KeyDef)

/-- Source type `FullSecretConfigPaths`; `none` is the nil slice. -/
abbrev FullSecretConfigPaths := Option (List Str)

/-- Source type `SecretConfig`: secret config object. -/
structure SecretConfig where
  SecretName : Str
  KeyConfig : KeyConfig
  FullSecretConfigPaths : FullSecretConfigPaths
deriving DecidableEq, Repr

/-- The entries of a possibly nil map, as a `range` loop sees them. -/
def entries {V : Type} : Option (GoMap V) → GoMap V
  | none => []
  | some m => m

/-- The elements of a possibly nil slice. -/
def elems : FullSecretConfigPaths → List Str
  | none => []
  | some l => l

/-- What `os.Stat` finds at a path. -/
inductive FileStat where
  | notExist
  | dir
  | file
deriving DecidableEq, Repr

/-- The surroundings the program runs in: the file system, the process environment, and
the two library functions taken as given (`yaml.Unmarshal` into a `SecretConfig`,
`strings.ToUpper`). -/
structure World where
  stat : Str → FileStat
  readFile : Str → Except Str Str
  yamlUnmarshal : Str → Except Str SecretConfig
  lookupEnv : Str → Option Str
  toUpper : Str → Str

/-- The type `vapi.Secret`, the fields the code reads (a nil `Data` map behaves as the empty one in
every use made of it). -/
structure Secret where
  Data : GoMap Val
  Warnings : List Str

/-- Outcome of `client.Logical().Read(path)`: an error, `(nil, nil)`, or a secret. -/
inductive ReadResult where
  | failed (err : Str)
  | absent
  | found (secret : Secret)

/-- The store client, as its read capability. -/
abbrev Client := Str → ReadResult



/-- Source function `modSecretPath`: modified secret path to be kv2 compatible (puts `/data` after store). -/
def modSecretPath (p : Str) : Str :=
  let store := findStore p
  let path := stringsReplace p store "/data".toList 1
  let lookupPath := store ++ path
  lookupPath

/-- Result of `resolveEnvVarsInString`: the two return values and the lines it logs. -/
structure Resolved where
  fullFile : Str
  err : Option Str
  log : List Str
deriving DecidableEq, Repr

/-- The token written for a variable the environment does not define. -/
def envVarNotFound : Str := "ENV_VAR_NOT_FOUND".toList

/-- The loop of `resolveEnvVarsInString` over the matches: each match is looked up under
its name (the match trimmed of `{` and of `}`) and every occurrence of the match in the
current text is replaced. The state is the current text and the lines logged so far. -/
def resolveLoop (lookupEnv : Str → Option Str) (stringIdentifier : Str) :
    List Str → Str × List Str → Str × List Str
  | [], st => st
  | envVar :: rest, (fileStr, log) =>
    let trimmedEnvVar := stringsTrim (stringsTrim envVar ['{']) ['}']
    match lookupEnv trimmedEnvVar with
    | some v => resolveLoop lookupEnv stringIdentifier rest (stringsReplaceAll fileStr envVar v, log)
    | none =>
      resolveLoop lookupEnv stringIdentifier rest
        (stringsReplaceAll fileStr envVar envVarNotFound,
          log ++ ["WARN: unable to lookup env var ".toList ++ trimmedEnvVar
            ++ " passed in string: ".toList ++ stringIdentifier])

/-- Source function `resolveEnvVarsInString`: replaces all `{{ENV_VARS}}` vars in the provided string;
`stringIdentifier` is used for logging purposes. The matches are those of the text as
given; the returned error is always nil. -/
def resolveEnvVarsInString (lookupEnv : Str → Option Str) (fileBytes stringIdentifier : Str) :
    Resolved :=
  let fileStr := fileBytes
  let submatchall := findAllPlaceholders fileStr
  let st := resolveLoop lookupEnv stringIdentifier submatchall (fileStr, [])
  { fullFile := st.1, err := none, log := st.2 }

/-- Source function `fileExists`: check if file exists (and is not a directory). -/
def fileExists (w : World) (filename : Str) : Bool :=
  match w.stat filename with
  | FileStat.notExist => false
  | FileStat.dir => false
  | FileStat.file => true

/-- Source function `parseSecretConfig`: read the secret map, replace its dynamic env vars and unmarshal it.
`Except.error` is the `log.Fatal` exit. -/
def parseSecretConfig (w : World) (file : Str) : Except Str SecretConfig :=
  match w.readFile file with
  | Except.error e => Except.error ("unable to read secret map file: ".toList ++ e)
  | Except.ok yamlFile =>
    let r := resolveEnvVarsInString w.lookupEnv yamlFile file
    match r.err with
    | some e =>
      Except.error ("could not lookup env var: ".toList ++ e ++ " in map file: ".toList ++ file)
    | none =>
      match w.yamlUnmarshal r.fullFile with
      | Except.error e => Except.error e
      | Except.ok data => Except.ok data

/-- The zero `KeyDef`, which indexing a map yields for a missing key. -/
def KeyDef.zero : KeyDef := { Path := [], Key := [], Base64 := false }

/-- The loop `for x := range envConfig.KeyConfig` of `mergeConfig`, over the keys `x` in
iteration order: a nil merged map is replaced by the environment's map, otherwise
`mergedConfig.KeyConfig[x] = envConfig.KeyConfig[x]`. -/
def mergeKeys (envKeys : KeyConfig) : List Str → KeyConfig → KeyConfig
  | [], merged => merged
  | x :: rest, merged =>
    match merged with
    | none => mergeKeys envKeys rest envKeys
    | some m =>
      mergeKeys envKeys rest (some (mapSet m x ((mapGet (entries envKeys) x).getD KeyDef.zero)))

/-- The merge step of `mergeConfig` (the body of its `if fileExists(baseFile) && ...`). -/
def mergeStep (baseConfig envConfig : SecretConfig) : SecretConfig :=
  let mergedConfig := baseConfig
  let mergedConfig := { mergedConfig with SecretName := envConfig.SecretName }
  let mergedConfig :=
    match mergedConfig.FullSecretConfigPaths with
    | none => { mergedConfig with FullSecretConfigPaths := envConfig.FullSecretConfigPaths }
    | some l =>
      { mergedConfig with FullSecretConfigPaths := some (l ++ elems envConfig.FullSecretConfigPaths) }
  { mergedConfig with
    KeyConfig := mergeKeys envConfig.KeyConfig ((entries envConfig.KeyConfig).map Prod.fst)
      mergedConfig.KeyConfig }

/-- The base file `mergeConfig` settles on: `base.yaml`, or `dev.yaml` when no `base.yaml`
exists. -/
def baseFileOf (w : World) (folder : Str) : Str :=
  let baseFile := folder ++ "/base.yaml".toList
  if !fileExists w baseFile then folder ++ "/dev.yaml".toList else baseFile

/-- The environment file `mergeConfig` settles on: `<env>.yaml`, or the base file when that
does not exist (the `WARN ... falling back to basefile` branch). -/
def envFileOf (w : World) (folder env : Str) : Str :=
  let envFile := folder ++ "/".toList ++ env ++ ".yaml".toList
  if !fileExists w envFile then baseFileOf w folder else envFile

/-- Source function `mergeConfig`: merges env and base config files. `Except.error` is the `log.Fatal` exit. -/
def mergeConfig (w : World) (folder env : Str) : Except Str SecretConfig :=
  let baseFile := baseFileOf w folder
  if !fileExists w baseFile then
    Except.error ("could not find basefile (base.yaml or dev.yaml): ".toList ++ baseFile)
  else
    let envFile := envFileOf w folder env
    match parseSecretConfig w envFile with
    | Except.error e => Except.error e
    | Except.ok envConfig =>
      if fileExists w baseFile = true ∧ baseFile ≠ envFile then
        match parseSecretConfig w baseFile with
        | Except.error e => Except.error e
        | Except.ok baseConfig => Except.ok (mergeStep baseConfig envConfig)
      else Except.ok envConfig

/-- Source function `getSecret`: one read of the store; a failed read, a warning or an absent secret is an
error. -/
def getSecret (lookupPath : Str) (client : Client) : Except Str Secret :=
  match client lookupPath with
  | ReadResult.failed err => Except.error ("unable to lookup vault vaults: ".toList ++ err)
  | ReadResult.absent =>
    Except.error ("key ".toList ++ lookupPath
      ++ " returned nil - make sure secret exists in vault".toList)
  | ReadResult.found secret =>
    match secret.Warnings with
    | w0 :: _ => Except.error ("got warning looking up secret: ".toList ++ w0)
    | [] => Except.ok secret

/-- The secrets collected so far (`map[string]interface{}` holding strings). -/
abbrev Secrets := GoMap Str

/-- The field under which a versioned engine wraps the fields of a secret. -/
def dataKey : Str := "data".toList

/-- The error text of the decode failure. -/
def errDecodeV2 : Str := "could not decode v2 secret".toList

/-- The error text for an empty `data` wrapper in the full-path pass. -/
def errSecretEmpty (lookupPath : Str) : Str :=
  "secret ".toList ++ lookupPath ++ " returned empty - make sure key for exists in vault".toList

/-- The error text for a key that is nil inside a found secret. -/
def errKeyNil (lookupKey lookupPath : Str) : Str :=
  "key ".toList ++ lookupKey ++ " returned nil for secret ".toList ++ lookupPath
    ++ " - make sure key for exists in vault".toList

/-- The loop `for k, v := range m` of the full-path pass: every field, key upper-cased,
value stringified and resolved. -/
def pullFields (w : World) : GoMap Val → Secrets → Except Str Secrets
  | [], secrets => Except.ok secrets
  | (k, v) :: rest, secrets =>
    let str := fmtV v
    let upperKey := w.toUpper k
    let r := resolveEnvVarsInString w.lookupEnv str str
    match r.err with
    | some err => Except.error err
    | none => pullFields w rest (mapSet secrets upperKey r.fullFile)

/-- One round of the full-path loop of `getSecrets`, for the path `x`. -/
def fullPathStep (w : World) (client : Client) (x : Str) (secrets : Secrets) :
    Except Str Secrets :=
  let lookupPath := modSecretPath x
  match getSecret lookupPath client with
  | Except.error err => Except.error err
  | Except.ok secret =>
    if !(mapIndex secret.Data dataKey).isNil then
      let (objects, ok) := assertMap (mapIndex secret.Data dataKey)
      match objects with
      | none => Except.error (errSecretEmpty lookupPath)
      | some m =>
        if !ok then Except.error errDecodeV2
        else pullFields w m secrets
    else pullFields w secret.Data secrets

/-- The full-path loop of `getSecrets`, in the stored order, stopping at the first error. -/
def fullPathPass (w : World) (client : Client) : List Str → Secrets → Except Str Secrets
  | [], secrets => Except.ok secrets
  | x :: rest, secrets =>
    match fullPathStep w client x secrets with
    | Except.error err => Except.error err
    | Except.ok secrets1 => fullPathPass w client rest secrets1

/-- One round of the key loop of `getSecrets`, for the entry `k ↦ v`. -/
def keyStep (w : World) (client : Client) (k : Str) (v : KeyDef) (secrets : Secrets) :
    Except Str Secrets :=
  let lookupPath := modSecretPath v.Path
  let lookupKey := v.Key
  match getSecret lookupPath client with
  | Except.error err => Except.error err
  | Except.ok secret =>
    let unwrapped : Except Str (GoMap Val) :=
      if !(mapIndex secret.Data dataKey).isNil then
        let (objects, ok) := assertMap (mapIndex secret.Data dataKey)
        if (mapIndex (entries objects) lookupKey).isNil then
          Except.error (errKeyNil lookupKey lookupPath)
        else if !ok then Except.error errDecodeV2
        else Except.ok (entries objects)
      else Except.ok secret.Data
    match unwrapped with
    | Except.error err => Except.error err
    | Except.ok m =>
      let str := fmtV (mapIndex m lookupKey)
      let r := resolveEnvVarsInString w.lookupEnv str str
      match r.err with
      | some err => Except.error err
      | none =>
        let finalSecretVal := if v.Base64 then base64StdEncode r.fullFile else r.fullFile
        Except.ok (mapSet secrets k finalSecretVal)

/-- The key loop of `getSecrets`, stopping at the first error. -/
def keyPass (w : World) (client : Client) : GoMap KeyDef → Secrets → Except Str Secrets
  | [], secrets => Except.ok secrets
  | (k, v) :: rest, secrets =>
    match keyStep w client k v secrets with
    | Except.error err => Except.error err
    | Except.ok secrets1 => keyPass w client rest secrets1

/-- The three values `getSecrets` returns. -/
structure GetSecretsResult where
  secretName : Str
  secrets : Option Secrets
  err : Option Str
deriving DecidableEq, Repr

/-- Source function `getSecrets`: pull secrets from vault. The outer `Except.error` is the `log.Fatal` exit
of `mergeConfig`; every error return of the function itself is `"", nil, err`. -/
def getSecrets (w : World) (client : Client) (folder env : Str) :
    Except Str GetSecretsResult :=
  match mergeConfig w folder env with
  | Except.error fatal => Except.error fatal
  | Except.ok data =>
    let secretName := data.SecretName
    match fullPathPass w client (elems data.FullSecretConfigPaths) [] with
    | Except.error err => Except.ok { secretName := [], secrets := none, err := some err }
    | Except.ok secrets =>
      match keyPass w client (entries data.KeyConfig) secrets with
      | Except.error err => Except.ok { secretName := [], secrets := none, err := some err }
      | Except.ok secrets1 =>
        Except.ok { secretName := secretName, secrets := some secrets1, err := none }

/-! ## `policies.go` -/

/-- Go `strings.Contains(s, substr)`. -/
def stringsContains (s substr : Str) : Bool := s.tails.any (fun t => substr.isPrefixOf t)

/-- Go `strings.TrimSuffix(s, suffix)`. -/
def stringsTrimSuffix (s suffix : Str) : Str :=
  if suffix.isSuffixOf s then s.take (s.length - suffix.length) else s

/-- Go `strings.Split(s, ",")`. -/
def stringsSplitComma (s : Str) : List Str := s.splitOn ','

/-- Go `sort.Strings`: ascending lexicographic order (code points order as their UTF-8
bytes do). -/
def sortStrings (l : List Str) : List Str := l.insertionSort (fun a b => a ≤ b)

/-- A value as `encoding/json` writes it; object fields keep their order. -/
inductive Json where
  | null
  | str (s : Str)
  | num (n : Int)
  | arr (items : List Json)
  | obj (fields : List (Str × Json))

/-- The member `k` of a JSON object, if the value is an object that has it. -/
def Json.field : Json → Str → Option Json
  | Json.obj fields, k => mapGet fields k
  | _, _ => none

/-- Source type `BoundClaims`. -/
structure BoundClaims where
  ProjectID : Str
  Ref : Str
  RefType : Str
deriving DecidableEq, Repr

/-- Source type `VaultRole`; `Policies` is `none` for a nil slice. -/
structure VaultRole where
  RoleType : Str
  Policies : Option (List Str)
  TokenExplicitMaxTTL : Int
  UserClaim : Str
  BoundClaimsType : Str
  BoundClaims : BoundClaims
deriving DecidableEq, Repr

/-- The JSON of a `BoundClaims` by its struct tags: `project_id` always, `ref` and
`ref_type` under `omitempty`, left out when they are the empty string. -/
def marshalBoundClaims (b : BoundClaims) : Json :=
  Json.obj
    ([("project_id".toList, Json.str b.ProjectID)]
      ++ (if b.Ref = [] then [] else [("ref".toList, Json.str b.Ref)])
      ++ (if b.RefType = [] then [] else [("ref_type".toList, Json.str b.RefType)]))

/-- The JSON of a `VaultRole` by its struct tags, fields in declaration order; a nil slice
is written as `null`. -/
def marshalVaultRole (r : VaultRole) : Json :=
  Json.obj
    [("role_type".toList, Json.str r.RoleType),
     ("policies".toList,
        match r.Policies with
        | none => Json.null
        | some l => Json.arr (l.map Json.str)),
     ("token_explicit_max_ttl".toList, Json.num r.TokenExplicitMaxTTL),
     ("user_claim".toList, Json.str r.UserClaim),
     ("bound_claims_type".toList, Json.str r.BoundClaimsType),
     ("bound_claims".toList, marshalBoundClaims r.BoundClaims)]

/-- One block of a policy file, as `writePolicy` builds it: `path "<path>"` with its
`capabilities` list. -/
structure PolicyBlock where
  path : Str
  capabilities : List Str
deriving DecidableEq, Repr

/-- What the program writes: generated files (a policy file as its blocks, a role file as
its JSON document; the text layout of `hclwrite` and `json.MarshalIndent` is not modelled)
and requests to the store. -/
inductive Action where
  | resetGenerated (vhFolder : Str)
  | policyFile (name : Str) (blocks : List PolicyBlock)
  | roleFile (name : Str) (doc : Json)
  | putPolicy (policyName : Str) (filename : Str)
  | writeRole (roleName : Str) (filename : Str)
  | deletePolicy (policyName : Str)
  | deleteRole (roleName : Str)

/-- How a function ends: it returns its `error` result, or the process exits in
`log.Fatal`. -/
inductive Outcome where
  | returned (err : Option Str)
  | fatal (msg : Str)
deriving DecidableEq, Repr

/-- The surroundings on the writing side: the directory walk of an application folder (the
names `filepath.Walk` visits, in order), and for each file or store request whether it
fails (`some err`) or succeeds (`none`). -/
structure Outside where
  walk : Str → Except Str (List Str)
  createFile : Str → Option Str
  writeFile : Str → Option Str
  readFile : Str → Option Str
  putPolicy : Str → Option Str
  writeRole : Str → Option Str
  deletePolicy : Str → Option Str
  deleteRole : Str → Option Str

/-- Source type `AppConfig`, the fields the policy code reads. -/
structure AppConfig where
  vhFolder : Str
  apps : List Str
  appName : Str
  projectID : Str
  applyConfig : Bool
  policyPrefix : Str
  policyLockProdClaims : Bool
  dependencyApps : Str
deriving DecidableEq, Repr

/-- Source function `applyPolicy`: apply vault policy. Every failure is a `log.Fatalf`
(`Except.error`); otherwise the returned error is nil. -/
def applyPolicy (o : Outside) (policyName filename : Str) :
    Except Str (List Action × Option Str) :=
  match o.readFile filename with
  | some err =>
    Except.error ("Error opening policy file: ".toList ++ filename ++ " - ".toList ++ err)
  | none =>
    match o.putPolicy policyName with
    | some err => Except.error ("Error uploading policy: ".toList ++ err)
    | none => Except.ok ([Action.putPolicy policyName filename], none)

/-- Source function `applyRole`: apply auth/jwt/role. -/
def applyRole (o : Outside) (roleName filename : Str) : List Action × Option Str :=
  match o.readFile filename with
  | some err => ([], some err)
  | none =>
    let path := "auth/jwt/role/".toList ++ roleName
    match o.writeRole path with
    | some err => ([], some err)
    | none => ([Action.writeRole roleName filename], none)

/-- Source function `containsString`: checks if string is in a `[]string`. -/
def containsString : List Str → Str → Bool
  | [], _ => false
  | v :: rest, str => if v = str then true else containsString rest str

/-- Source function `getEnvs`: traverse appfolder and identify all environments. Names
containing `base.yaml` are passed over, other names containing `.yaml` are kept, and each
kept name is trimmed of the suffix `.yaml`. -/
def getEnvs (o : Outside) (appFolder : Str) : Except Str (List Str) :=
  match o.walk appFolder with
  | Except.error err => Except.error err
  | Except.ok names =>
    let envFiles := names.filter
      (fun n => !stringsContains n "base.yaml".toList && stringsContains n ".yaml".toList)
    Except.ok (envFiles.map (fun x => stringsTrimSuffix x ".yaml".toList))

/-- The inner loop `for _, y := range e` that adds the environments not seen yet. -/
def addEnvs : List Str → List Str → List Str
  | [], envs => envs
  | y :: rest, envs => if !containsString envs y then addEnvs rest (envs ++ [y]) else addEnvs rest envs

/-- The loop "find all envs in all apps" of `genAllRolesAndPolicies` (and of
`deleteAllPoliciesAndRoles`). -/
def collectEnvs (o : Outside) (vhFolder : Str) : List Str → List Str → Except Str (List Str)
  | [], envs => Except.ok envs
  | x :: rest, envs =>
    match getEnvs o (vhFolder ++ "/".toList ++ x) with
    | Except.error err => Except.error err
    | Except.ok e => collectEnvs o vhFolder rest (addEnvs e envs)

/-- The alternative `[^/]+` then `ENV_VAR_NOT_FOUND`, after at least one character has been
taken: greedy, so taking one more character is tried before the literal. Returns the rest of
the match. -/
def greedyTail : Str → Option Str
  | [] => none
  | c :: rest =>
    match (if c ≠ '/' then (greedyTail rest).map (fun m => c :: m) else none) with
    | some m => some m
    | none => if envVarNotFound.isPrefixOf (c :: rest) then some envVarNotFound else none

/-- The match of `[^/]+ENV_VAR_NOT_FOUND` that starts at the first character of the input. -/
def matchSentinel : Str → Option Str
  | [] => none
  | c :: rest => if c ≠ '/' then (greedyTail rest).map (fun m => c :: m) else none

/-- The `FindAllString` scan for `[^/]+ENV_VAR_NOT_FOUND`; `skip` counts the characters of
the last match still to be passed over. -/
def findAllSentinelFrom : Nat → Str → List Str
  | _, [] => []
  | skip + 1, _ :: rest => findAllSentinelFrom skip rest
  | 0, c :: rest =>
    match matchSentinel (c :: rest) with
    | some m => m :: findAllSentinelFrom (m.length - 1) rest
    | none => findAllSentinelFrom 0 rest

/-- The path rewrite at the head of `writePolicy`: replace any unresolved env vars with `+`
(every match of the pattern, each replaced throughout the path). -/
def rewritePath (path : Str) : Str :=
  (findAllSentinelFrom 0 path).foldl (fun p x => stringsReplaceAll p x "+".toList) path

/-- Source function `writePolicy`: writes a read policy entry in file for path given. -/
def writePolicy (path : Str) : PolicyBlock :=
  { path := rewritePath path, capabilities := ["read".toList] }

/-- The loop `for k, v := range kdata.KeyConfig` of `genPolicy`: `allKeys[k] = v`. -/
def addKeys : GoMap KeyDef → GoMap KeyDef → GoMap KeyDef
  | [], allKeys => allKeys
  | (k, v) :: rest, allKeys => addKeys rest (mapSet allKeys k v)

/-- The error `os.Stat` returns for a missing file. -/
def errStat (name : Str) : Str := "stat ".toList ++ name ++ ": no such file or directory".toList

/-- The loop over `apps` of `genPolicy`: an application without the environment's file ends
the function with the `os.Stat` error; `mergeConfig` may end the process. -/
def gatherApps (w : World) (configFolder env : Str) :
    List Str → GoMap KeyDef → List Str → Except Outcome (GoMap KeyDef × List Str)
  | [], allKeys, fullSecretConfig => Except.ok (allKeys, fullSecretConfig)
  | x :: rest, allKeys, fullSecretConfig =>
    let folder := configFolder ++ "/".toList ++ x
    match w.stat (folder ++ "/".toList ++ env ++ ".yaml".toList) with
    | FileStat.notExist =>
      Except.error (Outcome.returned (some (errStat (folder ++ "/".toList ++ env ++ ".yaml".toList))))
    | _ =>
      match mergeConfig w folder env with
      | Except.error fatal => Except.error (Outcome.fatal fatal)
      | Except.ok kdata =>
        gatherApps w configFolder env rest (addKeys (entries kdata.KeyConfig) allKeys)
          (fullSecretConfig ++ elems kdata.FullSecretConfigPaths)

/-- The body shared by the two writing loops of `genPolicy`: a path not yet in
`createdPaths` is written and recorded. -/
def writeIfNew (realPath : Str) (st : GoMap Bool × List PolicyBlock) :
    GoMap Bool × List PolicyBlock :=
  if !((mapGet st.1 realPath).getD false) then
    (mapSet st.1 realPath true, st.2 ++ [writePolicy realPath])
  else st

/-- What `genPolicy` leaves behind: the blocks of the file it created (`none` when the file
could not be created) and how it ended. -/
structure PolicyRun where
  file : Option (List PolicyBlock)
  outcome : Outcome
deriving DecidableEq, Repr

/-- Source function `genPolicy`: generate individual policy file. Writing to the created
file is taken to succeed. -/
def genPolicy (w : World) (o : Outside) (filename configFolder : Str) (apps : List Str)
    (env : Str) : PolicyRun :=
  match o.createFile filename with
  | some err => { file := none, outcome := Outcome.returned (some err) }
  | none =>
    match gatherApps w configFolder env apps [] [] with
    | Except.error out => { file := some [], outcome := out }
    | Except.ok (allKeys, fullSecretConfig) =>
      let keys := sortStrings (allKeys.map Prod.fst)
      let fullSecretConfig := sortStrings fullSecretConfig
      let st := keys.foldl
        (fun st v => writeIfNew (modSecretPath ((mapGet allKeys v).getD KeyDef.zero).Path) st)
        ([], [])
      let st := fullSecretConfig.foldl (fun st v => writeIfNew (modSecretPath v) st) st
      { file := some st.2, outcome := Outcome.returned none }

/-- The `VaultRole` that `genRole` builds. -/
def roleOf (policies : Option (List Str)) (prod : Bool) (projectID : Str)
    (lockProdClaims : Bool) : VaultRole :=
  let b : BoundClaims := { ProjectID := [], Ref := [], RefType := [] }
  let b := if prod && lockProdClaims then
    { b with RefType := "branch".toList, Ref := "master".toList } else b
  let b := { b with ProjectID := projectID }
  { RoleType := "jwt".toList
    Policies := policies
    TokenExplicitMaxTTL := 60
    UserClaim := "user_email".toList
    BoundClaimsType := "glob".toList
    BoundClaims := b }

/-- Source function `genRole`: generate individual role file. -/
def genRole (o : Outside) (filename : Str) (policies : Option (List Str)) (prod : Bool)
    (projectID : Str) (lockProdClaims : Bool) : List Action × Option Str :=
  let file := marshalVaultRole (roleOf policies prod projectID lockProdClaims)
  match o.writeFile filename with
  | some err => ([], some err)
  | none => ([Action.roleFile filename file], none)

/-- The destination of the policy file of environment `x`. -/
def destPolicyFile (c : AppConfig) (x : Str) : Str :=
  c.vhFolder ++ "/generated/policies".toList ++ "/".toList ++ c.appName ++ "-".toList ++ x
    ++ ".hcl".toList

/-- The destination of the role file of environment `x`. -/
def destRoleFile (c : AppConfig) (x : Str) : Str :=
  c.vhFolder ++ "/generated/roles".toList ++ "/".toList ++ c.appName ++ "-".toList ++ x
    ++ ".json".toList

/-- The `policies` slice built for environment `x`: the application's own policy, then one
per entry of the split `dependencyApps` when that string is not empty. -/
def policyNames (c : AppConfig) (x : Str) : List Str :=
  let pfx := c.policyPrefix ++ "-".toList
  let policies := [] ++ [pfx ++ c.appName ++ "-".toList ++ x]
  if c.dependencyApps ≠ [] then
    (stringsSplitComma c.dependencyApps).foldl
      (fun policies y => policies ++ [pfx ++ y ++ "-".toList ++ x]) policies
  else policies

/-- What a run of `genAllRolesAndPolicies` does and how it ends. -/
structure Run where
  trace : List Action
  outcome : Outcome

/-- One round of the main loop of `genAllRolesAndPolicies`, for an environment `x` other
than `local`: what it does, and how the function ends if it ends in this round (`none`: the
loop goes on). The result of `applyRole` is dropped; the test that follows it reads the
`err` of `applyPolicy` again. -/
def envStep (w : World) (o : Outside) (c : AppConfig) (x : Str) :
    List Action × Option Outcome :=
  let pfx := c.policyPrefix ++ "-".toList
  let p := genPolicy w o (destPolicyFile c x) c.vhFolder c.apps x
  let trace : List Action :=
    match p.file with
    | some blocks => [Action.policyFile (destPolicyFile c x) blocks]
    | none => []
  match p.outcome with
  | Outcome.fatal msg => (trace, some (Outcome.fatal msg))
  | Outcome.returned (some err) => (trace, some (Outcome.returned (some err)))
  | Outcome.returned none =>
    let prod := decide (x = "prod".toList ∨ x = "qa".toList)
    let policies := policyNames c x
    let r := genRole o (destRoleFile c x) (some policies) prod c.projectID
      c.policyLockProdClaims
    let trace := trace ++ r.1
    match r.2 with
    | some err => (trace, some (Outcome.returned (some err)))
    | none =>
      if c.applyConfig then
        let policyName := c.appName ++ "-".toList ++ x
        match applyPolicy o (pfx ++ policyName) (destPolicyFile c x) with
        | Except.error msg => (trace, some (Outcome.fatal msg))
        | Except.ok (pa, err) =>
          match err with
          | some e => (trace ++ pa, some (Outcome.returned (some e)))
          | none =>
            let ra := (applyRole o (pfx ++ policyName) (destRoleFile c x)).1
            match err with
            | some e => (trace ++ pa ++ ra, some (Outcome.returned (some e)))
            | none => (trace ++ pa ++ ra, none)
      else (trace, none)

/-- The main loop `for _, x := range envs` of `genAllRolesAndPolicies`: `local` is passed
over, the first round that ends the function ends the loop. -/
def envLoop (w : World) (o : Outside) (c : AppConfig) : List Str → List Action → Run
  | [], trace => { trace := trace, outcome := Outcome.returned none }
  | x :: rest, trace =>
    if x = "local".toList then envLoop w o c rest trace
    else
      match envStep w o c x with
      | (acts, some out) => { trace := trace ++ acts, outcome := out }
      | (acts, none) => envLoop w o c rest (trace ++ acts)

/-- Source function `genAllRolesAndPolicies`: generate and apply all vault policies and
roles for this app. -/
def genAllRolesAndPolicies (w : World) (o : Outside) (c : AppConfig) : Run :=
  let trace := [Action.resetGenerated c.vhFolder]
  match collectEnvs o c.vhFolder c.apps [] with
  | Except.error err => { trace := trace, outcome := Outcome.returned (some err) }
  | Except.ok envs => envLoop w o c envs trace

/-- Source function `deletePolicy`: delete policy from vault. -/
def deletePolicy (o : Outside) (policyName : Str) : List Action × Option Str :=
  match o.deletePolicy policyName with
  | some err => ([], some err)
  | none => ([Action.deletePolicy policyName], none)

/-- Source function `deleteRole`: delete role from vault. -/
def deleteRole (o : Outside) (roleName : Str) : List Action × Option Str :=
  let path := "auth/jwt/role/".toList ++ roleName
  match o.deleteRole path with
  | some err => ([], some err)
  | none => ([Action.deleteRole roleName], none)

/-- The loop "for each env, delete policy/role for that prefix+mainAppName+env" of
`deleteAllPoliciesAndRoles`: the first request that fails ends the function. -/
def deleteLoop (o : Outside) (c : AppConfig) : List Str → List Action → Run
  | [], trace => { trace := trace, outcome := Outcome.returned none }
  | x :: rest, trace =>
    let pfx := c.policyPrefix ++ "-".toList
    let name := pfx ++ c.appName ++ "-".toList ++ x
    match deletePolicy o name with
    | (pa, some err) => { trace := trace ++ pa, outcome := Outcome.returned (some err) }
    | (pa, none) =>
      match deleteRole o name with
      | (ra, some err) =>
        { trace := trace ++ pa ++ ra, outcome := Outcome.returned (some err) }
      | (ra, none) => deleteLoop o c rest (trace ++ pa ++ ra)

/-- Source function `deleteAllPoliciesAndRoles`: delete all roles and policies for this app
from vault. -/
def deleteAllPoliciesAndRoles (o : Outside) (c : AppConfig) : Run :=
  match collectEnvs o c.vhFolder c.apps [] with
  | Except.error err => { trace := [], outcome := Outcome.returned (some err) }
  | Except.ok envs => deleteLoop o c envs []

/-! ## vaultHunter.go: the env file -/

/-- The loop `for _, k := range keys` of `writeEnvFile`: one formatted string per key,
appended to `envFileContents`. The values of the map are strings, which `%s` prints as
they are. -/
def envFileLoop (secrets : Secrets) (removeExport : Bool) : List Str → Str → Str
  | [], envFileContents => envFileContents
  | k :: rest, envFileContents =>
    let v := (mapGet secrets k).getD []
    let str :=
      if removeExport then k ++ "=\x22".toList ++ v ++ "\x22\n".toList
      else "export ".toList ++ k ++ "=\x22".toList ++ v ++ "\x22\n".toList
    envFileLoop secrets removeExport rest (envFileContents ++ str)

/-- What `writeEnvFile` hands to `os.WriteFile`, and the error it returns. -/
structure EnvFileWrite where
  filename : Str
  contents : Str
  err : Option Str
deriving DecidableEq, Repr

/-- Source function `writeEnvFile`: the keys of the map are collected and sorted, the lines
are built in that order and written to `filename`. -/
def writeEnvFile (o : Outside) (secrets : Secrets) (filename : Str) (removeExport : Bool) :
    EnvFileWrite :=
  let keys := sortStrings (secrets.map (fun e => e.1))
  let envFileContents := envFileLoop secrets removeExport keys []
  { filename := filename, contents := envFileContents, err := o.writeFile filename }

/-! ## Auxiliary definitions for the statements -/

/-- The text `c0 ++ mid ++ c1 ++ ... ++ mid ++ cn` for the chunks `c0` and `[c1, ..., cn]`. -/
def interleave (mid : Str) : Str → List Str → Str
  | c0, [] => c0
  | c0, c :: cs => c0 ++ mid ++ interleave mid c cs

/-- The placeholder `{{N}}`. -/
def placeholder (N : Str) : Str := '{' :: '{' :: (N ++ ['}', '}'])

/-- The field map a read hands to both passes of `getSecrets`: the map under `data` when
that wrapper is a map, the flat map when there is no wrapper. -/
def unwrappedFields (secret : Secret) : Option (GoMap Val) :=
  match mapIndex secret.Data dataKey with
  | Val.null => some secret.Data
  | Val.map m => some m
  | _ => none

/-- The value both passes of `getSecrets` compute for a field value: stringified, then
resolved against the environment. -/
def resolveValue (w : World) (v : Val) : Str :=
  (resolveEnvVarsInString w.lookupEnv (fmtV v) (fmtV v)).fullFile

/-- The secrets after the fields of one full-path entry have been written, in iteration
order, over the secrets collected before. -/
def pulled (w : World) : GoMap Val → Secrets → Secrets
  | [], secrets => secrets
  | (k, v) :: rest, secrets => pulled w rest (mapSet secrets (w.toUpper k) (resolveValue w v))

/-- The elements of a list in order, leaving out those in `seen` and every repeat. -/
def keepNew : List Str → List Str → List Str
  | _, [] => []
  | seen, x :: xs => if x ∈ seen then keepNew seen xs else x :: keepNew (x :: seen) xs

/-- Whether an action writes the policy file `name`. -/
def Action.isPolicyFile (name : Str) : Action → Bool
  | Action.policyFile n _ => decide (n = name)
  | _ => false

/-- Whether an action writes the role file `name`. -/
def Action.isRoleFile (name : Str) : Action → Bool
  | Action.roleFile n _ => decide (n = name)
  | _ => false

/-- Whether an action stores the policy or the role called `name`. -/
def Action.isApply (name : Str) : Action → Bool
  | Action.putPolicy n _ => decide (n = name)
  | Action.writeRole n _ => decide (n = name)
  | _ => false

/-- The name under which the policy and the role of environment `x` are stored. -/
def applyName (c : AppConfig) (x : Str) : Str :=
  c.policyPrefix ++ "-".toList ++ (c.appName ++ "-".toList ++ x)

/-- The role document of environment `x`: what `genRole` writes for the application's own
policy followed by one policy per name of the comma-separated dependency list, with the
production flag set for `prod` and `qa`. -/
def roleDocOf (c : AppConfig) (x : Str) : Json :=
  marshalVaultRole
    (roleOf
      (some ((c.policyPrefix ++ "-".toList ++ c.appName ++ "-".toList ++ x) ::
        (if c.dependencyApps = [] then []
         else (stringsSplitComma c.dependencyApps).map
           (fun d => c.policyPrefix ++ "-".toList ++ d ++ "-".toList ++ x))))
      (decide (x = "prod".toList ∨ x = "qa".toList)) c.projectID c.policyLockProdClaims)

/-- Whether a text holds two closing braces in a row. -/
def hasDoubleClose : Str → Bool
  | [] => false
  | c :: rest => (c == '}' && rest.head? == some '}') || hasDoubleClose rest

/-- The name under which the loop of `resolveEnvVarsInString` looks a match up: the match
trimmed of `{` and then of `}` at both ends. -/
def lookedUp (m : Str) : Str := stringsTrim (stringsTrim m ['{']) ['}']

/-- The line logged for a match whose name the environment does not define. -/
def warnLine (stringIdentifier m : Str) : Str :=
  "WARN: unable to lookup env var ".toList ++ lookedUp m
    ++ " passed in string: ".toList ++ stringIdentifier

/-- The matches of a text, one per occurrence, whose name the lookup does not define. -/
def undefinedMatches (lookupEnv : Str → Option Str) (text : Str) : List Str :=
  (findAllPlaceholders text).filter (fun m => (lookupEnv (lookedUp m)).isNone)

/-- One line of the env file for key `k` and value `v`. -/
def envLine (removeExport : Bool) (k v : Str) : Str :=
  (if removeExport then [] else "export ".toList) ++ k ++ "=\x22".toList ++ v
    ++ "\x22\n".toList

/-- The names `deleteAllPoliciesAndRoles` goes through for the environments `envs`. -/
def deleteTargets (c : AppConfig) (envs : List Str) : List Str :=
  envs.map (fun x => c.policyPrefix ++ "-".toList ++ c.appName ++ "-".toList ++ x)

/-- The actions a round of the main loop can take for environment `x`. -/
def IsActionOf (c : AppConfig) (x : Str) (a : Action) : Prop :=
  (∃ blocks, a = Action.policyFile (destPolicyFile c x) blocks) ∨
  a = Action.roleFile (destRoleFile c x) (roleDocOf c x) ∨
  a = Action.putPolicy (applyName c x) (destPolicyFile c x) ∨
  a = Action.writeRole (applyName c x) (destRoleFile c x)

/-! ## A small concrete world, used to run the definitions -/

/-- The manifest files of the example: `vh/app` has `base.yaml`, `dev.yaml` and `prod.yaml`;
the other application folders have a `dev.yaml` only. -/
def exFiles : List Str :=
  ["vh/app/base.yaml".toList, "vh/app/dev.yaml".toList, "vh/app/prod.yaml".toList,
   "vh/layers/dev.yaml".toList, "vh/legacy/dev.yaml".toList, "vh/versioned/dev.yaml".toList,
   "vh/badfull/dev.yaml".toList, "vh/badkey/dev.yaml".toList, "vh/single/dev.yaml".toList,
   "vh/twin/base.yaml".toList, "vh/twin/dev.yaml".toList,
   "pol/a/dev.yaml".toList, "pol/a/local.yaml".toList, "pol/a/qa.yaml".toList,
   "pol/b/dev.yaml".toList, "pol/c/dev.yaml".toList,
   "vh/solo/prod.yaml".toList, "vh/clash/dev.yaml".toList]

/-- Go `os.Stat` in the example. -/
def exStat (f : Str) : FileStat :=
  if f ∈ exFiles then FileStat.file else FileStat.notExist

/-- File contents are stood for by short tags (the YAML text itself is not modelled). -/
def exReadFile (f : Str) : Except Str Str :=
  if f = "vh/app/base.yaml".toList then Except.ok "base for \x7b\x7bTEAM\x7d\x7d".toList
  else if f = "vh/app/dev.yaml".toList then Except.ok "dev".toList
  else if f = "vh/app/prod.yaml".toList then Except.ok "prod".toList
  else if f = "vh/layers/dev.yaml".toList then Except.ok "layers".toList
  else if f = "vh/legacy/dev.yaml".toList then Except.ok "legacy".toList
  else if f = "vh/versioned/dev.yaml".toList then Except.ok "versioned".toList
  else if f = "vh/badfull/dev.yaml".toList then Except.ok "badfull".toList
  else if f = "vh/badkey/dev.yaml".toList then Except.ok "badkey".toList
  else if f = "vh/single/dev.yaml".toList then Except.ok "single".toList
  else if f = "vh/twin/base.yaml".toList then Except.ok "twin".toList
  else if f = "vh/twin/dev.yaml".toList then Except.ok "twin".toList
  else if f = "pol/a/dev.yaml".toList then Except.ok "pol-a-dev".toList
  else if f = "pol/a/local.yaml".toList then Except.ok "pol-a-local".toList
  else if f = "pol/a/qa.yaml".toList then Except.ok "pol-a-qa".toList
  else if f = "pol/b/dev.yaml".toList then Except.ok "pol-b-dev".toList
  else if f = "pol/c/dev.yaml".toList then Except.ok "pol-c-dev".toList
  else if f = "vh/solo/prod.yaml".toList then Except.ok "solo".toList
  else if f = "vh/clash/dev.yaml".toList then Except.ok "clash".toList
  else Except.error "no such file".toList

/-- The base manifest of `vh/app`. -/
def exBase : SecretConfig :=
  { SecretName := "app-base".toList
    KeyConfig := some
      [("EXAMPLE_PASS".toList,
          { Path := "secret/machine/api".toList, Key := "API_KEY".toList, Base64 := false }),
       ("ADMIN_USER".toList,
          { Path := "secret/machine/admin".toList, Key := "username".toList, Base64 := false })]
    FullSecretConfigPaths := some ["config/app/base".toList] }

/-- The `dev` manifest of `vh/app`. -/
def exDev : SecretConfig :=
  { SecretName := "app".toList
    KeyConfig := none
    FullSecretConfigPaths := some ["config/app/dev".toList] }

/-- The `prod` manifest of `vh/app`. -/
def exProd : SecretConfig :=
  { SecretName := "app".toList
    KeyConfig := some
      [("EXAMPLE_PASS".toList,
          { Path := "secret/machine/prod/api".toList, Key := "PROD_API_KEY".toList,
            Base64 := true })]
    FullSecretConfigPaths := some ["config/app/prod".toList] }

/-- Three full-path entries that all hold a field `k`. -/
def exLayers : SecretConfig :=
  { SecretName := "layers".toList
    KeyConfig := none
    FullSecretConfigPaths := some ["l/one".toList, "l/two".toList, "l/three".toList] }

/-- One key whose field is missing from a flat (legacy) secret. -/
def exLegacy : SecretConfig :=
  { SecretName := "legacy".toList
    KeyConfig := some
      [("DB_PASS".toList, { Path := "kv1/db".toList, Key := "password".toList, Base64 := false })]
    FullSecretConfigPaths := none }

/-- One key whose field is missing from a wrapped (versioned) secret. -/
def exVersioned : SecretConfig :=
  { SecretName := "versioned".toList
    KeyConfig := some
      [("DB_PASS".toList, { Path := "kv2/db".toList, Key := "password".toList, Base64 := false })]
    FullSecretConfigPaths := none }

/-- One full-path entry whose secret has a `data` wrapper that is not a map. -/
def exBadFull : SecretConfig :=
  { SecretName := "badfull".toList
    KeyConfig := none
    FullSecretConfigPaths := some ["bad/x".toList] }

/-- One key whose secret has a `data` wrapper that is not a map. -/
def exBadKey : SecretConfig :=
  { SecretName := "badkey".toList
    KeyConfig := some
      [("TOKEN".toList, { Path := "bad/x".toList, Key := "token".toList, Base64 := false })]
    FullSecretConfigPaths := none }

/-- One full-path entry and no keys. -/
def exSingle : SecretConfig :=
  { SecretName := "single".toList
    KeyConfig := none
    FullSecretConfigPaths := some ["config/app/base".toList] }

/-- The manifest that `vh/twin` holds twice, as `base.yaml` and as `dev.yaml`. -/
def exTwin : SecretConfig :=
  { SecretName := "twin".toList
    KeyConfig := some
      [("TOKEN".toList, { Path := "secret/twin".toList, Key := "token".toList, Base64 := false })]
    FullSecretConfigPaths := some ["config/twin".toList] }

/-- Application `a` of the folder `pol`, environment `dev`. -/
def exPolA : SecretConfig :=
  { SecretName := "a".toList
    KeyConfig := some
      [("DB_PASS".toList, { Path := "secret/a/db".toList, Key := "password".toList, Base64 := false })]
    FullSecretConfigPaths := some ["config/a".toList] }

/-- Application `a`, environment `qa`. -/
def exPolAQa : SecretConfig :=
  { SecretName := "a".toList
    KeyConfig := some
      [("API_KEY".toList, { Path := "secret/a/qa/api".toList, Key := "key".toList, Base64 := false })]
    FullSecretConfigPaths := none }

/-- Application `a`, environment `local`: a path with an unresolved variable as a whole
segment. -/
def exPolALocal : SecretConfig :=
  { SecretName := "a".toList
    KeyConfig := some
      [("DB_PASS".toList,
          { Path := "users/ENV_VAR_NOT_FOUND/db/somedb/dev".toList, Key := "password".toList,
            Base64 := false })]
    FullSecretConfigPaths := none }

/-- Application `b`, environment `dev`: the logical name `DB_PASS` again, for another path. -/
def exPolB : SecretConfig :=
  { SecretName := "b".toList
    KeyConfig := some
      [("DB_PASS".toList, { Path := "secret/b/db".toList, Key := "password".toList, Base64 := false })]
    FullSecretConfigPaths := some ["config/b".toList] }

/-- Application `c`, environment `dev`: two paths that end in an unresolved variable. -/
def exPolC : SecretConfig :=
  { SecretName := "c".toList
    KeyConfig := some
      [("API".toList,
          { Path := "secret/x/api-ENV_VAR_NOT_FOUND".toList, Key := "token".toList, Base64 := false }),
       ("WEB".toList,
          { Path := "secret/x/web-ENV_VAR_NOT_FOUND".toList, Key := "token".toList, Base64 := false })]
    FullSecretConfigPaths := none }

/-- The only manifest of `vh/solo`, a folder with a `prod.yaml` and neither `base.yaml` nor
`dev.yaml`. -/
def exSolo : SecretConfig :=
  { SecretName := "solo".toList
    KeyConfig := some
      [("TOKEN".toList, { Path := "secret/solo/api".toList, Key := "token".toList, Base64 := false })]
    FullSecretConfigPaths := none }

/-- A manifest whose key `DB_USER` has the upper-cased name of the field `db_user` that its
full-path entry pulls. -/
def exClash : SecretConfig :=
  { SecretName := "clash".toList
    KeyConfig := some
      [("DB_USER".toList,
          { Path := "secret/machine/api".toList, Key := "API_KEY".toList, Base64 := false })]
    FullSecretConfigPaths := some ["config/app/base".toList] }

/-- The decoder of the example: each (resolved) file content to its manifest. -/
def exYaml (content : Str) : Except Str SecretConfig :=
  if content = "base for core".toList then Except.ok exBase
  else if content = "dev".toList then Except.ok exDev
  else if content = "prod".toList then Except.ok exProd
  else if content = "layers".toList then Except.ok exLayers
  else if content = "legacy".toList then Except.ok exLegacy
  else if content = "versioned".toList then Except.ok exVersioned
  else if content = "badfull".toList then Except.ok exBadFull
  else if content = "badkey".toList then Except.ok exBadKey
  else if content = "single".toList then Except.ok exSingle
  else if content = "twin".toList then Except.ok exTwin
  else if content = "pol-a-dev".toList then Except.ok exPolA
  else if content = "pol-a-local".toList then Except.ok exPolALocal
  else if content = "pol-a-qa".toList then Except.ok exPolAQa
  else if content = "pol-b-dev".toList then Except.ok exPolB
  else if content = "pol-c-dev".toList then Except.ok exPolC
  else if content = "solo".toList then Except.ok exSolo
  else if content = "clash".toList then Except.ok exClash
  else Except.error "yaml: unmarshal error".toList

/-- The environment of the example defines `TEAM`, `ANIMAL` and `SUFFIX`. -/
def exLookupEnv (name : Str) : Option Str :=
  if name = "TEAM".toList then some "core".toList
  else if name = "ANIMAL".toList then some "trex".toList
  else if name = "SUFFIX".toList then some "3".toList
  else none

/-- The example world; upper-casing is that of ASCII letters. -/
def exWorld : World :=
  { stat := exStat
    readFile := exReadFile
    yamlUnmarshal := exYaml
    lookupEnv := exLookupEnv
    toUpper := fun s => s.map Char.toUpper }

/-- A secret as a versioned engine returns it: the fields under `data`, next to `metadata`. -/
def exWrapped (fields : GoMap Val) : ReadResult :=
  ReadResult.found
    { Data := [("data".toList, Val.map fields),
               ("metadata".toList, Val.map [("version".toList, Val.num "1".toList)])]
      Warnings := [] }

/-- A secret as a legacy engine returns it: the flat field map. -/
def exFlat (fields : GoMap Val) : ReadResult :=
  ReadResult.found { Data := fields, Warnings := [] }

/-- The store of the example. -/
def exClient : Client := fun path =>
  if path = "config/data/app/base".toList then
    exWrapped [("db_user".toList, Val.str "admin".toList),
               ("region".toList, Val.str "\x7b\x7bTEAM\x7d\x7d-east".toList)]
  else if path = "config/data/app/prod".toList then
    exFlat [("db_user".toList, Val.str "root".toList)]
  else if path = "secret/data/machine/api".toList then
    exWrapped [("API_KEY".toList, Val.str "k1".toList)]
  else if path = "secret/data/machine/admin".toList then
    exWrapped [("username".toList, Val.str "u-\x7b\x7bNOPE\x7d\x7d".toList)]
  else if path = "secret/data/machine/prod/api".toList then
    exWrapped [("PROD_API_KEY".toList, Val.str "imadirtysecret-\x7b\x7bSUFFIX\x7d\x7d".toList)]
  else if path = "l/data/one".toList then exFlat [("k".toList, Val.str "a".toList)]
  else if path = "l/data/two".toList then exFlat [("k".toList, Val.str "b".toList)]
  else if path = "l/data/three".toList then exFlat [("k".toList, Val.str "c".toList)]
  else if path = "kv1/data/db".toList then exFlat [("username".toList, Val.str "u".toList)]
  else if path = "kv2/data/db".toList then exWrapped [("username".toList, Val.str "u".toList)]
  else if path = "bad/data/x".toList then
    exFlat [("data".toList, Val.str "oops".toList)]
  else ReadResult.absent

/-- The fields of the secret the example store holds under `config/data/app/base`. -/
def exBaseFields : GoMap Val :=
  [("db_user".toList, Val.str "admin".toList),
   ("region".toList, Val.str "\x7b\x7bTEAM\x7d\x7d-east".toList)]

/-- The secret the example store returns for `config/data/app/base`. -/
def exBaseSecret : Secret :=
  { Data := [("data".toList, Val.map exBaseFields),
             ("metadata".toList, Val.map [("version".toList, Val.num "1".toList)])]
    Warnings := [] }

/-- The writing side of the example: the three application folders of `pol` can be walked,
and every write and store request succeeds. -/
def exOutside : Outside :=
  { walk := fun folder =>
      if folder = "pol/a".toList then
        Except.ok ["a".toList, "dev.yaml".toList, "local.yaml".toList, "qa.yaml".toList]
      else if folder = "pol/b".toList then Except.ok ["b".toList, "dev.yaml".toList]
      else if folder = "pol/c".toList then Except.ok ["c".toList, "dev.yaml".toList]
      else Except.error ("lstat ".toList ++ folder ++ ": no such file or directory".toList)
    createFile := fun _ => none
    writeFile := fun _ => none
    readFile := fun _ => none
    putPolicy := fun _ => none
    writeRole := fun _ => none
    deletePolicy := fun _ => none
    deleteRole := fun _ => none }

/-- The writing side of the example with a store that refuses the role of `dev`. -/
def exOutsideRoleFails : Outside :=
  { exOutside with
    writeRole := fun path =>
      if path = "auth/jwt/role/vh-main-dev".toList then some "permission denied".toList
      else none }

/-- The configuration of the example for the application set `apps`. -/
def exConfig (apps : List Str) : AppConfig :=
  { vhFolder := "pol".toList
    apps := apps
    appName := "main".toList
    projectID := "15".toList
    applyConfig := true
    policyPrefix := "vh".toList
    policyLockProdClaims := true
    dependencyApps := "a,b".toList }

/-- The key definitions `genPolicy` gathers for application `a` in `qa` (`dev.yaml` as base,
`qa.yaml` on top). -/
def exKeysQa : GoMap KeyDef :=
  [("DB_PASS".toList, { Path := "secret/a/db".toList, Key := "password".toList, Base64 := false }),
   ("API_KEY".toList, { Path := "secret/a/qa/api".toList, Key := "key".toList, Base64 := false })]

/-- The role document of the example for `qa`: own policy first, the dependencies `a` and
`b` after it, locked to `master`. -/
def exRoleQa : Json :=
  Json.obj
    [("role_type".toList, Json.str "jwt".toList),
     ("policies".toList,
        Json.arr [Json.str "vh-main-qa".toList, Json.str "vh-a-qa".toList,
          Json.str "vh-b-qa".toList]),
     ("token_explicit_max_ttl".toList, Json.num 60),
     ("user_claim".toList, Json.str "user_email".toList),
     ("bound_claims_type".toList, Json.str "glob".toList),
     ("bound_claims".toList,
        Json.obj
          [("project_id".toList, Json.str "15".toList),
           ("ref".toList, Json.str "master".toList),
           ("ref_type".toList, Json.str "branch".toList)])]

/-! ## Lemmas on the string library -/

theorem insertEach_zero (new s : Str) : insertEach new (some 0) s = s := by
  cases s <;> simp [insertEach]

theorem replaceFrom_skip (old new : Str) (lim : Option Nat) (pre s : Str) :
    replaceFrom old new lim pre.length (pre ++ s) = replaceFrom old new lim 0 s := by
  induction pre with
  | nil => rfl
  | cons c pre ih => simpa [replaceFrom] using ih

theorem replaceFrom_zero (old new s : Str) : replaceFrom old new (some 0) 0 s = s := by
  induction s with
  | nil => rfl
  | cons c s ih => simp [replaceFrom, ih]

theorem findStore_append (s r : Str) (hs : ∀ c ∈ s, c ≠ '/')
    (hr : r = [] ∨ ∃ t, r = '/' :: t) : findStore (s ++ r) = s := by
  induction s with
  | nil =>
    rcases hr with rfl | ⟨t, rfl⟩ <;> simp [findStore]
  | cons c s ih =>
    have hc : c ≠ '/' := hs c (List.mem_cons_self _ _)
    have ih2 := ih (fun d hd => hs d (List.mem_cons_of_mem _ hd))
    simp only [findStore] at ih2 ⊢
    have hb : (c != '/') = true := by simpa using hc
    simp [List.takeWhile, hb, ih2]

theorem isPrefixOf_append_self (P s : Str) : P.isPrefixOf (P ++ s) = true := by
  induction P with
  | nil => simp [List.isPrefixOf]
  | cons c P ih => simp [List.isPrefixOf, ih]

theorem stringsReplace_once_leading (c : Char) (s r new : Str) (hne : c :: s ≠ new) :
    stringsReplace (c :: s ++ r) (c :: s) new 1 = new ++ r := by
  have hpre : (c :: s).isPrefixOf (c :: (s ++ r)) = true := isPrefixOf_append_self (c :: s) r
  have hskip := replaceFrom_skip (c :: s) new (some 0) s r
  rw [replaceFrom_zero] at hskip
  have hlim : (some 1 : Option Nat) ≠ some 0 := by decide
  have hstep : replaceFrom (c :: s) new (some 1) 0 (c :: (s ++ r))
      = new ++ replaceFrom (c :: s) new (some 0) s.length (s ++ r) := by
    rw [replaceFrom, if_pos ⟨hlim, hpre⟩]
    rfl
  have hn : ¬ (c :: s = new ∨ (1 : Int) = 0) := by
    intro h
    rcases h with h | h
    · exact hne h
    · exact absurd h (by decide)
  have hc : c :: s ≠ [] := List.cons_ne_nil c s
  rw [stringsReplace, if_neg hn]
  simp only [hc, if_false]
  exact hstep.trans (by rw [hskip])

theorem stringsReplace_once_emptyOld (p new : Str) (hne : new ≠ []) :
    stringsReplace p [] new 1 = new ++ p := by
  have hn : ¬ (([] : Str) = new ∨ (1 : Int) = 0) := by
    intro h
    rcases h with h | h
    · exact hne h.symm
    · exact absurd h (by decide)
  rw [stringsReplace, if_neg hn]
  cases p with
  | nil => simp [insertEach]
  | cons c p => simp [insertEach, insertEach_zero]

/-- C1. `modSecretPath` inserts `/data` right after the first path segment: for `p = s ++ r`
with `s` free of `/` and `r` empty or starting with `/`, the result is `s ++ "/data" ++ r`;
this covers every input (closed form by `takeWhile`/`dropWhile`), in particular
`secret/foo/bar`, the empty string and paths starting with `/`. -/
theorem modSecretPath_spec :
    (∀ s r : Str, (∀ c ∈ s, c ≠ '/') → (r = [] ∨ ∃ t, r = '/' :: t) →
        modSecretPath (s ++ r) = s ++ "/data".toList ++ r) ∧
    (∀ p : Str, modSecretPath p =
        p.takeWhile (fun c => c != '/') ++ "/data".toList ++ p.dropWhile (fun c => c != '/')) ∧
    modSecretPath "secret/foo/bar".toList = "secret/data/foo/bar".toList ∧
    modSecretPath [] = "/data".toList ∧
    modSecretPath "/foo".toList = "/data/foo".toList := by
  have main : ∀ s r : Str, (∀ c ∈ s, c ≠ '/') → (r = [] ∨ ∃ t, r = '/' :: t) →
      modSecretPath (s ++ r) = s ++ "/data".toList ++ r := by
    intro s r hs hr
    have hst : findStore (s ++ r) = s := findStore_append s r hs hr
    have hne : s ≠ "/data".toList := by
      intro h
      exact hs '/' (by rw [h]; decide) rfl
    simp only [modSecretPath, hst]
    cases s with
    | nil =>
      exact stringsReplace_once_emptyOld r "/data".toList (by decide)
    | cons c s =>
      rw [stringsReplace_once_leading c s r "/data".toList hne, List.append_assoc]
  refine ⟨main, ?_, ?_, ?_, ?_⟩
  · intro p
    have h := main (p.takeWhile (fun c => c != '/')) (p.dropWhile (fun c => c != '/'))
      (by
        intro c hc
        have := List.mem_takeWhile_imp hc
        simpa using this)
      (by
        cases hd : p.dropWhile (fun c => c != '/') with
        | nil => exact Or.inl rfl
        | cons d t =>
          right
          have := List.head_dropWhile_not (fun c => c != '/') p (by simp [hd])
          simp [hd] at this
          exact ⟨t, by rw [this]⟩)
    rw [List.takeWhile_append_dropWhile] at h
    exact h
  · decide
  · decide
  · decide

/-- Witness for C1 at `s = "secret"`, `r = "/foo/bar"`. -/
theorem modSecretPath_spec_witness :
    modSecretPath ("secret".toList ++ "/foo/bar".toList)
      = "secret".toList ++ "/data".toList ++ "/foo/bar".toList :=
  modSecretPath_spec.1 "secret".toList "/foo/bar".toList (by decide) (Or.inr ⟨"foo/bar".toList, rfl⟩)


/-! ## Placeholders: matching and replacement -/

theorem scanName_name (N rest : Str) (hN : ∀ x ∈ N, x ≠ '}' ∧ x ≠ '\n') :
    scanName (N ++ '}' :: '}' :: rest) = some (N, rest) := by
  induction N with
  | nil => simp [scanName]
  | cons c N ih =>
    obtain ⟨h1, h2⟩ := hN c (List.mem_cons_self _ _)
    have ih2 := ih (fun x hx => hN x (List.mem_cons_of_mem _ hx))
    simp [scanName, h1, h2, ih2]

theorem matchPlaceholder_placeholder (N rest : Str) (hN : ∀ x ∈ N, x ≠ '}' ∧ x ≠ '\n') :
    matchPlaceholder (placeholder N ++ rest) = some (placeholder N) := by
  have h : placeholder N ++ rest = '{' :: '{' :: (N ++ '}' :: '}' :: rest) := by
    simp [placeholder]
  rw [h]
  simp [matchPlaceholder, scanName_name N rest hN, placeholder]

theorem matchPlaceholder_of_ne (c : Char) (rest : Str) (hc : c ≠ '{') :
    matchPlaceholder (c :: rest) = none := by
  cases rest <;> simp [matchPlaceholder, hc]

theorem findAllFrom_skip (pre s : Str) :
    findAllFrom pre.length (pre ++ s) = findAllFrom 0 s := by
  induction pre with
  | nil => rfl
  | cons c pre ih => simpa [findAllFrom] using ih

theorem findAllFrom_chunk (c0 s : Str) (h : ∀ x ∈ c0, x ≠ '{') :
    findAllFrom 0 (c0 ++ s) = findAllFrom 0 s := by
  induction c0 with
  | nil => rfl
  | cons c c0 ih =>
    have hc := h c (List.mem_cons_self _ _)
    have ih2 := ih (fun x hx => h x (List.mem_cons_of_mem _ hx))
    simp [findAllFrom, matchPlaceholder_of_ne c _ hc, ih2]

theorem findAllFrom_placeholder (N rest : Str) (hN : ∀ x ∈ N, x ≠ '}' ∧ x ≠ '\n') :
    findAllFrom 0 (placeholder N ++ rest) = placeholder N :: findAllFrom 0 rest := by
  have hm := matchPlaceholder_placeholder N rest hN
  have hsk := findAllFrom_skip ('{' :: (N ++ ['}', '}'])) rest
  have hcons : placeholder N ++ rest = '{' :: (('{' :: (N ++ ['}', '}'])) ++ rest) := rfl
  have hlen : (placeholder N).length - 1 = ('{' :: (N ++ ['}', '}'])).length := by
    simp [placeholder]
  rw [hcons, findAllFrom, ← hcons, hm]
  simp only [hlen, hsk]

theorem findAll_interleave (N : Str) (hN : ∀ x ∈ N, x ≠ '}' ∧ x ≠ '\n') :
    ∀ (cs : List Str) (c0 : Str), (∀ c ∈ c0 :: cs, ∀ x ∈ c, x ≠ '{') →
      findAllPlaceholders (interleave (placeholder N) c0 cs)
        = List.replicate cs.length (placeholder N) := by
  intro cs
  induction cs with
  | nil =>
    intro c0 h
    have h0 := findAllFrom_chunk c0 [] (h c0 (List.mem_cons_self _ _))
    simpa [findAllPlaceholders, interleave, findAllFrom] using h0
  | cons c cs ih =>
    intro c0 h
    have h0 := h c0 (List.mem_cons_self _ _)
    have ih2 := ih c (fun d hd => h d (List.mem_cons_of_mem _ hd))
    simp only [findAllPlaceholders] at ih2 ⊢
    simp only [interleave, List.append_assoc, List.length_cons, List.replicate_succ]
    rw [findAllFrom_chunk c0 _ h0, findAllFrom_placeholder N _ hN, ih2]

theorem isPrefixOf_placeholder_of_ne (N : Str) (c : Char) (rest : Str) (hc : c ≠ '{') :
    (placeholder N).isPrefixOf (c :: rest) = false := by
  have hc2 : ¬ '{' = c := fun h => hc h.symm
  simp [placeholder, List.isPrefixOf, hc2]

theorem replaceFrom_chunk (N new c0 s : Str) (h : ∀ x ∈ c0, x ≠ '{') :
    replaceFrom (placeholder N) new none 0 (c0 ++ s)
      = c0 ++ replaceFrom (placeholder N) new none 0 s := by
  induction c0 with
  | nil => rfl
  | cons c c0 ih =>
    have hc := h c (List.mem_cons_self _ _)
    have ih2 := ih (fun x hx => h x (List.mem_cons_of_mem _ hx))
    simp [replaceFrom, isPrefixOf_placeholder_of_ne N c _ hc, ih2]

theorem replaceFrom_placeholder (N new s : Str) :
    replaceFrom (placeholder N) new none 0 (placeholder N ++ s)
      = new ++ replaceFrom (placeholder N) new none 0 s := by
  have hp := isPrefixOf_append_self (placeholder N) s
  have hsk := replaceFrom_skip (placeholder N) new none ('{' :: (N ++ ['}', '}'])) s
  have hcons : placeholder N ++ s = '{' :: (('{' :: (N ++ ['}', '}'])) ++ s) := rfl
  have hlen : (placeholder N).length - 1 = ('{' :: (N ++ ['}', '}'])).length := by
    simp [placeholder]
  rw [hcons, replaceFrom, ← hcons, hp, hlen, Option.map_none', hsk]
  simp

theorem replaceFrom_interleave (N new : Str) :
    ∀ (cs : List Str) (c0 : Str), (∀ c ∈ c0 :: cs, ∀ x ∈ c, x ≠ '{') →
      replaceFrom (placeholder N) new none 0 (interleave (placeholder N) c0 cs)
        = interleave new c0 cs := by
  intro cs
  induction cs with
  | nil =>
    intro c0 h
    have h0 := replaceFrom_chunk N new c0 [] (h c0 (List.mem_cons_self _ _))
    simpa [interleave, replaceFrom] using h0
  | cons c cs ih =>
    intro c0 h
    have h0 := h c0 (List.mem_cons_self _ _)
    have ih2 := ih c (fun d hd => h d (List.mem_cons_of_mem _ hd))
    simp only [interleave, List.append_assoc]
    rw [replaceFrom_chunk N new c0 _ h0, replaceFrom_placeholder, ih2]

theorem placeholder_ne_of_noBrace (N v : Str) (hv : ∀ x ∈ v, x ≠ '{') : placeholder N ≠ v := by
  intro h
  exact hv '{' (by rw [← h]; simp [placeholder]) rfl

theorem stringsReplaceAll_interleave (N new : Str) (hnew : ∀ x ∈ new, x ≠ '{')
    (cs : List Str) (c0 : Str) (h : ∀ c ∈ c0 :: cs, ∀ x ∈ c, x ≠ '{') :
    stringsReplaceAll (interleave (placeholder N) c0 cs) (placeholder N) new
      = interleave new c0 cs := by
  have hne := placeholder_ne_of_noBrace N new hnew
  have hne2 : placeholder N ≠ [] := by simp [placeholder]
  simp [stringsReplaceAll, stringsReplace, hne, hne2, replaceFrom_interleave N new cs c0 h]

theorem stringsReplaceAll_noBrace (N new s : Str) (h : ∀ x ∈ s, x ≠ '{') :
    stringsReplaceAll s (placeholder N) new = s := by
  have hne2 : placeholder N ≠ [] := by simp [placeholder]
  have h0 := replaceFrom_chunk N new s [] h
  by_cases hon : placeholder N = new
  · simp [stringsReplaceAll, stringsReplace, hon]
  · simpa [stringsReplaceAll, stringsReplace, hon, hne2, replaceFrom] using h0

theorem interleave_noBrace (new : Str) (hnew : ∀ x ∈ new, x ≠ '{') :
    ∀ (cs : List Str) (c0 : Str), (∀ c ∈ c0 :: cs, ∀ x ∈ c, x ≠ '{') →
      ∀ x ∈ interleave new c0 cs, x ≠ '{' := by
  intro cs
  induction cs with
  | nil =>
    intro c0 h x hx
    exact h c0 (List.mem_cons_self _ _) x hx
  | cons c cs ih =>
    intro c0 h x hx
    simp only [interleave, List.mem_append] at hx
    rcases hx with (hx | hx) | hx
    · exact h c0 (List.mem_cons_self _ _) x hx
    · exact hnew x hx
    · exact ih c (fun d hd => h d (List.mem_cons_of_mem _ hd)) x hx

theorem stringsTrim_placeholder (N : Str) (hN : ∀ x ∈ N, x ≠ '{' ∧ x ≠ '}') :
    stringsTrim (stringsTrim (placeholder N) ['{']) ['}'] = N := by
  cases N with
  | nil => decide
  | cons a N =>
    obtain ⟨ha1, ha2⟩ := hN a (List.mem_cons_self _ _)
    have hlast : ∀ (l : Str), (∀ x ∈ l, x ≠ '{' ∧ x ≠ '}') →
        List.rdropWhile (fun c => ['}'].contains c) (l ++ ['}', '}']) = l := by
      intro l hl
      have e : l ++ ['}', '}'] = (l ++ ['}']) ++ ['}'] := by simp
      rw [e, List.rdropWhile_concat_pos _ _ _ (by simp), List.rdropWhile_concat_pos _ _ _ (by simp)]
      rw [List.rdropWhile_eq_self_iff]
      intro hne
      have := (hl _ (List.getLast_mem hne)).2
      simpa using this
    have hfirst : List.rdropWhile (fun c => ['{'].contains c) (a :: N ++ ['}', '}'])
        = a :: N ++ ['}', '}'] := by
      have e : a :: N ++ ['}', '}'] = (a :: N ++ ['}']) ++ ['}'] := by simp
      rw [e, List.rdropWhile_concat_neg _ _ _ (by decide)]
    have hd1 : List.dropWhile (fun c => ['{'].contains c) (placeholder (a :: N))
        = a :: N ++ ['}', '}'] := by
      simp [placeholder, List.dropWhile, ha1]
    have hd2 : List.dropWhile (fun c => ['}'].contains c) (a :: N ++ ['}', '}'])
        = a :: N ++ ['}', '}'] := by
      simp [List.dropWhile, ha2]
    simp only [stringsTrim, hd1, hfirst, hd2]
    exact hlast (a :: N) hN

theorem resolveLoop_noBrace (lookupEnv : Str → Option Str) (ident N : Str) :
    ∀ (n : Nat) (s : Str) (log : List Str), (∀ x ∈ s, x ≠ '{') →
      (resolveLoop lookupEnv ident (List.replicate n (placeholder N)) (s, log)).1 = s := by
  intro n
  induction n with
  | zero => intro s log _; rfl
  | succ n ih =>
    intro s log hs
    simp only [List.replicate_succ, resolveLoop]
    cases lookupEnv (stringsTrim (stringsTrim (placeholder N) ['{']) ['}']) with
    | none =>
      simp only [stringsReplaceAll_noBrace N _ s hs]
      exact ih s _ hs
    | some v =>
      simp only [stringsReplaceAll_noBrace N _ s hs]
      exact ih s _ hs

theorem resolve_interleave (lookupEnv : Str → Option Str) (ident N r c0 c1 : Str)
    (cs : List Str)
    (hchunks : ∀ c ∈ c0 :: c1 :: cs, ∀ x ∈ c, x ≠ '{')
    (hN : ∀ x ∈ N, x ≠ '{' ∧ x ≠ '}' ∧ x ≠ '\n')
    (hr : ∀ x ∈ r, x ≠ '{')
    (hlook : (lookupEnv N).getD envVarNotFound = r) :
    (resolveEnvVarsInString lookupEnv (interleave (placeholder N) c0 (c1 :: cs)) ident).fullFile
      = interleave r c0 (c1 :: cs) := by
  have hN1 : ∀ x ∈ N, x ≠ '}' ∧ x ≠ '\n' := fun x hx => ⟨(hN x hx).2.1, (hN x hx).2.2⟩
  have hN2 : ∀ x ∈ N, x ≠ '{' ∧ x ≠ '}' := fun x hx => ⟨(hN x hx).1, (hN x hx).2.1⟩
  have hfind := findAll_interleave N hN1 (c1 :: cs) c0 hchunks
  have htrim := stringsTrim_placeholder N hN2
  have hrep := stringsReplaceAll_interleave N r hr (c1 :: cs) c0 hchunks
  have hnb := interleave_noBrace r hr (c1 :: cs) c0 hchunks
  simp only [resolveEnvVarsInString, hfind, List.length_cons, List.replicate_succ, resolveLoop,
    htrim]
  cases hl : lookupEnv N with
  | none =>
    rw [hl] at hlook
    simp only [Option.getD_none] at hlook
    simp only [hlook, hrep]
    exact resolveLoop_noBrace lookupEnv ident N _ _ _ hnb
  | some v =>
    rw [hl] at hlook
    simp only [Option.getD_some] at hlook
    subst hlook
    simp only [hrep]
    exact resolveLoop_noBrace lookupEnv ident N _ _ _ hnb

/-- C4. For a text `c0 ++ "{{N}}" ++ c1 ++ ... ++ "{{N}}" ++ cn` (`n ≥ 1`) whose chunks hold
no `{` or `}`, a name `N` without `{`, `}` or newline, and a lookup giving `N` a value `v`
without `{`, `resolveEnvVarsInString` returns `c0 ++ v ++ c1 ++ ... ++ v ++ cn` and a nil
error: every occurrence of the placeholder is replaced by the value, nothing else changes. -/
theorem resolveEnvVarsInString_defined (lookupEnv : Str → Option Str)
    (ident N v c0 c1 : Str) (cs : List Str)
    (hchunks : ∀ c ∈ c0 :: c1 :: cs, ∀ x ∈ c, x ≠ '{' ∧ x ≠ '}')
    (hN : ∀ x ∈ N, x ≠ '{' ∧ x ≠ '}' ∧ x ≠ '\n')
    (hlook : lookupEnv N = some v)
    (hv : ∀ x ∈ v, x ≠ '{') :
    (resolveEnvVarsInString lookupEnv (interleave (placeholder N) c0 (c1 :: cs)) ident).fullFile
        = interleave v c0 (c1 :: cs) ∧
      (resolveEnvVarsInString lookupEnv (interleave (placeholder N) c0 (c1 :: cs)) ident).err
        = none :=
  ⟨resolve_interleave lookupEnv ident N v c0 c1 cs (fun c hc x hx => (hchunks c hc x hx).1) hN hv
      (by rw [hlook]; rfl), rfl⟩

/-- Witness for C4: with `ANIMAL=trex`, `my {{ANIMAL}} is at the dentist` becomes
`my trex is at the dentist`. -/
theorem resolveEnvVarsInString_defined_witness :
    (∀ c ∈ ["my ".toList, " is at the dentist".toList], ∀ x ∈ c, x ≠ '{' ∧ x ≠ '}') ∧
    (∀ x ∈ "ANIMAL".toList, x ≠ '{' ∧ x ≠ '}' ∧ x ≠ '\n') ∧
    exLookupEnv "ANIMAL".toList = some "trex".toList ∧
    (∀ x ∈ "trex".toList, x ≠ '{') ∧
    (resolveEnvVarsInString exLookupEnv "my \x7b\x7bANIMAL\x7d\x7d is at the dentist".toList
        "yourmomshouse.yaml".toList).fullFile = "my trex is at the dentist".toList ∧
    (resolveEnvVarsInString exLookupEnv "my \x7b\x7bANIMAL\x7d\x7d is at the dentist".toList
        "yourmomshouse.yaml".toList).err = none :=
  ⟨by decide, by decide, by decide, by decide,
    resolveEnvVarsInString_defined exLookupEnv "yourmomshouse.yaml".toList "ANIMAL".toList
      "trex".toList "my ".toList " is at the dentist".toList [] (by decide) (by decide)
      (by decide) (by decide)⟩

/-- C5. For a text `c0 ++ "{{N}}" ++ c1 ++ ... ++ "{{N}}" ++ cn` (`n ≥ 1`) whose chunks hold
no `{` or `}` and a name `N` (no `{`, `}` or newline) the lookup does not define,
`resolveEnvVarsInString` returns the text with every placeholder replaced by
`ENV_VAR_NOT_FOUND`, and a nil error. -/
theorem resolveEnvVarsInString_undefined (lookupEnv : Str → Option Str)
    (ident N c0 c1 : Str) (cs : List Str)
    (hchunks : ∀ c ∈ c0 :: c1 :: cs, ∀ x ∈ c, x ≠ '{' ∧ x ≠ '}')
    (hN : ∀ x ∈ N, x ≠ '{' ∧ x ≠ '}' ∧ x ≠ '\n')
    (hlook : lookupEnv N = none) :
    (resolveEnvVarsInString lookupEnv (interleave (placeholder N) c0 (c1 :: cs)) ident).fullFile
        = interleave "ENV_VAR_NOT_FOUND".toList c0 (c1 :: cs) ∧
      (resolveEnvVarsInString lookupEnv (interleave (placeholder N) c0 (c1 :: cs)) ident).err
        = none :=
  ⟨resolve_interleave lookupEnv ident N "ENV_VAR_NOT_FOUND".toList c0 c1 cs
      (fun c hc x hx => (hchunks c hc x hx).1) hN (by decide) (by rw [hlook]; rfl), rfl⟩

/-- Witness for C5: with `FRANK` undefined, `my {{FRANK}} is at the dentist` becomes
`my ENV_VAR_NOT_FOUND is at the dentist`. -/
theorem resolveEnvVarsInString_undefined_witness :
    (∀ c ∈ ["my ".toList, " is at the dentist".toList], ∀ x ∈ c, x ≠ '{' ∧ x ≠ '}') ∧
    (∀ x ∈ "FRANK".toList, x ≠ '{' ∧ x ≠ '}' ∧ x ≠ '\n') ∧
    exLookupEnv "FRANK".toList = none ∧
    (resolveEnvVarsInString exLookupEnv "my \x7b\x7bFRANK\x7d\x7d is at the dentist".toList
        "yourmomshouse.yaml".toList).fullFile = "my ENV_VAR_NOT_FOUND is at the dentist".toList ∧
    (resolveEnvVarsInString exLookupEnv "my \x7b\x7bFRANK\x7d\x7d is at the dentist".toList
        "yourmomshouse.yaml".toList).err = none :=
  ⟨by decide, by decide, by decide,
    resolveEnvVarsInString_undefined exLookupEnv "yourmomshouse.yaml".toList "FRANK".toList
      "my ".toList " is at the dentist".toList [] (by decide) (by decide) (by decide)⟩

/-! ## Lemmas on maps -/

theorem mapGet_nil {V : Type} (k : Str) : mapGet ([] : GoMap V) k = none := rfl

theorem mapGet_cons {V : Type} (k' : Str) (v : V) (m : GoMap V) (k : Str) :
    mapGet ((k', v) :: m) k = if k' = k then some v else mapGet m k := rfl

theorem mapSet_nil {V : Type} (k : Str) (v : V) : mapSet ([] : GoMap V) k v = [(k, v)] := rfl

theorem mapSet_cons {V : Type} (k' : Str) (v' : V) (m : GoMap V) (k : Str) (v : V) :
    mapSet ((k', v') :: m) k v
      = if k' = k then (k, v) :: m else (k', v') :: mapSet m k v := rfl

theorem mapGet_mapSet {V : Type} (m : GoMap V) (x k : Str) (v : V) :
    mapGet (mapSet m x v) k = if x = k then some v else mapGet m k := by
  induction m with
  | nil => rw [mapSet_nil, mapGet_cons, mapGet_nil]
  | cons e m ih =>
    obtain ⟨k', v'⟩ := e
    rw [mapSet_cons]
    by_cases h : k' = x
    · subst h
      rw [if_pos rfl, mapGet_cons, mapGet_cons]
      by_cases hk : k' = k
      · rw [if_pos hk, if_pos hk]
      · rw [if_neg hk, if_neg hk, if_neg hk]
    · rw [if_neg h, mapGet_cons, mapGet_cons, ih]
      by_cases hk : k' = k
      · have hx : ¬ x = k := fun h' => h (hk.trans h'.symm)
        rw [if_pos hk, if_neg hx, if_pos hk]
      · rw [if_neg hk, if_neg hk]

theorem mapGet_eq_none_iff {V : Type} (m : GoMap V) (k : Str) :
    mapGet m k = none ↔ k ∉ m.map Prod.fst := by
  induction m with
  | nil => exact ⟨fun _ h => (by cases h), fun _ => rfl⟩
  | cons e m ih =>
    obtain ⟨k', v'⟩ := e
    rw [mapGet_cons, List.map_cons, List.mem_cons]
    by_cases h : k' = k
    · rw [if_pos h]
      exact ⟨fun h' => (by cases h'), fun h' => absurd (Or.inl h.symm) h'⟩
    · rw [if_neg h, ih]
      constructor
      · intro h1 h2
        rcases h2 with h2 | h2
        · exact h h2.symm
        · exact h1 h2
      · intro h1 h2
        exact h1 (Or.inr h2)

theorem mapGet_of_mem_keys {V : Type} (m : GoMap V) (k : Str) (hk : k ∈ m.map Prod.fst) :
    ∃ v, mapGet m k = some v := by
  cases h : mapGet m k with
  | none => exact absurd hk ((mapGet_eq_none_iff m k).1 h)
  | some v => exact ⟨v, rfl⟩

/-! ## `mergeConfig` -/

theorem mergeKeys_some (envKeys : KeyConfig) (k : Str) :
    ∀ (ks : List Str) (m : GoMap KeyDef),
      (∀ x ∈ ks, ∃ d, mapGet (entries envKeys) x = some d) →
      mapGet (entries (mergeKeys envKeys ks (some m))) k
        = if k ∈ ks then mapGet (entries envKeys) k else mapGet m k := by
  intro ks
  induction ks with
  | nil => intro m _; simp [mergeKeys, entries]
  | cons x rest ih =>
    intro m hks
    obtain ⟨d, hd⟩ := hks x (List.mem_cons_self _ _)
    have hrest : ∀ y ∈ rest, ∃ d, mapGet (entries envKeys) y = some d :=
      fun y hy => hks y (List.mem_cons_of_mem _ hy)
    simp only [mergeKeys]
    rw [ih _ hrest, mapGet_mapSet, hd]
    by_cases hkr : k ∈ rest
    · simp [hkr]
    · by_cases hxk : x = k
      · subst hxk
        simp [hd]
      · have hkx : ¬ k = x := fun h => hxk h.symm
        simp [hkr, hxk, hkx]

theorem mergeKeys_lookup (envKeys baseKeys : KeyConfig) (k : Str) :
    mapGet (entries (mergeKeys envKeys ((entries envKeys).map Prod.fst) baseKeys)) k
      = match mapGet (entries envKeys) k with
        | some d => some d
        | none => mapGet (entries baseKeys) k := by
  have hall : ∀ x ∈ (entries envKeys).map Prod.fst, ∃ d, mapGet (entries envKeys) x = some d :=
    fun x hx => mapGet_of_mem_keys _ x hx
  cases baseKeys with
  | some m =>
    rw [mergeKeys_some envKeys k _ m hall]
    by_cases hk : k ∈ (entries envKeys).map Prod.fst
    · obtain ⟨d, hd⟩ := hall k hk
      rw [if_pos hk, hd]
    · have hn := (mapGet_eq_none_iff (entries envKeys) k).2 hk
      rw [if_neg hk, hn]
      rfl
  | none =>
    cases envKeys with
    | none => rfl
    | some e =>
      cases e with
      | nil => rfl
      | cons a e =>
        have hall2 : ∀ x ∈ e.map Prod.fst, ∃ d, mapGet (entries (some (a :: e))) x = some d :=
          fun x hx => hall x (List.mem_cons_of_mem _ hx)
        have h := mergeKeys_some (some (a :: e)) k (e.map Prod.fst) (a :: e) hall2
        have hstep : mergeKeys (some (a :: e)) ((entries (some (a :: e))).map Prod.fst) none
            = mergeKeys (some (a :: e)) (e.map Prod.fst) (some (a :: e)) := rfl
        have h2 : mapGet (entries (mergeKeys (some (a :: e)) (e.map Prod.fst) (some (a :: e)))) k
            = mapGet (entries (some (a :: e))) k := by
          rw [h]
          exact ite_self _
        rw [hstep, h2]
        cases hg : mapGet (entries (some (a :: e))) k <;> rfl

theorem mergeConfig_eq_mergeStep (w : World) (folder env : Str) (B E : SecretConfig)
    (hb : fileExists w (baseFileOf w folder) = true)
    (hne : baseFileOf w folder ≠ envFileOf w folder env)
    (hB : parseSecretConfig w (baseFileOf w folder) = Except.ok B)
    (hE : parseSecretConfig w (envFileOf w folder env) = Except.ok E) :
    mergeConfig w folder env = Except.ok (mergeStep B E) := by
  simp [mergeConfig, hb, hne, hB, hE]

/-- C2. For a base manifest `B` and an environment manifest `E` that `mergeConfig` merges
(the base file exists and differs from the environment file), the merged KeySet maps every
name `k` to `E`'s entry when `E` has one, otherwise to `B`'s entry when `B` has one, and has
no entry for `k` otherwise. -/
theorem mergeConfig_keys_override (w : World) (folder env : Str) (B E : SecretConfig)
    (hb : fileExists w (baseFileOf w folder) = true)
    (hne : baseFileOf w folder ≠ envFileOf w folder env)
    (hB : parseSecretConfig w (baseFileOf w folder) = Except.ok B)
    (hE : parseSecretConfig w (envFileOf w folder env) = Except.ok E) :
    ∃ M, mergeConfig w folder env = Except.ok M ∧
      ∀ k : Str, mapGet (entries M.KeyConfig) k =
        match mapGet (entries E.KeyConfig) k with
        | some d => some d
        | none => mapGet (entries B.KeyConfig) k := by
  refine ⟨mergeStep B E, mergeConfig_eq_mergeStep w folder env B E hb hne hB hE, ?_⟩
  intro k
  have h := mergeKeys_lookup E.KeyConfig B.KeyConfig k
  cases hf : B.FullSecretConfigPaths <;> simpa [mergeStep, hf] using h

/-- Witness for C2: `base.yaml` merged with `prod.yaml` in the example world. -/
theorem mergeConfig_keys_override_witness :
    fileExists exWorld (baseFileOf exWorld "vh/app".toList) = true ∧
    baseFileOf exWorld "vh/app".toList ≠ envFileOf exWorld "vh/app".toList "prod".toList ∧
    parseSecretConfig exWorld (baseFileOf exWorld "vh/app".toList) = Except.ok exBase ∧
    parseSecretConfig exWorld (envFileOf exWorld "vh/app".toList "prod".toList) = Except.ok exProd ∧
    ∃ M, mergeConfig exWorld "vh/app".toList "prod".toList = Except.ok M ∧
      ∀ k : Str, mapGet (entries M.KeyConfig) k =
        match mapGet (entries exProd.KeyConfig) k with
        | some d => some d
        | none => mapGet (entries exBase.KeyConfig) k :=
  ⟨by decide, by decide, by rfl, by rfl,
    mergeConfig_keys_override exWorld "vh/app".toList "prod".toList exBase exProd
      (by decide) (by decide) (by rfl) (by rfl)⟩

/-- C3. For a base manifest `B` and an environment manifest `E` merged by `mergeConfig`, the
merged full-path list is `B`'s list followed by `E`'s list, each in its own order, also when
either list is nil or empty. -/
theorem mergeConfig_fullPaths_append (w : World) (folder env : Str) (B E : SecretConfig)
    (hb : fileExists w (baseFileOf w folder) = true)
    (hne : baseFileOf w folder ≠ envFileOf w folder env)
    (hB : parseSecretConfig w (baseFileOf w folder) = Except.ok B)
    (hE : parseSecretConfig w (envFileOf w folder env) = Except.ok E) :
    ∃ M, mergeConfig w folder env = Except.ok M ∧
      elems M.FullSecretConfigPaths
        = elems B.FullSecretConfigPaths ++ elems E.FullSecretConfigPaths := by
  refine ⟨mergeStep B E, mergeConfig_eq_mergeStep w folder env B E hb hne hB hE, ?_⟩
  cases hf : B.FullSecretConfigPaths <;> simp [mergeStep, hf, elems]

/-- Witness for C3: `base.yaml` merged with `prod.yaml` in the example world. -/
theorem mergeConfig_fullPaths_append_witness :
    fileExists exWorld (baseFileOf exWorld "vh/app".toList) = true ∧
    baseFileOf exWorld "vh/app".toList ≠ envFileOf exWorld "vh/app".toList "prod".toList ∧
    parseSecretConfig exWorld (baseFileOf exWorld "vh/app".toList) = Except.ok exBase ∧
    parseSecretConfig exWorld (envFileOf exWorld "vh/app".toList "prod".toList) = Except.ok exProd ∧
    ∃ M, mergeConfig exWorld "vh/app".toList "prod".toList = Except.ok M ∧
      elems M.FullSecretConfigPaths
        = elems exBase.FullSecretConfigPaths ++ elems exProd.FullSecretConfigPaths :=
  ⟨by decide, by decide, by rfl, by rfl,
    mergeConfig_fullPaths_append exWorld "vh/app".toList "prod".toList exBase exProd
      (by decide) (by decide) (by rfl) (by rfl)⟩

/-! ## `getSecrets`: the full-path pass -/

theorem pullFields_eq (w : World) :
    ∀ (F : GoMap Val) (secrets : Secrets), pullFields w F secrets = Except.ok (pulled w F secrets) := by
  intro F
  induction F with
  | nil => intro secrets; rfl
  | cons e F ih =>
    intro secrets
    obtain ⟨k, v⟩ := e
    simp only [pullFields, pulled, resolveEnvVarsInString, resolveValue]
    exact ih _

theorem pulled_get_of_forall_ne (w : World) (K : Str) :
    ∀ (F : GoMap Val) (secrets : Secrets), (∀ e ∈ F, w.toUpper e.1 ≠ K) →
      mapGet (pulled w F secrets) K = mapGet secrets K := by
  intro F
  induction F with
  | nil => intro secrets _; rfl
  | cons e F ih =>
    intro secrets h
    obtain ⟨k, v⟩ := e
    have hk : w.toUpper k ≠ K := h (k, v) (List.mem_cons_self _ _)
    simp only [pulled]
    rw [ih _ (fun e he => h e (List.mem_cons_of_mem _ he)), mapGet_mapSet, if_neg hk]

theorem pulled_get_of_unique (w : World) (K : Str) (v : Val) :
    ∀ (F : GoMap Val) (secrets : Secrets), (∃ k, (k, v) ∈ F ∧ w.toUpper k = K) →
      (∀ e ∈ F, w.toUpper e.1 = K → e.2 = v) →
      mapGet (pulled w F secrets) K = some (resolveValue w v) := by
  intro F
  induction F with
  | nil =>
    intro secrets h _
    obtain ⟨k, hk, _⟩ := h
    cases hk
  | cons e F ih =>
    intro secrets hex huniq
    obtain ⟨k1, v1⟩ := e
    simp only [pulled]
    have huniq2 : ∀ e ∈ F, w.toUpper e.1 = K → e.2 = v :=
      fun e he => huniq e (List.mem_cons_of_mem _ he)
    by_cases hrest : ∃ e ∈ F, w.toUpper e.1 = K
    · obtain ⟨e, he, heK⟩ := hrest
      have hv : e.2 = v := huniq2 e he heK
      exact ih _ ⟨e.1, by rw [← hv]; exact he, heK⟩ huniq2
    · have hne : ∀ e ∈ F, w.toUpper e.1 ≠ K := fun e he heK => hrest ⟨e, he, heK⟩
      rw [pulled_get_of_forall_ne w K F _ hne, mapGet_mapSet]
      obtain ⟨k, hk, hkK⟩ := hex
      rcases List.mem_cons.1 hk with hhead | htail
      · have hk1 : k1 = k := (congrArg Prod.fst hhead).symm
        have hv1 : v1 = v := (congrArg Prod.snd hhead).symm
        rw [hk1, hv1, if_pos hkK]
      · exact absurd hkK (hne (k, v) htail)

theorem fullPathStep_of_fields (w : World) (client : Client) (x : Str) (secrets : Secrets)
    (secret : Secret) (F : GoMap Val)
    (hget : getSecret (modSecretPath x) client = Except.ok secret)
    (hF : unwrappedFields secret = some F) :
    fullPathStep w client x secrets = Except.ok (pulled w F secrets) := by
  simp only [fullPathStep, hget]
  simp only [unwrappedFields] at hF
  cases hd : mapIndex secret.Data dataKey with
  | null =>
    rw [hd] at hF
    simp only [Option.some.injEq] at hF
    simp [Val.isNil, hF, pullFields_eq]
  | map m =>
    rw [hd] at hF
    simp only [Option.some.injEq] at hF
    simp [Val.isNil, assertMap, hF, pullFields_eq]
  | str _ => rw [hd] at hF; cases hF
  | num _ => rw [hd] at hF; cases hF
  | bool _ => rw [hd] at hF; cases hF
  | list _ => rw [hd] at hF; cases hF

theorem fullPathStep_ok (w : World) (client : Client) (x : Str) (secrets secrets1 : Secrets)
    (h : fullPathStep w client x secrets = Except.ok secrets1) :
    ∃ secret F, getSecret (modSecretPath x) client = Except.ok secret ∧
      unwrappedFields secret = some F ∧ secrets1 = pulled w F secrets := by
  cases hget : getSecret (modSecretPath x) client with
  | error e => simp [fullPathStep, hget] at h
  | ok secret =>
    cases hF : unwrappedFields secret with
    | some F =>
      rw [fullPathStep_of_fields w client x secrets secret F hget hF] at h
      exact ⟨secret, F, rfl, hF, (Except.ok.inj h).symm⟩
    | none =>
      exfalso
      simp only [unwrappedFields] at hF
      simp only [fullPathStep, hget] at h
      cases hd : mapIndex secret.Data dataKey with
      | null => rw [hd] at hF; cases hF
      | map m => rw [hd] at hF; cases hF
      | str _ => rw [hd] at h; simp [Val.isNil, assertMap] at h
      | num _ => rw [hd] at h; simp [Val.isNil, assertMap] at h
      | bool _ => rw [hd] at h; simp [Val.isNil, assertMap] at h
      | list _ => rw [hd] at h; simp [Val.isNil, assertMap] at h

theorem fullPathPass_append (w : World) (client : Client) :
    ∀ (a b : List Str) (secrets secrets2 : Secrets),
      fullPathPass w client (a ++ b) secrets = Except.ok secrets2 →
      ∃ secrets1, fullPathPass w client a secrets = Except.ok secrets1 ∧
        fullPathPass w client b secrets1 = Except.ok secrets2 := by
  intro a
  induction a with
  | nil => intro b secrets secrets2 h; exact ⟨secrets, rfl, h⟩
  | cons x a ih =>
    intro b secrets secrets2 h
    simp only [List.cons_append, fullPathPass] at h ⊢
    cases hs : fullPathStep w client x secrets with
    | error e => rw [hs] at h; cases h
    | ok s1 =>
      rw [hs] at h
      exact ih b s1 secrets2 h

theorem fullPathPass_get_of_forall_ne (w : World) (client : Client) (K : Str) :
    ∀ (l : List Str) (secrets secrets1 : Secrets),
      fullPathPass w client l secrets = Except.ok secrets1 →
      (∀ p ∈ l, ∀ secret F, getSecret (modSecretPath p) client = Except.ok secret →
        unwrappedFields secret = some F → ∀ e ∈ F, w.toUpper e.1 ≠ K) →
      mapGet secrets1 K = mapGet secrets K := by
  intro l
  induction l with
  | nil =>
    intro secrets secrets1 h _
    rw [← Except.ok.inj h]
  | cons x l ih =>
    intro secrets secrets1 h hno
    simp only [fullPathPass] at h
    cases hs : fullPathStep w client x secrets with
    | error e => rw [hs] at h; cases h
    | ok s1 =>
      rw [hs] at h
      obtain ⟨secret, F, hget, hF, hs1⟩ := fullPathStep_ok w client x secrets s1 hs
      rw [ih s1 secrets1 h (fun p hp => hno p (List.mem_cons_of_mem _ hp)), hs1]
      exact pulled_get_of_forall_ne w K F secrets
        (hno x (List.mem_cons_self _ _) secret F hget hF)

/-! ## `getSecrets`: the key pass -/

theorem mapIndex_nil (k : Str) : mapIndex [] k = Val.null := rfl

theorem isNil_null : Val.null.isNil = true := rfl

theorem isNil_map (m : List (Str × Val)) : (Val.map m).isNil = false := rfl

theorem keyStep_ok (w : World) (client : Client) (k : Str) (kd : KeyDef)
    (secrets secrets1 : Secrets) (h : keyStep w client k kd secrets = Except.ok secrets1) :
    ∃ secret F, getSecret (modSecretPath kd.Path) client = Except.ok secret ∧
      unwrappedFields secret = some F ∧
      secrets1 = mapSet secrets k
        (if kd.Base64 then base64StdEncode (resolveValue w (mapIndex F kd.Key))
          else resolveValue w (mapIndex F kd.Key)) := by
  cases hget : getSecret (modSecretPath kd.Path) client with
  | error e => simp [keyStep, hget] at h
  | ok secret =>
    refine ⟨secret, ?_⟩
    cases hd : mapIndex secret.Data dataKey with
    | null =>
      have h' : keyStep w client k kd secrets = Except.ok (mapSet secrets k
          (if kd.Base64 then base64StdEncode (resolveValue w (mapIndex secret.Data kd.Key))
            else resolveValue w (mapIndex secret.Data kd.Key))) := by
        simp [keyStep, hget, hd, isNil_null, resolveValue, resolveEnvVarsInString]
      rw [h'] at h
      exact ⟨secret.Data, rfl, by rw [unwrappedFields, hd], (Except.ok.inj h).symm⟩
    | map m =>
      by_cases hnil : (mapIndex m kd.Key).isNil = true
      · simp [keyStep, hget, hd, isNil_map, assertMap, entries, hnil] at h
      · have h' : keyStep w client k kd secrets = Except.ok (mapSet secrets k
            (if kd.Base64 then base64StdEncode (resolveValue w (mapIndex m kd.Key))
              else resolveValue w (mapIndex m kd.Key))) := by
          simp [keyStep, hget, hd, isNil_map, assertMap, entries, hnil, resolveValue,
            resolveEnvVarsInString]
        rw [h'] at h
        exact ⟨m, rfl, by rw [unwrappedFields, hd], (Except.ok.inj h).symm⟩
    | str _ => simp [keyStep, hget, hd, Val.isNil, assertMap, entries, mapIndex_nil] at h
    | num _ => simp [keyStep, hget, hd, Val.isNil, assertMap, entries, mapIndex_nil] at h
    | bool _ => simp [keyStep, hget, hd, Val.isNil, assertMap, entries, mapIndex_nil] at h
    | list _ => simp [keyStep, hget, hd, Val.isNil, assertMap, entries, mapIndex_nil] at h

theorem keyPass_get_of_not_mem (w : World) (client : Client) (K : Str) :
    ∀ (ks : GoMap KeyDef) (secrets secrets1 : Secrets),
      keyPass w client ks secrets = Except.ok secrets1 → K ∉ ks.map Prod.fst →
      mapGet secrets1 K = mapGet secrets K := by
  intro ks
  induction ks with
  | nil =>
    intro secrets secrets1 h _
    rw [← Except.ok.inj h]
  | cons e ks ih =>
    intro secrets secrets1 h hK
    obtain ⟨k, kd⟩ := e
    simp only [keyPass] at h
    cases hs : keyStep w client k kd secrets with
    | error e => rw [hs] at h; cases h
    | ok s1 =>
      rw [hs] at h
      obtain ⟨secret, F, _, _, hs1⟩ := keyStep_ok w client k kd secrets s1 hs
      have hne : ¬ k = K := fun hk => hK (by rw [← hk]; exact List.mem_cons_self _ _)
      rw [ih s1 secrets1 h (fun hm => hK (List.mem_cons_of_mem _ hm)), hs1, mapGet_mapSet,
        if_neg hne]

theorem keyPass_get_of_mem (w : World) (client : Client) (k : Str) (kd : KeyDef) :
    ∀ (ks : GoMap KeyDef) (secrets secrets1 : Secrets),
      keyPass w client ks secrets = Except.ok secrets1 → (ks.map Prod.fst).Nodup →
      (k, kd) ∈ ks →
      ∃ secret F, getSecret (modSecretPath kd.Path) client = Except.ok secret ∧
        unwrappedFields secret = some F ∧
        mapGet secrets1 k = some
          (if kd.Base64 then base64StdEncode (resolveValue w (mapIndex F kd.Key))
            else resolveValue w (mapIndex F kd.Key)) := by
  intro ks
  induction ks with
  | nil => intro _ _ _ _ hmem; cases hmem
  | cons e ks ih =>
    intro secrets secrets1 h hnd hmem
    obtain ⟨k1, kd1⟩ := e
    simp only [keyPass] at h
    rw [List.map_cons, List.nodup_cons] at hnd
    cases hs : keyStep w client k1 kd1 secrets with
    | error e => rw [hs] at h; cases h
    | ok s1 =>
      rw [hs] at h
      rcases List.mem_cons.1 hmem with hhead | htail
      · have hk1 : k1 = k := (congrArg Prod.fst hhead).symm
        have hkd1 : kd1 = kd := (congrArg Prod.snd hhead).symm
        subst hk1 hkd1
        obtain ⟨secret, F, hget, hF, hs1⟩ := keyStep_ok w client k1 kd1 secrets s1 hs
        refine ⟨secret, F, hget, hF, ?_⟩
        rw [keyPass_get_of_not_mem w client k1 ks s1 secrets1 h hnd.1, hs1, mapGet_mapSet,
          if_pos rfl]
      · exact ih s1 secrets1 h hnd.2 htail

theorem getSecrets_ok (w : World) (client : Client) (folder env : Str) (data : SecretConfig)
    (name : Str) (secrets : Secrets)
    (hm : mergeConfig w folder env = Except.ok data)
    (h : getSecrets w client folder env
      = Except.ok { secretName := name, secrets := some secrets, err := none }) :
    name = data.SecretName ∧
    ∃ secrets0, fullPathPass w client (elems data.FullSecretConfigPaths) [] = Except.ok secrets0 ∧
      keyPass w client (entries data.KeyConfig) secrets0 = Except.ok secrets := by
  simp only [getSecrets, hm] at h
  cases hf : fullPathPass w client (elems data.FullSecretConfigPaths) [] with
  | error e => rw [hf] at h; simp at h
  | ok s0 =>
    rw [hf] at h
    simp only at h
    cases hk : keyPass w client (entries data.KeyConfig) s0 with
    | error e => rw [hk] at h; simp at h
    | ok s1 =>
      rw [hk] at h
      simp only [Except.ok.injEq, GetSecretsResult.mk.injEq, Option.some.injEq, and_true] at h
      exact ⟨h.1.symm, s0, rfl, h.2 ▸ hk⟩

theorem exists_split_of_getElem? :
    ∀ (L : List Str) (j : Nat) (p : Str), L[j]? = some p →
      ∃ a b, L = a ++ p :: b ∧ ∀ q ∈ b, ∃ l, j < l ∧ L[l]? = some q := by
  intro L
  induction L with
  | nil => intro j p h; simp at h
  | cons x L ih =>
    intro j p h
    cases j with
    | zero =>
      simp only [List.getElem?_cons_zero, Option.some.injEq] at h
      subst h
      refine ⟨[], L, rfl, ?_⟩
      intro q hq
      obtain ⟨n, hn⟩ := List.mem_iff_getElem?.1 hq
      exact ⟨n + 1, Nat.succ_pos n, by simpa using hn⟩
    | succ j =>
      simp only [List.getElem?_cons_succ] at h
      obtain ⟨a, b, hL, hb⟩ := ih j p h
      refine ⟨x :: a, b, by rw [hL]; rfl, ?_⟩
      intro q hq
      obtain ⟨l, hl, hlq⟩ := hb q hq
      exact ⟨l + 1, Nat.succ_lt_succ hl, by simpa using hlq⟩

/-! ## Claims on `getSecrets` -/

/-- C6. For a KeyDefinition `k ↦ kd` of the merged manifest, the value `getSecrets` returns
under `k` is computed from the stringified store field `s` by resolving first: it is the
standard base64 of `resolve(s)` when `base64` is set, and `resolve(s)` itself otherwise
(never an encoding of the raw `s`). -/
theorem getSecrets_base64_after_resolve (w : World) (client : Client) (folder env : Str)
    (data : SecretConfig) (name : Str) (secrets : Secrets) (k : Str) (kd : KeyDef)
    (hm : mergeConfig w folder env = Except.ok data)
    (hnd : ((entries data.KeyConfig).map Prod.fst).Nodup)
    (hk : (k, kd) ∈ entries data.KeyConfig)
    (h : getSecrets w client folder env
      = Except.ok { secretName := name, secrets := some secrets, err := none }) :
    ∃ secret F, getSecret (modSecretPath kd.Path) client = Except.ok secret ∧
      unwrappedFields secret = some F ∧
      mapGet secrets k = some
        (if kd.Base64 then
          base64StdEncode
            (resolveEnvVarsInString w.lookupEnv (fmtV (mapIndex F kd.Key))
              (fmtV (mapIndex F kd.Key))).fullFile
        else
          (resolveEnvVarsInString w.lookupEnv (fmtV (mapIndex F kd.Key))
            (fmtV (mapIndex F kd.Key))).fullFile) := by
  obtain ⟨_, s0, _, hkp⟩ := getSecrets_ok w client folder env data name secrets hm h
  exact keyPass_get_of_mem w client k kd (entries data.KeyConfig) s0 secrets hkp hnd hk

/-- Witness for C6: `EXAMPLE_PASS` of `vh/app` in `prod` has `base64` set and the stored
field `imadirtysecret-{{SUFFIX}}`; the value returned is the base64 of the resolved
`imadirtysecret-3`. -/
theorem getSecrets_base64_after_resolve_witness :
    mergeConfig exWorld "vh/app".toList "prod".toList = Except.ok (mergeStep exBase exProd) ∧
    ((entries (mergeStep exBase exProd).KeyConfig).map Prod.fst).Nodup ∧
    (("EXAMPLE_PASS".toList,
        ({ Path := "secret/machine/prod/api".toList, Key := "PROD_API_KEY".toList,
           Base64 := true } : KeyDef)) ∈ entries (mergeStep exBase exProd).KeyConfig) ∧
    getSecrets exWorld exClient "vh/app".toList "prod".toList
      = Except.ok
          { secretName := "app".toList
            secrets := some
              [("DB_USER".toList, "root".toList), ("REGION".toList, "core-east".toList),
               ("EXAMPLE_PASS".toList, "aW1hZGlydHlzZWNyZXQtMw==".toList),
               ("ADMIN_USER".toList, "u-ENV_VAR_NOT_FOUND".toList)]
            err := none } ∧
    base64StdEncode "imadirtysecret-3".toList = "aW1hZGlydHlzZWNyZXQtMw==".toList ∧
    ∃ secret F, getSecret (modSecretPath "secret/machine/prod/api".toList) exClient
        = Except.ok secret ∧
      unwrappedFields secret = some F ∧
      mapGet
        [("DB_USER".toList, "root".toList), ("REGION".toList, "core-east".toList),
         ("EXAMPLE_PASS".toList, "aW1hZGlydHlzZWNyZXQtMw==".toList),
         ("ADMIN_USER".toList, "u-ENV_VAR_NOT_FOUND".toList)] "EXAMPLE_PASS".toList
        = some
          (if true then
            base64StdEncode
              (resolveEnvVarsInString exWorld.lookupEnv (fmtV (mapIndex F "PROD_API_KEY".toList))
                (fmtV (mapIndex F "PROD_API_KEY".toList))).fullFile
          else
            (resolveEnvVarsInString exWorld.lookupEnv (fmtV (mapIndex F "PROD_API_KEY".toList))
              (fmtV (mapIndex F "PROD_API_KEY".toList))).fullFile) :=
  ⟨by rfl, by decide, by decide, by rfl, by decide,
    getSecrets_base64_after_resolve exWorld exClient "vh/app".toList "prod".toList
      (mergeStep exBase exProd) "app".toList _ "EXAMPLE_PASS".toList
      { Path := "secret/machine/prod/api".toList, Key := "PROD_API_KEY".toList, Base64 := true }
      (by rfl) (by decide) (by decide) (by rfl)⟩

/-- C7. For a manifest with an empty KeySet and a single full-path entry `p` whose read
yields the field map `F` (wrapped under `data`, or flat with no `data` wrapper), no two field
names of `F` being equal after upper-casing, `getSecrets` returns the manifest's secretName
and exactly the map `{ upper(k) ↦ resolve(stringify(v)) : (k, v) ∈ F }`. -/
theorem getSecrets_single_fullPath (w : World) (client : Client) (folder env : Str)
    (data : SecretConfig) (p : Str) (secret : Secret) (F : GoMap Val)
    (hm : mergeConfig w folder env = Except.ok data)
    (hkeys : entries data.KeyConfig = [])
    (hpaths : elems data.FullSecretConfigPaths = [p])
    (hget : getSecret (modSecretPath p) client = Except.ok secret)
    (hF : mapIndex secret.Data dataKey = Val.map F ∨
      (mapIndex secret.Data dataKey = Val.null ∧ secret.Data = F))
    (hnd : (F.map (fun e => w.toUpper e.1)).Nodup) :
    ∃ secrets, getSecrets w client folder env
        = Except.ok { secretName := data.SecretName, secrets := some secrets, err := none } ∧
      ∀ K : Str, mapGet secrets K
        = (F.find? (fun e => decide (w.toUpper e.1 = K))).map
            (fun e => (resolveEnvVarsInString w.lookupEnv (fmtV e.2) (fmtV e.2)).fullFile) := by
  have hF2 : unwrappedFields secret = some F := by
    rcases hF with h1 | ⟨h1, h2⟩
    · rw [unwrappedFields, h1]
    · rw [unwrappedFields, h1, h2]
  refine ⟨pulled w F [], ?_, ?_⟩
  · simp [getSecrets, hm, hkeys, hpaths, fullPathPass,
      fullPathStep_of_fields w client p [] secret F hget hF2, keyPass]
  · intro K
    cases hfind : F.find? (fun e => decide (w.toUpper e.1 = K)) with
    | none =>
      have hall : ∀ e ∈ F, w.toUpper e.1 ≠ K := by
        intro e he
        have := List.find?_eq_none.1 hfind e he
        simpa using this
      rw [pulled_get_of_forall_ne w K F [] hall]
      rfl
    | some e =>
      have hmem : e ∈ F := List.mem_of_find?_eq_some hfind
      have hK : w.toUpper e.1 = K := by
        have := List.find?_some hfind
        simpa using this
      have huniq : ∀ e' ∈ F, w.toUpper e'.1 = K → e'.2 = e.2 := by
        intro e' he' hK'
        have := List.inj_on_of_nodup_map hnd he' hmem (hK'.trans hK.symm)
        rw [this]
      rw [pulled_get_of_unique w K e.2 F [] ⟨e.1, hmem, hK⟩ huniq]
      rfl

/-- Witness for C7: `vh/single` has no keys and the one full path `config/app/base`, whose
secret is wrapped under `data`. -/
theorem getSecrets_single_fullPath_witness :
    mergeConfig exWorld "vh/single".toList "dev".toList = Except.ok exSingle ∧
    entries exSingle.KeyConfig = [] ∧
    elems exSingle.FullSecretConfigPaths = ["config/app/base".toList] ∧
    (([("db_user".toList, Val.str "admin".toList),
       ("region".toList, Val.str "\x7b\x7bTEAM\x7d\x7d-east".toList)] : GoMap Val).map
        (fun e => exWorld.toUpper e.1)).Nodup ∧
    ∃ secrets, getSecrets exWorld exClient "vh/single".toList "dev".toList
        = Except.ok { secretName := exSingle.SecretName, secrets := some secrets, err := none } ∧
      ∀ K : Str, mapGet secrets K
        = (([("db_user".toList, Val.str "admin".toList),
             ("region".toList, Val.str "\x7b\x7bTEAM\x7d\x7d-east".toList)] : GoMap Val).find?
              (fun e => decide (exWorld.toUpper e.1 = K))).map
            (fun e => (resolveEnvVarsInString exWorld.lookupEnv (fmtV e.2) (fmtV e.2)).fullFile) :=
  ⟨by rfl, by rfl, by rfl, by decide,
    getSecrets_single_fullPath exWorld exClient "vh/single".toList "dev".toList exSingle
      "config/app/base".toList
      { Data := [("data".toList, Val.map [("db_user".toList, Val.str "admin".toList),
                   ("region".toList, Val.str "\x7b\x7bTEAM\x7d\x7d-east".toList)]),
                 ("metadata".toList, Val.map [("version".toList, Val.num "1".toList)])]
        Warnings := [] }
      _ (by rfl) (by rfl) (by rfl) (by rfl) (Or.inl (by rfl)) (by decide)⟩

/-- C8, as stated, fails: in `vh/layers` the full paths at positions 0 < 1 both hold one
field `k` (upper-cased `K`, not a KeySet name), yet the value returned under `K` is `c`, from
the entry at position 2, and not `b`, from the later entry 1 of the pair. -/
theorem getSecrets_later_entry_counterexample :
    mergeConfig exWorld "vh/layers".toList "dev".toList = Except.ok exLayers ∧
    (elems exLayers.FullSecretConfigPaths)[0]? = some "l/one".toList ∧
    (elems exLayers.FullSecretConfigPaths)[1]? = some "l/two".toList ∧
    getSecret (modSecretPath "l/one".toList) exClient
      = Except.ok { Data := [("k".toList, Val.str "a".toList)], Warnings := [] } ∧
    getSecret (modSecretPath "l/two".toList) exClient
      = Except.ok { Data := [("k".toList, Val.str "b".toList)], Warnings := [] } ∧
    unwrappedFields { Data := [("k".toList, Val.str "a".toList)], Warnings := [] }
      = some [("k".toList, Val.str "a".toList)] ∧
    unwrappedFields { Data := [("k".toList, Val.str "b".toList)], Warnings := [] }
      = some [("k".toList, Val.str "b".toList)] ∧
    exWorld.toUpper "k".toList = "K".toList ∧
    "K".toList ∉ (entries exLayers.KeyConfig).map Prod.fst ∧
    getSecrets exWorld exClient "vh/layers".toList "dev".toList
      = Except.ok
          { secretName := "layers".toList
            secrets := some [("K".toList, "c".toList)]
            err := none } ∧
    mapGet [("K".toList, "c".toList)] "K".toList
      ≠ some (resolveEnvVarsInString exWorld.lookupEnv (fmtV (Val.str "b".toList))
          (fmtV (Val.str "b".toList))).fullFile :=
  ⟨by rfl, by rfl, by rfl, by rfl, by rfl, by rfl, by rfl, by decide, by decide, by rfl,
    by decide⟩

/-- C8, amended. For full-path entries at positions `i < j` whose field maps both contain a
field with upper-cased name `K` (at most one such field in each map, `K` not a KeySet name),
where no entry after `j` holds a field with that upper-cased name, the value `getSecrets`
returns under `K` is the one from entry `j`: entries are applied in stored order, the last
write wins. -/
theorem getSecrets_last_fullPath_wins (w : World) (client : Client) (folder env : Str)
    (data : SecretConfig) (name : Str) (secrets : Secrets) (i j : Nat) (pi pj : Str)
    (si sj : Secret) (Fi Fj : GoMap Val) (K ki kj : Str) (vi vj : Val)
    (hm : mergeConfig w folder env = Except.ok data)
    (h : getSecrets w client folder env
      = Except.ok { secretName := name, secrets := some secrets, err := none })
    (_hij : i < j)
    (_hpi : (elems data.FullSecretConfigPaths)[i]? = some pi)
    (hpj : (elems data.FullSecretConfigPaths)[j]? = some pj)
    (_hsi : getSecret (modSecretPath pi) client = Except.ok si)
    (_hFi : unwrappedFields si = some Fi)
    (hsj : getSecret (modSecretPath pj) client = Except.ok sj)
    (hFj : unwrappedFields sj = some Fj)
    (_hki : (ki, vi) ∈ Fi) (_hKi : w.toUpper ki = K)
    (_hui : ∀ e ∈ Fi, w.toUpper e.1 = K → e = (ki, vi))
    (hkj : (kj, vj) ∈ Fj) (hKj : w.toUpper kj = K)
    (huj : ∀ e ∈ Fj, w.toUpper e.1 = K → e = (kj, vj))
    (hKnot : K ∉ (entries data.KeyConfig).map Prod.fst)
    (hlast : ∀ (l : Nat) (p : Str), j < l →
      (elems data.FullSecretConfigPaths)[l]? = some p →
      ∀ (s : Secret) (F : GoMap Val), getSecret (modSecretPath p) client = Except.ok s →
        unwrappedFields s = some F → ∀ e ∈ F, w.toUpper e.1 ≠ K) :
    mapGet secrets K
      = some (resolveEnvVarsInString w.lookupEnv (fmtV vj) (fmtV vj)).fullFile := by
  obtain ⟨_, s0, hfp, hkp⟩ := getSecrets_ok w client folder env data name secrets hm h
  obtain ⟨a, b, hL, hb⟩ := exists_split_of_getElem? _ j pj hpj
  rw [hL] at hfp
  obtain ⟨s1, _, hrest⟩ := fullPathPass_append w client a (pj :: b) [] s0 hfp
  simp only [fullPathPass] at hrest
  rw [fullPathStep_of_fields w client pj s1 sj Fj hsj hFj] at hrest
  simp only at hrest
  have hb2 : ∀ p ∈ b, ∀ secret F, getSecret (modSecretPath p) client = Except.ok secret →
      unwrappedFields secret = some F → ∀ e ∈ F, w.toUpper e.1 ≠ K := by
    intro p hp secret F hs hF
    obtain ⟨l, hl, hlp⟩ := hb p hp
    exact hlast l p hl hlp secret F hs hF
  rw [keyPass_get_of_not_mem w client K _ s0 secrets hkp hKnot,
    fullPathPass_get_of_forall_ne w client K b _ s0 hrest hb2]
  exact pulled_get_of_unique w K vj Fj s1 ⟨kj, hkj, hKj⟩
    (fun e he hK => congrArg Prod.snd (huj e he hK))

/-- Witness for the amended C8: in `vh/layers`, positions 1 < 2, the last entry wins. -/
theorem getSecrets_last_fullPath_wins_witness :
    mergeConfig exWorld "vh/layers".toList "dev".toList = Except.ok exLayers ∧
    getSecrets exWorld exClient "vh/layers".toList "dev".toList
      = Except.ok
          { secretName := "layers".toList
            secrets := some [("K".toList, "c".toList)]
            err := none } ∧
    (elems exLayers.FullSecretConfigPaths)[1]? = some "l/two".toList ∧
    (elems exLayers.FullSecretConfigPaths)[2]? = some "l/three".toList ∧
    "K".toList ∉ (entries exLayers.KeyConfig).map Prod.fst ∧
    mapGet [("K".toList, "c".toList)] "K".toList
      = some (resolveEnvVarsInString exWorld.lookupEnv (fmtV (Val.str "c".toList))
          (fmtV (Val.str "c".toList))).fullFile :=
  ⟨by rfl, by rfl, by rfl, by rfl, by decide,
    getSecrets_last_fullPath_wins exWorld exClient "vh/layers".toList "dev".toList exLayers
      "layers".toList [("K".toList, "c".toList)] 1 2 "l/two".toList "l/three".toList
      { Data := [("k".toList, Val.str "b".toList)], Warnings := [] }
      { Data := [("k".toList, Val.str "c".toList)], Warnings := [] }
      [("k".toList, Val.str "b".toList)] [("k".toList, Val.str "c".toList)]
      "K".toList "k".toList "k".toList (Val.str "b".toList) (Val.str "c".toList)
      (by rfl) (by rfl) (by decide) (by rfl) (by rfl) (by rfl) (by rfl) (by rfl) (by rfl)
      (List.mem_singleton.2 rfl) (by decide)
      (fun e he _ => List.mem_singleton.1 he)
      (List.mem_singleton.2 rfl) (by decide)
      (fun e he _ => List.mem_singleton.1 he)
      (by decide)
      (fun l p hl hp => by
        have hlen : (elems exLayers.FullSecretConfigPaths).length ≤ l := hl
        rw [List.getElem?_eq_none hlen] at hp
        cases hp)⟩

/-- C9 on the code: a key missing from a secret wrapped under `data` (`vh/versioned`) makes
`getSecrets` fail with the key-not-found error, while the same key missing from a flat
secret (`vh/legacy`) does not fail: `getSecrets` succeeds and returns `<nil>` under the
logical name. -/
theorem getSecrets_missing_key_by_shape :
    exClient (modSecretPath "kv2/db".toList)
      = exWrapped [("username".toList, Val.str "u".toList)] ∧
    getSecrets exWorld exClient "vh/versioned".toList "dev".toList
      = Except.ok
          { secretName := []
            secrets := none
            err := some (errKeyNil "password".toList "kv2/data/db".toList) } ∧
    exClient (modSecretPath "kv1/db".toList)
      = exFlat [("username".toList, Val.str "u".toList)] ∧
    getSecrets exWorld exClient "vh/legacy".toList "dev".toList
      = Except.ok
          { secretName := "legacy".toList
            secrets := some [("DB_PASS".toList, "<nil>".toList)]
            err := none } :=
  ⟨by rfl, by rfl, by rfl, by rfl⟩

/-- C10 on the code: when the `data` wrapper is present but is not a map (`bad/x`, whose
secret holds the string `oops` under `data`), the full-path pass fails with the
"returned empty" error and the key pass with the error of a missing key; neither returns
the decode error `could not decode v2 secret`. -/
theorem getSecrets_bad_wrapper :
    exClient (modSecretPath "bad/x".toList)
      = exFlat [("data".toList, Val.str "oops".toList)] ∧
    getSecrets exWorld exClient "vh/badfull".toList "dev".toList
      = Except.ok
          { secretName := []
            secrets := none
            err := some (errSecretEmpty "bad/data/x".toList) } ∧
    errSecretEmpty "bad/data/x".toList ≠ errDecodeV2 ∧
    getSecrets exWorld exClient "vh/badkey".toList "dev".toList
      = Except.ok
          { secretName := []
            secrets := none
            err := some (errKeyNil "token".toList "bad/data/x".toList) } ∧
    errKeyNil "token".toList "bad/data/x".toList ≠ errDecodeV2 :=
  ⟨by rfl, by rfl, by decide, by rfl, by decide⟩

/-- C11. Whenever `getSecrets` returns a non-nil error, the returned secret name is the
empty string and the returned map is nil: what earlier full-path or key entries had
resolved is not returned with the error. -/
theorem getSecrets_error_discards (w : World) (client : Client) (folder env : Str)
    (r : GetSecretsResult) (h : getSecrets w client folder env = Except.ok r)
    (herr : r.err ≠ none) : r.secretName = [] ∧ r.secrets = none := by
  simp only [getSecrets] at h
  cases hm : mergeConfig w folder env with
  | error e => rw [hm] at h; cases h
  | ok data =>
    rw [hm] at h
    simp only at h
    cases hf : fullPathPass w client (elems data.FullSecretConfigPaths) [] with
    | error e =>
      rw [hf] at h
      rw [← Except.ok.inj h]
      exact ⟨rfl, rfl⟩
    | ok s0 =>
      rw [hf] at h
      simp only at h
      cases hk : keyPass w client (entries data.KeyConfig) s0 with
      | error e =>
        rw [hk] at h
        rw [← Except.ok.inj h]
        exact ⟨rfl, rfl⟩
      | ok s1 =>
        rw [hk] at h
        rw [← Except.ok.inj h] at herr
        exact absurd rfl herr

/-- Witness for C11: in `vh/app` for `dev` the first full path resolves two fields, the
second is absent from the store; the error comes back with an empty name and a nil map. -/
theorem getSecrets_error_discards_witness :
    fullPathStep exWorld exClient "config/app/base".toList []
      = Except.ok [("DB_USER".toList, "admin".toList), ("REGION".toList, "core-east".toList)] ∧
    getSecrets exWorld exClient "vh/app".toList "dev".toList
      = Except.ok
          { secretName := []
            secrets := none
            err := some ("key config/data/app/dev returned nil - make sure secret exists in vault".toList) } ∧
    (some ("key config/data/app/dev returned nil - make sure secret exists in vault".toList)
      ≠ (none : Option Str)) ∧
    ([] : Str) = [] ∧ (none : Option Secrets) = none :=
  ⟨by rfl, by rfl, by decide,
    getSecrets_error_discards exWorld exClient "vh/app".toList "dev".toList
      { secretName := []
        secrets := none
        err := some ("key config/data/app/dev returned nil - make sure secret exists in vault".toList) }
      (by rfl) (by decide)⟩

/-! ## Merging a manifest with itself -/

theorem mapSet_self {V : Type} (m : GoMap V) (x : Str) (v : V) (h : mapGet m x = some v) :
    mapSet m x v = m := by
  induction m with
  | nil => cases h
  | cons e m ih =>
    obtain ⟨k', v'⟩ := e
    rw [mapGet_cons] at h
    rw [mapSet_cons]
    by_cases hk : k' = x
    · rw [if_pos hk] at h
      rw [if_pos hk, ← Option.some.inj h, hk]
    · rw [if_neg hk] at h
      rw [if_neg hk, ih h]

theorem mergeKeys_self (m : GoMap KeyDef) :
    ∀ ks : List Str, (∀ x ∈ ks, x ∈ m.map Prod.fst) → mergeKeys (some m) ks (some m) = some m := by
  intro ks
  induction ks with
  | nil => intro _; rfl
  | cons x ks ih =>
    intro h
    obtain ⟨d, hd⟩ := mapGet_of_mem_keys m x (h x (List.mem_cons_self _ _))
    have hstep : mergeKeys (some m) (x :: ks) (some m)
        = mergeKeys (some m) ks (some (mapSet m x ((mapGet m x).getD KeyDef.zero))) := rfl
    rw [hstep, hd, Option.getD_some, mapSet_self m x d hd]
    exact ih (fun y hy => h y (List.mem_cons_of_mem _ hy))

/-- C20, as stated, fails: `vh/twin` holds the same manifest as `base.yaml` and as
`dev.yaml`; merging them gives the full-path list twice over, not the manifest's list. -/
theorem mergeConfig_self_counterexample :
    parseSecretConfig exWorld (baseFileOf exWorld "vh/twin".toList) = Except.ok exTwin ∧
    parseSecretConfig exWorld (envFileOf exWorld "vh/twin".toList "dev".toList)
      = Except.ok exTwin ∧
    baseFileOf exWorld "vh/twin".toList ≠ envFileOf exWorld "vh/twin".toList "dev".toList ∧
    mergeConfig exWorld "vh/twin".toList "dev".toList
      = Except.ok
          { SecretName := "twin".toList
            KeyConfig := exTwin.KeyConfig
            FullSecretConfigPaths := some ["config/twin".toList, "config/twin".toList] } ∧
    mergeStep exTwin exTwin ≠ exTwin ∧
    (some ["config/twin".toList, "config/twin".toList] : FullSecretConfigPaths)
      ≠ exTwin.FullSecretConfigPaths :=
  ⟨by rfl, by rfl, by decide, by rfl, by decide, by decide⟩

/-- C20, amended. Merging a manifest `M` with itself as both base and environment yields the
same secretName and the same KeySet, while the full-path list is `M`'s list followed by
itself. -/
theorem mergeConfig_self (w : World) (folder env : Str) (M : SecretConfig)
    (hb : fileExists w (baseFileOf w folder) = true)
    (hne : baseFileOf w folder ≠ envFileOf w folder env)
    (hB : parseSecretConfig w (baseFileOf w folder) = Except.ok M)
    (hE : parseSecretConfig w (envFileOf w folder env) = Except.ok M) :
    ∃ R, mergeConfig w folder env = Except.ok R ∧
      R.SecretName = M.SecretName ∧ R.KeyConfig = M.KeyConfig ∧
      elems R.FullSecretConfigPaths
        = elems M.FullSecretConfigPaths ++ elems M.FullSecretConfigPaths := by
  refine ⟨mergeStep M M, mergeConfig_eq_mergeStep w folder env M M hb hne hB hE, ?_, ?_, ?_⟩
  · cases hf : M.FullSecretConfigPaths <;> simp [mergeStep, hf]
  · have hk : mergeKeys M.KeyConfig ((entries M.KeyConfig).map Prod.fst) M.KeyConfig
        = M.KeyConfig := by
      cases hkc : M.KeyConfig with
      | none => rfl
      | some m => exact mergeKeys_self m _ (fun x hx => hx)
    cases hf : M.FullSecretConfigPaths <;> simp [mergeStep, hf, hk]
  · cases hf : M.FullSecretConfigPaths <;> simp [mergeStep, hf, elems]

/-- Witness for the amended C20: `vh/twin`. -/
theorem mergeConfig_self_witness :
    fileExists exWorld (baseFileOf exWorld "vh/twin".toList) = true ∧
    baseFileOf exWorld "vh/twin".toList ≠ envFileOf exWorld "vh/twin".toList "dev".toList ∧
    parseSecretConfig exWorld (baseFileOf exWorld "vh/twin".toList) = Except.ok exTwin ∧
    parseSecretConfig exWorld (envFileOf exWorld "vh/twin".toList "dev".toList)
      = Except.ok exTwin ∧
    ∃ R, mergeConfig exWorld "vh/twin".toList "dev".toList = Except.ok R ∧
      R.SecretName = exTwin.SecretName ∧ R.KeyConfig = exTwin.KeyConfig ∧
      elems R.FullSecretConfigPaths
        = elems exTwin.FullSecretConfigPaths ++ elems exTwin.FullSecretConfigPaths :=
  ⟨by decide, by decide, by rfl, by rfl,
    mergeConfig_self exWorld "vh/twin".toList "dev".toList exTwin
      (by decide) (by decide) (by rfl) (by rfl)⟩

/-! ## `genRole` -/

/-- C17. The document `genRole` writes has `role_type` `jwt`, `token_explicit_max_ttl` 60,
`user_claim` `user_email`, `bound_claims_type` `glob`, the given policies in the given order
(a nil slice is written as `null`) and `bound_claims.project_id` equal to the project id;
`bound_claims` holds `ref = master` and `ref_type = branch` exactly when `prod` and
`lockProdClaims` are both true, and otherwise has neither field. -/
theorem genRole_document (o : Outside) (filename : Str) (policies : Option (List Str))
    (prod : Bool) (projectID : Str) (lockProdClaims : Bool) :
    ∃ doc bc,
      genRole o filename policies prod projectID lockProdClaims
        = (match o.writeFile filename with
           | some err => ([], some err)
           | none => ([Action.roleFile filename doc], none)) ∧
      doc.field "role_type".toList = some (Json.str "jwt".toList) ∧
      doc.field "policies".toList
        = some (match policies with
                | none => Json.null
                | some l => Json.arr (l.map Json.str)) ∧
      doc.field "token_explicit_max_ttl".toList = some (Json.num 60) ∧
      doc.field "user_claim".toList = some (Json.str "user_email".toList) ∧
      doc.field "bound_claims_type".toList = some (Json.str "glob".toList) ∧
      doc.field "bound_claims".toList = some bc ∧
      bc.field "project_id".toList = some (Json.str projectID) ∧
      bc.field "ref".toList
        = (if prod && lockProdClaims then some (Json.str "master".toList) else none) ∧
      bc.field "ref_type".toList
        = (if prod && lockProdClaims then some (Json.str "branch".toList) else none) := by
  refine ⟨marshalVaultRole (roleOf policies prod projectID lockProdClaims),
    marshalBoundClaims (roleOf policies prod projectID lockProdClaims).BoundClaims,
    rfl, rfl, rfl, rfl, rfl, rfl, rfl, ?_, ?_, ?_⟩
  · cases prod <;> cases lockProdClaims <;> rfl
  · cases prod <;> cases lockProdClaims <;> rfl
  · cases prod <;> cases lockProdClaims <;> rfl

/-! ## `genPolicy` -/

theorem foldl_writeIfNew :
    ∀ (L : List Str) (created : GoMap Bool) (file : List PolicyBlock) (seen : List Str),
      (∀ p, (mapGet created p).getD false = true ↔ p ∈ seen) →
      (L.foldl (fun st p => writeIfNew p st) (created, file)).2
        = file ++ (keepNew seen L).map writePolicy := by
  intro L
  induction L with
  | nil => intro created file seen _; simp [keepNew]
  | cons p L ih =>
    intro created file seen hinv
    simp only [List.foldl_cons, keepNew]
    by_cases hp : p ∈ seen
    · have hget : (mapGet created p).getD false = true := (hinv p).2 hp
      have hstep : writeIfNew p (created, file) = (created, file) := by
        simp [writeIfNew, hget]
      rw [hstep, if_pos hp]
      exact ih created file seen hinv
    · have hget : ¬ (mapGet created p).getD false = true := fun h => hp ((hinv p).1 h)
      have hstep : writeIfNew p (created, file)
          = (mapSet created p true, file ++ [writePolicy p]) := by
        simp [writeIfNew, hget]
      have hinv2 : ∀ q, (mapGet (mapSet created p true) q).getD false = true ↔ q ∈ p :: seen := by
        intro q
        rw [mapGet_mapSet, List.mem_cons]
        by_cases hpq : p = q
        · rw [if_pos hpq]
          exact ⟨fun _ => Or.inl hpq.symm, fun _ => rfl⟩
        · rw [if_neg hpq]
          exact ⟨fun h => Or.inr ((hinv q).1 h), fun h => by
            rcases h with h | h
            · exact absurd h.symm hpq
            · exact (hinv q).2 h⟩
      rw [hstep, if_neg hp, ih _ _ _ hinv2]
      simp

theorem genPolicy_file (w : World) (o : Outside) (filename configFolder : Str)
    (apps : List Str) (env : Str) (allKeys : GoMap KeyDef) (fullRaw : List Str)
    (hc : o.createFile filename = none)
    (hg : gatherApps w configFolder env apps [] [] = Except.ok (allKeys, fullRaw)) :
    genPolicy w o filename configFolder apps env
      = { file := some ((keepNew []
            ((sortStrings (allKeys.map Prod.fst)).map
                (fun k => modSecretPath ((mapGet allKeys k).getD KeyDef.zero).Path)
              ++ (sortStrings fullRaw).map modSecretPath)).map writePolicy)
          outcome := Outcome.returned none } := by
  have hfold : ∀ (α : Type) (g : α → Str) (L : List α) (st : GoMap Bool × List PolicyBlock),
      L.foldl (fun st v => writeIfNew (g v) st) st
        = (L.map g).foldl (fun st p => writeIfNew p st) st := by
    intro α g L
    induction L with
    | nil => intro st; rfl
    | cons a L ih => intro st; simp only [List.foldl_cons, List.map_cons]; exact ih _
  simp only [genPolicy, hc, hg]
  rw [hfold _ (fun k => modSecretPath ((mapGet allKeys k).getD KeyDef.zero).Path),
    hfold _ modSecretPath, ← List.foldl_append]
  have h := foldl_writeIfNew
    ((sortStrings (allKeys.map Prod.fst)).map
        (fun k => modSecretPath ((mapGet allKeys k).getD KeyDef.zero).Path)
      ++ (sortStrings fullRaw).map modSecretPath) [] [] []
    (fun p => ⟨fun h => by simp [mapGet] at h, fun h => by cases h⟩)
  rw [h]
  rfl

/-- C13, as stated, fails: for application `a` in `qa` the blocks are written in the order of
the logical names `API_KEY`, `DB_PASS`, then the full path; their paths are not in ascending
order. -/
theorem genPolicy_order_counterexample :
    genPolicy exWorld exOutside "main-qa.hcl".toList "pol".toList ["a".toList] "qa".toList
      = { file := some
            [{ path := "secret/data/a/qa/api".toList, capabilities := ["read".toList] },
             { path := "secret/data/a/db".toList, capabilities := ["read".toList] },
             { path := "config/data/a".toList, capabilities := ["read".toList] }]
          outcome := Outcome.returned none } ∧
    ¬ ("secret/data/a/qa/api".toList ≤ "secret/data/a/db".toList) ∧
    ¬ ("secret/data/a/db".toList ≤ "config/data/a".toList) ∧
    ¬ (["secret/data/a/qa/api".toList, "secret/data/a/db".toList, "config/data/a".toList].Sorted
        (fun a b => a ≤ b)) :=
  ⟨by rfl, by decide, by decide, by decide⟩

/-- C13, amended. The blocks `genPolicy` writes are, in this order: the normalized paths of
the key definitions taken in ascending lexicographic order of their logical key names, then
the normalized full-path entries taken in ascending lexicographic order of the declared
paths; a path already written is not written again, and each path goes through the rewrite
of `writePolicy`. -/
theorem genPolicy_block_order (w : World) (o : Outside) (filename configFolder : Str)
    (apps : List Str) (env : Str) (allKeys : GoMap KeyDef) (fullRaw : List Str)
    (hc : o.createFile filename = none)
    (hg : gatherApps w configFolder env apps [] [] = Except.ok (allKeys, fullRaw)) :
    ∃ keys full : List Str,
      keys.Perm (allKeys.map Prod.fst) ∧ keys.Sorted (fun a b => a ≤ b) ∧
      full.Perm fullRaw ∧ full.Sorted (fun a b => a ≤ b) ∧
      genPolicy w o filename configFolder apps env
        = { file := some ((keepNew []
              (keys.map (fun k => modSecretPath ((mapGet allKeys k).getD KeyDef.zero).Path)
                ++ full.map modSecretPath)).map writePolicy)
            outcome := Outcome.returned none } :=
  ⟨sortStrings (allKeys.map Prod.fst), sortStrings fullRaw,
    List.perm_insertionSort _ _, List.sorted_insertionSort _ _,
    List.perm_insertionSort _ _, List.sorted_insertionSort _ _,
    genPolicy_file w o filename configFolder apps env allKeys fullRaw hc hg⟩

/-- Witness for the amended C13: application `a` in `qa`. -/
theorem genPolicy_block_order_witness :
    exOutside.createFile "main-qa.hcl".toList = none ∧
    gatherApps exWorld "pol".toList "qa".toList ["a".toList] [] []
      = Except.ok (exKeysQa, ["config/a".toList]) ∧
    ∃ keys full : List Str,
      keys.Perm (exKeysQa.map Prod.fst) ∧ keys.Sorted (fun a b => a ≤ b) ∧
      full.Perm ["config/a".toList] ∧ full.Sorted (fun a b => a ≤ b) ∧
      genPolicy exWorld exOutside "main-qa.hcl".toList "pol".toList ["a".toList] "qa".toList
        = { file := some ((keepNew []
              (keys.map (fun k => modSecretPath ((mapGet exKeysQa k).getD KeyDef.zero).Path)
                ++ full.map modSecretPath)).map writePolicy)
            outcome := Outcome.returned none } :=
  ⟨by rfl, by rfl,
    genPolicy_block_order exWorld exOutside "main-qa.hcl".toList "pol".toList ["a".toList]
      "qa".toList exKeysQa ["config/a".toList] (by rfl) (by rfl)⟩

/-- C12 on the code: applications `a` and `b` both use the logical name `DB_PASS`, for
different paths. `allKeys` is keyed by the logical name, so the definition of `a` is
overwritten by that of `b`: no block covers `secret/data/a/db`, a path `a` declares. -/
theorem genPolicy_name_collision :
    mergeConfig exWorld "pol/a".toList "dev".toList = Except.ok exPolA ∧
    (("DB_PASS".toList,
        ({ Path := "secret/a/db".toList, Key := "password".toList, Base64 := false } : KeyDef))
      ∈ entries exPolA.KeyConfig) ∧
    rewritePath (modSecretPath "secret/a/db".toList) = "secret/data/a/db".toList ∧
    genPolicy exWorld exOutside "main-dev.hcl".toList "pol".toList ["a".toList, "b".toList]
        "dev".toList
      = { file := some
            [{ path := "secret/data/b/db".toList, capabilities := ["read".toList] },
             { path := "config/data/a".toList, capabilities := ["read".toList] },
             { path := "config/data/b".toList, capabilities := ["read".toList] }]
          outcome := Outcome.returned none } ∧
    "secret/data/a/db".toList ∉
      ["secret/data/b/db".toList, "config/data/a".toList, "config/data/b".toList] :=
  ⟨by rfl, by decide, by decide, by rfl, by decide⟩

/-- C14 on the code: application `c` declares `secret/x/api-ENV_VAR_NOT_FOUND` and
`secret/x/web-ENV_VAR_NOT_FOUND`. They differ before the rewrite, so both are written, and
both blocks name `secret/data/x/+`. -/
theorem genPolicy_duplicate_after_rewrite :
    mergeConfig exWorld "pol/c".toList "dev".toList = Except.ok exPolC ∧
    genPolicy exWorld exOutside "main-dev.hcl".toList "pol".toList ["c".toList] "dev".toList
      = { file := some
            [{ path := "secret/data/x/+".toList, capabilities := ["read".toList] },
             { path := "secret/data/x/+".toList, capabilities := ["read".toList] }]
          outcome := Outcome.returned none } ∧
    ¬ (["secret/data/x/+".toList, "secret/data/x/+".toList] : List Str).Nodup :=
  ⟨by rfl, by rfl, by decide⟩

/-- C15 on the code: in `users/data/ENV_VAR_NOT_FOUND/db/somedb/dev` the sentinel is a whole
segment. The pattern `[^/]+ENV_VAR_NOT_FOUND` asks for at least one character of the segment
before the sentinel, so nothing matches and the path is written as it is; a sentinel that
ends a longer segment is rewritten. -/
theorem writePolicy_whole_segment :
    modSecretPath "users/ENV_VAR_NOT_FOUND/db/somedb/dev".toList
      = "users/data/ENV_VAR_NOT_FOUND/db/somedb/dev".toList ∧
    findAllSentinelFrom 0 "users/data/ENV_VAR_NOT_FOUND/db/somedb/dev".toList = [] ∧
    writePolicy "users/data/ENV_VAR_NOT_FOUND/db/somedb/dev".toList
      = { path := "users/data/ENV_VAR_NOT_FOUND/db/somedb/dev".toList
          capabilities := ["read".toList] } ∧
    (writePolicy "users/data/ENV_VAR_NOT_FOUND/db/somedb/dev".toList).path
      ≠ "users/data/+/db/somedb/dev".toList ∧
    writePolicy "users/data/dev-ENV_VAR_NOT_FOUND/db".toList
      = { path := "users/data/+/db".toList, capabilities := ["read".toList] } :=
  ⟨by decide, by decide, by decide, by decide, by decide⟩

/-- C16 on the code: with the logical name `DB_PASS` used by both `a` and `b`, the order of
the applications decides which definition stays in `allKeys`; the two orders give different
policy files. -/
theorem genPolicy_order_dependence :
    List.Perm ["b".toList, "a".toList] ["a".toList, "b".toList] ∧
    genPolicy exWorld exOutside "main-dev.hcl".toList "pol".toList ["a".toList, "b".toList]
        "dev".toList
      = { file := some
            [{ path := "secret/data/b/db".toList, capabilities := ["read".toList] },
             { path := "config/data/a".toList, capabilities := ["read".toList] },
             { path := "config/data/b".toList, capabilities := ["read".toList] }]
          outcome := Outcome.returned none } ∧
    genPolicy exWorld exOutside "main-dev.hcl".toList "pol".toList ["b".toList, "a".toList]
        "dev".toList
      = { file := some
            [{ path := "secret/data/a/db".toList, capabilities := ["read".toList] },
             { path := "config/data/a".toList, capabilities := ["read".toList] },
             { path := "config/data/b".toList, capabilities := ["read".toList] }]
          outcome := Outcome.returned none } ∧
    genPolicy exWorld exOutside "main-dev.hcl".toList "pol".toList ["a".toList, "b".toList]
        "dev".toList
      ≠ genPolicy exWorld exOutside "main-dev.hcl".toList "pol".toList ["b".toList, "a".toList]
        "dev".toList :=
  ⟨List.Perm.swap _ _ _, by rfl, by rfl, by decide⟩

/-! ## `genAllRolesAndPolicies` -/

theorem foldl_append_singleton (g : Str → Str) :
    ∀ (L : List Str) (init : List Str),
      L.foldl (fun policies y => policies ++ [g y]) init = init ++ L.map g := by
  intro L
  induction L with
  | nil => intro init; simp
  | cons y L ih => intro init; simp [ih]

theorem policyNames_eq (c : AppConfig) (x : Str) :
    policyNames c x
      = (c.policyPrefix ++ "-".toList ++ c.appName ++ "-".toList ++ x) ::
        (if c.dependencyApps = [] then []
         else (stringsSplitComma c.dependencyApps).map
           (fun d => c.policyPrefix ++ "-".toList ++ d ++ "-".toList ++ x)) := by
  by_cases h : c.dependencyApps = []
  · simp [policyNames, h]
  · simp only [policyNames, ne_eq, h, not_false_eq_true, if_true, if_false]
    rw [foldl_append_singleton (fun y => c.policyPrefix ++ "-".toList ++ y ++ "-".toList ++ x)]
    rfl

theorem destPolicyFile_inj (c : AppConfig) (x y : Str)
    (h : destPolicyFile c x = destPolicyFile c y) : x = y := by
  simp only [destPolicyFile] at h
  exact List.append_cancel_left (List.append_cancel_right h)

theorem destRoleFile_inj (c : AppConfig) (x y : Str)
    (h : destRoleFile c x = destRoleFile c y) : x = y := by
  simp only [destRoleFile] at h
  exact List.append_cancel_left (List.append_cancel_right h)

theorem applyName_inj (c : AppConfig) (x y : Str) (h : applyName c x = applyName c y) :
    x = y := by
  simp only [applyName] at h
  exact List.append_cancel_left (List.append_cancel_left h)

theorem envStep_mem (w : World) (o : Outside) (c : AppConfig) (x : Str) (a : Action)
    (h : a ∈ (envStep w o c x).1) : IsActionOf c x a := by
  have hdoc : marshalVaultRole (roleOf (some (policyNames c x))
      (decide (x = "prod".toList ∨ x = "qa".toList)) c.projectID c.policyLockProdClaims)
      = roleDocOf c x := by
    rw [policyNames_eq]; rfl
  have hname : c.policyPrefix ++ "-".toList ++ (c.appName ++ "-".toList ++ x) = applyName c x :=
    rfl
  have hpol : ∀ b ∈ (match (genPolicy w o (destPolicyFile c x) c.vhFolder c.apps x).file with
      | some blocks => [Action.policyFile (destPolicyFile c x) blocks]
      | none => ([] : List Action)), IsActionOf c x b := by
    intro b hb
    cases hf : (genPolicy w o (destPolicyFile c x) c.vhFolder c.apps x).file with
    | none => rw [hf] at hb; cases hb
    | some blocks =>
      rw [hf] at hb
      exact Or.inl ⟨blocks, List.mem_singleton.1 hb⟩
  have hrole : ∀ b ∈ (genRole o (destRoleFile c x) (some (policyNames c x))
      (decide (x = "prod".toList ∨ x = "qa".toList)) c.projectID c.policyLockProdClaims).1,
      IsActionOf c x b := by
    intro b hb
    simp only [genRole] at hb
    cases hw : o.writeFile (destRoleFile c x) with
    | some e => rw [hw] at hb; cases hb
    | none =>
      rw [hw] at hb
      rw [List.mem_singleton.1 hb, hdoc]
      exact Or.inr (Or.inl rfl)
  have hput : ∀ pa err, applyPolicy o (c.policyPrefix ++ "-".toList ++ (c.appName ++ "-".toList ++ x))
      (destPolicyFile c x) = Except.ok (pa, err) → ∀ b ∈ pa, IsActionOf c x b := by
    intro pa err hap b hb
    simp only [applyPolicy] at hap
    cases hr : o.readFile (destPolicyFile c x) with
    | some e => rw [hr] at hap; cases hap
    | none =>
      rw [hr] at hap
      cases hp : o.putPolicy (c.policyPrefix ++ "-".toList ++ (c.appName ++ "-".toList ++ x)) with
      | some e => rw [hp] at hap; cases hap
      | none =>
        rw [hp] at hap
        have hpa := congrArg Prod.fst (Except.ok.inj hap)
        simp only at hpa
        rw [← hpa] at hb
        rw [List.mem_singleton.1 hb]
        exact Or.inr (Or.inr (Or.inl rfl))
  have hwr : ∀ b ∈ (applyRole o (c.policyPrefix ++ "-".toList ++ (c.appName ++ "-".toList ++ x))
      (destRoleFile c x)).1, IsActionOf c x b := by
    intro b hb
    simp only [applyRole] at hb
    cases hr : o.readFile (destRoleFile c x) with
    | some e => rw [hr] at hb; cases hb
    | none =>
      rw [hr] at hb
      cases hw : o.writeRole ("auth/jwt/role/".toList
          ++ (c.policyPrefix ++ "-".toList ++ (c.appName ++ "-".toList ++ x))) with
      | some e => rw [hw] at hb; cases hb
      | none =>
        rw [hw] at hb
        rw [List.mem_singleton.1 hb]
        exact Or.inr (Or.inr (Or.inr rfl))
  simp only [envStep] at h
  split at h
  · exact hpol a h
  · exact hpol a h
  · split at h
    · rcases List.mem_append.1 h with h | h
      · exact hpol a h
      · exact hrole a h
    · split at h
      · split at h
        · rcases List.mem_append.1 h with h | h
          · exact hpol a h
          · exact hrole a h
        · rename_i pa err hap
          split at h
          · rcases List.mem_append.1 h with h | h
            · rcases List.mem_append.1 h with h | h
              · exact hpol a h
              · exact hrole a h
            · exact hput pa _ hap a h
          · split at h
            · rename_i e he
              cases he
            · rcases List.mem_append.1 h with h | h
              · rcases List.mem_append.1 h with h | h
                · rcases List.mem_append.1 h with h | h
                  · exact hpol a h
                  · exact hrole a h
                · exact hput pa _ hap a h
              · exact hwr a h
      · rcases List.mem_append.1 h with h | h
        · exact hpol a h
        · exact hrole a h

theorem genPolicy_file_of_ok (w : World) (o : Outside) (filename configFolder : Str)
    (apps : List Str) (env : Str)
    (h : (genPolicy w o filename configFolder apps env).outcome = Outcome.returned none) :
    ∃ blocks, (genPolicy w o filename configFolder apps env).file = some blocks := by
  simp only [genPolicy] at h ⊢
  cases hc : o.createFile filename with
  | some e => rw [hc] at h; simp at h
  | none =>
    cases hg : gatherApps w configFolder env apps [] [] with
    | error out => exact ⟨[], rfl⟩
    | ok r => exact ⟨_, rfl⟩

theorem applyPolicy_ok (o : Outside) (n f : Str) (pa : List Action) (err : Option Str)
    (h : applyPolicy o n f = Except.ok (pa, err)) : pa = [Action.putPolicy n f] ∧ err = none := by
  simp only [applyPolicy] at h
  cases hr : o.readFile f with
  | some e => rw [hr] at h; cases h
  | none =>
    rw [hr] at h
    cases hp : o.putPolicy n with
    | some e => rw [hp] at h; cases h
    | none =>
      rw [hp] at h
      have h2 := Except.ok.inj h
      exact ⟨(congrArg Prod.fst h2).symm, (congrArg Prod.snd h2).symm⟩

theorem applyRole_actions (o : Outside) (n f : Str) :
    (applyRole o n f).1 = [] ∨ (applyRole o n f).1 = [Action.writeRole n f] := by
  simp only [applyRole]
  cases o.readFile f with
  | some e => exact Or.inl rfl
  | none =>
    cases o.writeRole ("auth/jwt/role/".toList ++ n) with
    | some e => exact Or.inl rfl
    | none => exact Or.inr rfl

theorem envStep_ok (w : World) (o : Outside) (c : AppConfig) (x : Str)
    (h : (envStep w o c x).2 = none) :
    ∃ blocks rest, (envStep w o c x).1
        = Action.policyFile (destPolicyFile c x) blocks ::
          Action.roleFile (destRoleFile c x) (roleDocOf c x) :: rest ∧
      ∀ a ∈ rest, ∀ n, a.isPolicyFile n = false ∧ a.isRoleFile n = false := by
  have hdoc : marshalVaultRole (roleOf (some (policyNames c x))
      (decide (x = "prod".toList ∨ x = "qa".toList)) c.projectID c.policyLockProdClaims)
      = roleDocOf c x := by
    rw [policyNames_eq]; rfl
  cases hout : (genPolicy w o (destPolicyFile c x) c.vhFolder c.apps x).outcome with
  | fatal m => simp only [envStep, hout] at h; cases h
  | returned e =>
    cases e with
    | some e => simp only [envStep, hout] at h; cases h
    | none =>
      obtain ⟨blocks, hfile⟩ := genPolicy_file_of_ok w o _ _ _ _ hout
      cases hw : o.writeFile (destRoleFile c x) with
      | some e => simp only [envStep, hout, genRole, hw] at h; cases h
      | none =>
        by_cases hac : c.applyConfig = true
        · cases hap : applyPolicy o (c.policyPrefix ++ "-".toList ++ (c.appName ++ "-".toList ++ x))
              (destPolicyFile c x) with
          | error m => simp only [envStep, hout, genRole, hw, hac, hap, if_true] at h; cases h
          | ok pr =>
            obtain ⟨pa, err⟩ := pr
            obtain ⟨hpa, herr⟩ := applyPolicy_ok o _ _ pa err hap
            subst hpa herr
            refine ⟨blocks, Action.putPolicy
                (c.policyPrefix ++ "-".toList ++ (c.appName ++ "-".toList ++ x))
                (destPolicyFile c x) ::
              (applyRole o (c.policyPrefix ++ "-".toList ++ (c.appName ++ "-".toList ++ x))
                (destRoleFile c x)).1, ?_, ?_⟩
            · simp only [envStep, hout, hfile, genRole, hw, hac, hap, hdoc, if_true]
              rfl
            · intro a ha n
              rcases List.mem_cons.1 ha with ha | ha
              · subst ha; exact ⟨rfl, rfl⟩
              · rcases applyRole_actions o
                  (c.policyPrefix ++ "-".toList ++ (c.appName ++ "-".toList ++ x))
                  (destRoleFile c x) with h0 | h1
                · rw [h0] at ha; cases ha
                · rw [h1] at ha
                  rw [List.mem_singleton.1 ha]
                  exact ⟨rfl, rfl⟩
        · refine ⟨blocks, [], ?_, ?_⟩
          · simp only [envStep, hout, hfile, genRole, hw, hac, hdoc]
            rfl
          · intro a ha; cases ha

theorem envStep_some_ne (w : World) (o : Outside) (c : AppConfig) (x : Str) (out : Outcome)
    (h : (envStep w o c x).2 = some out) : out ≠ Outcome.returned none := by
  intro hout
  subst hout
  simp only [envStep] at h
  split at h
  · cases h
  · cases h
  · split at h
    · cases h
    · split at h
      · split at h
        · cases h
        · split at h
          · cases h
          · split at h
            · cases h
            · cases h
      · cases h

theorem envLoop_mem (w : World) (o : Outside) (c : AppConfig) (a : Action) :
    ∀ (envs : List Str) (trace0 : List Action), a ∈ (envLoop w o c envs trace0).trace →
      a ∈ trace0 ∨ ∃ x ∈ envs, x ≠ "local".toList ∧ IsActionOf c x a := by
  intro envs
  induction envs with
  | nil => intro trace0 h; exact Or.inl h
  | cons x rest ih =>
    intro trace0 h
    simp only [envLoop] at h
    by_cases hx : x = "local".toList
    · rw [if_pos hx] at h
      rcases ih trace0 h with h1 | ⟨y, hy, hyl, hya⟩
      · exact Or.inl h1
      · exact Or.inr ⟨y, List.mem_cons_of_mem _ hy, hyl, hya⟩
    · rw [if_neg hx] at h
      have hmem := envStep_mem w o c x a
      cases hs : envStep w o c x with
      | mk acts out =>
        rw [hs] at h hmem
        cases out with
        | some out =>
          simp only at h
          rcases List.mem_append.1 h with h1 | h1
          · exact Or.inl h1
          · exact Or.inr ⟨x, List.mem_cons_self _ _, hx, hmem h1⟩
        | none =>
          simp only at h
          rcases ih (trace0 ++ acts) h with h1 | ⟨y, hy, hyl, hya⟩
          · rcases List.mem_append.1 h1 with h2 | h2
            · exact Or.inl h2
            · exact Or.inr ⟨x, List.mem_cons_self _ _, hx, hmem h2⟩
          · exact Or.inr ⟨y, List.mem_cons_of_mem _ hy, hyl, hya⟩

theorem envLoop_countP (w : World) (o : Outside) (c : AppConfig) (pred : Action → Bool)
    (x0 : Str)
    (hstep : ∀ x, (envStep w o c x).2 = none →
      (envStep w o c x).1.countP pred = if x = x0 then 1 else 0) :
    ∀ (envs : List Str) (trace0 : List Action), envs.Nodup →
      (envLoop w o c envs trace0).outcome = Outcome.returned none →
      (envLoop w o c envs trace0).trace.countP pred
        = trace0.countP pred + (if x0 ∈ envs ∧ x0 ≠ "local".toList then 1 else 0) := by
  intro envs
  induction envs with
  | nil => intro trace0 _ _; simp [envLoop]
  | cons x rest ih =>
    intro trace0 hnd hout
    rw [List.nodup_cons] at hnd
    simp only [envLoop] at hout ⊢
    by_cases hx : x = "local".toList
    · rw [if_pos hx] at hout ⊢
      rw [ih trace0 hnd.2 hout]
      have hiff : (x0 ∈ x :: rest ∧ x0 ≠ "local".toList) ↔ (x0 ∈ rest ∧ x0 ≠ "local".toList) := by
        constructor
        · rintro ⟨hm, hl⟩
          rcases List.mem_cons.1 hm with h1 | h1
          · exact absurd (h1.trans hx) hl
          · exact ⟨h1, hl⟩
        · rintro ⟨hm, hl⟩
          exact ⟨List.mem_cons_of_mem _ hm, hl⟩
      simp only [hiff]
    · rw [if_neg hx] at hout ⊢
      have hne := envStep_some_ne w o c x
      have hst := hstep x
      cases hs : envStep w o c x with
      | mk acts out =>
        rw [hs] at hout hne hst
        cases out with
        | some out =>
          simp only at hout
          exact absurd hout (hne out rfl)
        | none =>
          simp only at hout ⊢
          rw [ih (trace0 ++ acts) hnd.2 hout, List.countP_append, hst rfl]
          by_cases hxx : x = x0
          · subst hxx
            have h1 : ¬ (x ∈ rest ∧ x ≠ "local".toList) := fun h => hnd.1 h.1
            have h2 : x ∈ x :: rest ∧ x ≠ "local".toList := ⟨List.mem_cons_self _ _, hx⟩
            rw [if_neg h1, if_pos h2, if_pos rfl]
          · have hiff : (x0 ∈ x :: rest ∧ x0 ≠ "local".toList)
                ↔ (x0 ∈ rest ∧ x0 ≠ "local".toList) := by
              constructor
              · rintro ⟨hm, hl⟩
                rcases List.mem_cons.1 hm with h1 | h1
                · exact absurd h1.symm hxx
                · exact ⟨h1, hl⟩
              · rintro ⟨hm, hl⟩
                exact ⟨List.mem_cons_of_mem _ hm, hl⟩
            by_cases hm : x0 ∈ rest ∧ x0 ≠ "local".toList
            · rw [if_neg hxx, if_pos hm, if_pos (hiff.2 hm)]
            · rw [if_neg hxx, if_neg hm, if_neg (fun h => hm (hiff.1 h))]

theorem containsString_iff (l : List Str) (s : Str) : containsString l s = true ↔ s ∈ l := by
  induction l with
  | nil => simp [containsString]
  | cons v l ih =>
    simp only [containsString, List.mem_cons]
    by_cases h : v = s
    · simp [h]
    · have h' : ¬ s = v := fun e => h e.symm
      simp [h, h', ih]

theorem addEnvs_nodup : ∀ (e envs : List Str), envs.Nodup → (addEnvs e envs).Nodup := by
  intro e
  induction e with
  | nil => intro envs h; exact h
  | cons y e ih =>
    intro envs h
    simp only [addEnvs]
    by_cases hc : containsString envs y = true
    · simp only [hc, Bool.not_true, Bool.false_eq_true, if_false]
      exact ih envs h
    · have hn : y ∉ envs := fun hm => hc ((containsString_iff envs y).2 hm)
      simp only [hc, Bool.not_false, if_true]
      apply ih
      rw [List.nodup_append]
      refine ⟨h, List.nodup_singleton y, ?_⟩
      intro a ha hb
      rw [List.mem_singleton] at hb
      exact hn (hb ▸ ha)

theorem collectEnvs_nodup (o : Outside) (vhFolder : Str) :
    ∀ (apps envs0 envs : List Str), collectEnvs o vhFolder apps envs0 = Except.ok envs →
      envs0.Nodup → envs.Nodup := by
  intro apps
  induction apps with
  | nil =>
    intro envs0 envs h hnd
    rw [← Except.ok.inj h]
    exact hnd
  | cons x apps ih =>
    intro envs0 envs h hnd
    simp only [collectEnvs] at h
    cases hg : getEnvs o (vhFolder ++ "/".toList ++ x) with
    | error e => rw [hg] at h; cases h
    | ok e =>
      rw [hg] at h
      exact ih _ envs h (addEnvs_nodup e envs0 hnd)

theorem envStep_count_policyFile (w : World) (o : Outside) (c : AppConfig) (x y : Str)
    (h : (envStep w o c y).2 = none) :
    (envStep w o c y).1.countP (Action.isPolicyFile (destPolicyFile c x))
      = if y = x then 1 else 0 := by
  obtain ⟨blocks, rest, hacts, hrest⟩ := envStep_ok w o c y h
  have h0 : rest.countP (Action.isPolicyFile (destPolicyFile c x)) = 0 :=
    List.countP_eq_zero.2 (fun a ha => by rw [(hrest a ha _).1]; decide)
  rw [hacts, List.countP_cons, List.countP_cons, h0]
  by_cases hyx : y = x
  · subst hyx
    simp [Action.isPolicyFile, Action.isRoleFile]
  · have hne : ¬ destPolicyFile c y = destPolicyFile c x :=
      fun e => hyx (destPolicyFile_inj c y x e)
    simp [Action.isPolicyFile, hne, hyx]

theorem envStep_count_roleFile (w : World) (o : Outside) (c : AppConfig) (x y : Str)
    (h : (envStep w o c y).2 = none) :
    (envStep w o c y).1.countP (Action.isRoleFile (destRoleFile c x))
      = if y = x then 1 else 0 := by
  obtain ⟨blocks, rest, hacts, hrest⟩ := envStep_ok w o c y h
  have h0 : rest.countP (Action.isRoleFile (destRoleFile c x)) = 0 :=
    List.countP_eq_zero.2 (fun a ha => by rw [(hrest a ha _).2]; decide)
  rw [hacts, List.countP_cons, List.countP_cons, h0]
  by_cases hyx : y = x
  · subst hyx
    simp [Action.isPolicyFile, Action.isRoleFile]
  · have hne : ¬ destRoleFile c y = destRoleFile c x :=
      fun e => hyx (destRoleFile_inj c y x e)
    simp [Action.isRoleFile, Action.isPolicyFile, hne, hyx]

theorem genAll_mem (w : World) (o : Outside) (c : AppConfig) (a : Action)
    (h : a ∈ (genAllRolesAndPolicies w o c).trace) :
    a = Action.resetGenerated c.vhFolder ∨ ∃ x, x ≠ "local".toList ∧ IsActionOf c x a := by
  simp only [genAllRolesAndPolicies] at h
  cases hce : collectEnvs o c.vhFolder c.apps [] with
  | error e =>
    rw [hce] at h
    exact Or.inl (List.mem_singleton.1 h)
  | ok envs =>
    rw [hce] at h
    rcases envLoop_mem w o c a envs _ h with h1 | ⟨x, _, hx, hxa⟩
    · exact Or.inl (List.mem_singleton.1 h1)
    · exact Or.inr ⟨x, hx, hxa⟩

/-- C18. A role file that `genAllRolesAndPolicies` writes for an environment `x` is never
for `local`, and its document is the one `genRole` serializes for the policy list
`[prefix-appName-x]` followed by `prefix-d-x` for each name `d` of the comma-separated
dependency list in its order, with the production flag true exactly for `prod` and `qa`, and
with the configured project id and lock flag. -/
theorem genAll_role_document (w : World) (o : Outside) (c : AppConfig) (x : Str) (doc : Json)
    (h : Action.roleFile (destRoleFile c x) doc ∈ (genAllRolesAndPolicies w o c).trace) :
    x ≠ "local".toList ∧
    doc = marshalVaultRole
      (roleOf
        (some ((c.policyPrefix ++ "-".toList ++ c.appName ++ "-".toList ++ x) ::
          (if c.dependencyApps = [] then []
           else (stringsSplitComma c.dependencyApps).map
             (fun d => c.policyPrefix ++ "-".toList ++ d ++ "-".toList ++ x))))
        (decide (x = "prod".toList ∨ x = "qa".toList)) c.projectID c.policyLockProdClaims) := by
  rcases genAll_mem w o c _ h with h1 | ⟨y, hy, hya⟩
  · cases h1
  · rcases hya with ⟨blocks, hb⟩ | hr | hp | hw
    · cases hb
    · have hname := (Action.roleFile.inj hr).1
      have hdoc := (Action.roleFile.inj hr).2
      have hxy : x = y := destRoleFile_inj c x y hname
      subst hxy
      exact ⟨hy, hdoc⟩
    · cases hp
    · cases hw

/-- Witness for C18: the role written for `qa` in the example. -/
theorem genAll_role_document_witness :
    Action.roleFile (destRoleFile (exConfig ["a".toList]) "qa".toList) exRoleQa
      ∈ (genAllRolesAndPolicies exWorld exOutside (exConfig ["a".toList])).trace ∧
    "qa".toList ≠ "local".toList ∧
    exRoleQa = marshalVaultRole
      (roleOf
        (some (("vh".toList ++ "-".toList ++ "main".toList ++ "-".toList ++ "qa".toList) ::
          (if (exConfig ["a".toList]).dependencyApps = [] then []
           else (stringsSplitComma (exConfig ["a".toList]).dependencyApps).map
             (fun d => "vh".toList ++ "-".toList ++ d ++ "-".toList ++ "qa".toList))))
        (decide ("qa".toList = "prod".toList ∨ "qa".toList = "qa".toList)) "15".toList true) :=
  ⟨List.mem_iff_getElem?.2 ⟨6, rfl⟩,
    genAll_role_document exWorld exOutside (exConfig ["a".toList]) "qa".toList exRoleQa
      (List.mem_iff_getElem?.2 ⟨6, rfl⟩)⟩

/-- C19, as stated, fails: with applications `a` and `b`, `qa` is a discovered environment
(from `a`) other than `local`, but `b` has no `qa.yaml`; `genPolicy` returns the `os.Stat`
error, the run ends there, and `qa` has its (empty) policy file but no role file. -/
theorem genAll_missing_role_counterexample :
    collectEnvs exOutside "pol".toList ["a".toList, "b".toList] []
      = Except.ok ["dev".toList, "local".toList, "qa".toList] ∧
    "qa".toList ≠ "local".toList ∧
    (genAllRolesAndPolicies exWorld exOutside (exConfig ["a".toList, "b".toList])).outcome
      = Outcome.returned (some (errStat "pol/b/qa.yaml".toList)) ∧
    (genAllRolesAndPolicies exWorld exOutside (exConfig ["a".toList, "b".toList])).trace.countP
      (Action.isRoleFile (destRoleFile (exConfig ["a".toList, "b".toList]) "qa".toList)) = 0 ∧
    Action.policyFile (destPolicyFile (exConfig ["a".toList, "b".toList]) "qa".toList) []
      ∈ (genAllRolesAndPolicies exWorld exOutside (exConfig ["a".toList, "b".toList])).trace :=
  ⟨by rfl, by decide, by rfl, by rfl, List.mem_iff_getElem?.2 ⟨5, rfl⟩⟩

/-- C19, amended. `genAllRolesAndPolicies` never writes a policy file or a role file for the
environment `local` and never stores a policy or role for it; and in a run that ends without
error every other discovered environment gets exactly one policy file
`<appName>-<env>.hcl` and exactly one role file `<appName>-<env>.json`. -/
theorem genAll_local_excluded (w : World) (o : Outside) (c : AppConfig) :
    (∀ a ∈ (genAllRolesAndPolicies w o c).trace,
      a.isPolicyFile (destPolicyFile c "local".toList) = false ∧
      a.isRoleFile (destRoleFile c "local".toList) = false ∧
      a.isApply (applyName c "local".toList) = false) ∧
    (∀ envs, collectEnvs o c.vhFolder c.apps [] = Except.ok envs →
      (genAllRolesAndPolicies w o c).outcome = Outcome.returned none →
      ∀ x ∈ envs, x ≠ "local".toList →
        (genAllRolesAndPolicies w o c).trace.countP (Action.isPolicyFile (destPolicyFile c x)) = 1 ∧
        (genAllRolesAndPolicies w o c).trace.countP (Action.isRoleFile (destRoleFile c x)) = 1) := by
  constructor
  · intro a ha
    rcases genAll_mem w o c a ha with h1 | ⟨y, hy, hya⟩
    · subst h1
      exact ⟨rfl, rfl, rfl⟩
    · have hp : ¬ destPolicyFile c y = destPolicyFile c "local".toList :=
        fun e => hy (destPolicyFile_inj c _ _ e)
      have hr : ¬ destRoleFile c y = destRoleFile c "local".toList :=
        fun e => hy (destRoleFile_inj c _ _ e)
      have hn : ¬ applyName c y = applyName c "local".toList :=
        fun e => hy (applyName_inj c _ _ e)
      rcases hya with ⟨blocks, hb⟩ | hb | hb | hb
      · subst hb
        exact ⟨by simp only [Action.isPolicyFile, hp, decide_False], rfl, rfl⟩
      · subst hb
        exact ⟨rfl, by simp only [Action.isRoleFile, hr, decide_False], rfl⟩
      · subst hb
        exact ⟨rfl, rfl, by simp only [Action.isApply, hn, decide_False]⟩
      · subst hb
        exact ⟨rfl, rfl, by simp only [Action.isApply, hn, decide_False]⟩
  · intro envs hce hout x hx hxl
    have hnd : envs.Nodup := collectEnvs_nodup o c.vhFolder c.apps [] envs hce List.nodup_nil
    simp only [genAllRolesAndPolicies, hce] at hout ⊢
    have h1 := envLoop_countP w o c (Action.isPolicyFile (destPolicyFile c x)) x
      (fun y hy => envStep_count_policyFile w o c x y hy) envs
      [Action.resetGenerated c.vhFolder] hnd hout
    have h2 := envLoop_countP w o c (Action.isRoleFile (destRoleFile c x)) x
      (fun y hy => envStep_count_roleFile w o c x y hy) envs
      [Action.resetGenerated c.vhFolder] hnd hout
    rw [if_pos ⟨hx, hxl⟩] at h1 h2
    exact ⟨h1, h2⟩

/-- Witness for the amended C19: the run for application `a` ends without error; `qa` gets
one policy file and one role file. -/
theorem genAll_local_excluded_witness :
    collectEnvs exOutside (exConfig ["a".toList]).vhFolder (exConfig ["a".toList]).apps []
      = Except.ok ["dev".toList, "local".toList, "qa".toList] ∧
    (genAllRolesAndPolicies exWorld exOutside (exConfig ["a".toList])).outcome
      = Outcome.returned none ∧
    "qa".toList ∈ ["dev".toList, "local".toList, "qa".toList] ∧
    "qa".toList ≠ "local".toList ∧
    (genAllRolesAndPolicies exWorld exOutside (exConfig ["a".toList])).trace.countP
        (Action.isPolicyFile (destPolicyFile (exConfig ["a".toList]) "qa".toList)) = 1 ∧
    (genAllRolesAndPolicies exWorld exOutside (exConfig ["a".toList])).trace.countP
        (Action.isRoleFile (destRoleFile (exConfig ["a".toList]) "qa".toList)) = 1 :=
  ⟨by rfl, by rfl, by decide, by decide,
    (genAll_local_excluded exWorld exOutside (exConfig ["a".toList])).2
      ["dev".toList, "local".toList, "qa".toList] (by rfl) (by rfl) "qa".toList
      (by decide) (by decide)⟩

/-! ## `mergeConfig`: the choice of the files -/

theorem yamlFile_inj (folder a b : Str)
    (h : folder ++ "/".toList ++ a ++ ".yaml".toList = folder ++ "/".toList ++ b ++ ".yaml".toList) :
    a = b := by
  simp only [List.append_assoc] at h
  exact List.append_cancel_right (List.append_cancel_left (List.append_cancel_left h))

theorem baseYaml_eq (folder : Str) :
    folder ++ "/base.yaml".toList = folder ++ "/".toList ++ "base".toList ++ ".yaml".toList := by
  rw [List.append_assoc, List.append_assoc]; rfl

theorem devYaml_eq (folder : Str) :
    folder ++ "/dev.yaml".toList = folder ++ "/".toList ++ "dev".toList ++ ".yaml".toList := by
  rw [List.append_assoc, List.append_assoc]; rfl

theorem baseFileOf_of_base (w : World) (folder : Str)
    (hb : fileExists w (folder ++ "/base.yaml".toList) = true) :
    baseFileOf w folder = folder ++ "/base.yaml".toList := by
  simp only [baseFileOf, hb, Bool.not_true, Bool.false_eq_true, if_false]

theorem baseFileOf_of_noBase (w : World) (folder : Str)
    (hb : fileExists w (folder ++ "/base.yaml".toList) = false) :
    baseFileOf w folder = folder ++ "/dev.yaml".toList := by
  simp only [baseFileOf, hb, Bool.not_false, if_true]

theorem envFileOf_of_env (w : World) (folder env : Str)
    (he : fileExists w (folder ++ "/".toList ++ env ++ ".yaml".toList) = true) :
    envFileOf w folder env = folder ++ "/".toList ++ env ++ ".yaml".toList := by
  simp only [envFileOf, he, Bool.not_true, Bool.false_eq_true, if_false]

theorem envFileOf_of_noEnv (w : World) (folder env : Str)
    (he : fileExists w (folder ++ "/".toList ++ env ++ ".yaml".toList) = false) :
    envFileOf w folder env = baseFileOf w folder := by
  simp only [envFileOf, he, Bool.not_false, if_true]

theorem mergeConfig_same_file (w : World) (folder env : Str)
    (hb : fileExists w (baseFileOf w folder) = true)
    (heq : envFileOf w folder env = baseFileOf w folder) :
    mergeConfig w folder env = parseSecretConfig w (baseFileOf w folder) := by
  simp only [mergeConfig, hb, heq]
  cases parseSecretConfig w (baseFileOf w folder) <;> simp

theorem mergeConfig_no_basefile (w : World) (folder env : Str)
    (hb : fileExists w (baseFileOf w folder) = false) :
    mergeConfig w folder env
      = Except.error ("could not find basefile (base.yaml or dev.yaml): ".toList
          ++ baseFileOf w folder) := by
  simp [mergeConfig, hb]

/-- C21, as stated, fails for the environment `base`: `vh/twin` has a `base.yaml`, the file
of the requested environment `base` exists (it is `base.yaml`), and `mergeConfig` returns the
parsed `base.yaml` unchanged, which is not the merge of `base.yaml` with itself. -/
theorem mergeConfig_base_env_counterexample :
    fileExists exWorld ("vh/twin".toList ++ "/".toList ++ "base".toList ++ ".yaml".toList) = true ∧
    fileExists exWorld ("vh/twin".toList ++ "/base.yaml".toList) = true ∧
    parseSecretConfig exWorld ("vh/twin".toList ++ "/base.yaml".toList) = Except.ok exTwin ∧
    mergeConfig exWorld "vh/twin".toList "base".toList = Except.ok exTwin ∧
    mergeStep exTwin exTwin ≠ exTwin :=
  ⟨by decide, by decide, by rfl, by rfl, by decide⟩

/-- C21, amended. For a requested environment `e` whose file exists and parses to `E`: if
`base.yaml` exists and `e` is not `base`, `mergeConfig` returns the merge of the parsed
`base.yaml` (as base) with `E`; if `base.yaml` exists and `e` is `base`, it returns `E`
unchanged; if `base.yaml` does not exist, `e` is not `dev` and `dev.yaml` exists, it returns
the merge of the parsed `dev.yaml` (as base) with `E`; and if `base.yaml` does not exist and
`e` is `dev`, it returns `E`, the parsed `dev.yaml`, unchanged. -/
theorem mergeConfig_base_selection (w : World) (folder env : Str) (E : SecretConfig)
    (henv : fileExists w (folder ++ "/".toList ++ env ++ ".yaml".toList) = true)
    (hE : parseSecretConfig w (folder ++ "/".toList ++ env ++ ".yaml".toList) = Except.ok E) :
    (fileExists w (folder ++ "/base.yaml".toList) = true → env ≠ "base".toList →
      ∀ B, parseSecretConfig w (folder ++ "/base.yaml".toList) = Except.ok B →
        mergeConfig w folder env = Except.ok (mergeStep B E)) ∧
    (fileExists w (folder ++ "/base.yaml".toList) = true → env = "base".toList →
      mergeConfig w folder env = Except.ok E) ∧
    (fileExists w (folder ++ "/base.yaml".toList) = false → env ≠ "dev".toList →
      fileExists w (folder ++ "/dev.yaml".toList) = true →
      ∀ D, parseSecretConfig w (folder ++ "/dev.yaml".toList) = Except.ok D →
        mergeConfig w folder env = Except.ok (mergeStep D E)) ∧
    (fileExists w (folder ++ "/base.yaml".toList) = false → env = "dev".toList →
      mergeConfig w folder env = Except.ok E) := by
  have hef := envFileOf_of_env w folder env henv
  refine ⟨?_, ?_, ?_, ?_⟩
  · intro hb hne B hB
    have hbf := baseFileOf_of_base w folder hb
    apply mergeConfig_eq_mergeStep w folder env B E
    · rw [hbf]; exact hb
    · rw [hbf, hef, baseYaml_eq]
      intro h
      exact hne (yamlFile_inj folder _ _ h).symm
    · rw [hbf]; exact hB
    · rw [hef]; exact hE
  · intro hb he
    have hbf := baseFileOf_of_base w folder hb
    have heq : envFileOf w folder env = baseFileOf w folder := by
      rw [hbf, hef, he, baseYaml_eq]
    rw [mergeConfig_same_file w folder env (by rw [hbf]; exact hb) heq, ← heq, hef]
    exact hE
  · intro hb hne hd D hD
    have hbf := baseFileOf_of_noBase w folder hb
    apply mergeConfig_eq_mergeStep w folder env D E
    · rw [hbf]; exact hd
    · rw [hbf, hef, devYaml_eq]
      intro h
      exact hne (yamlFile_inj folder _ _ h).symm
    · rw [hbf]; exact hD
    · rw [hef]; exact hE
  · intro hb he
    have hbf := baseFileOf_of_noBase w folder hb
    have heq : envFileOf w folder env = baseFileOf w folder := by
      rw [hbf, hef, he, devYaml_eq]
    have hd : fileExists w (baseFileOf w folder) = true := by
      rw [← heq, hef]; exact henv
    rw [mergeConfig_same_file w folder env hd heq, ← heq, hef]
    exact hE

/-- Witness for the amended C21, one folder per case: `vh/app` in `prod` (merge of `base.yaml`
with `prod.yaml`), `vh/twin` in `base`, `pol/a` in `qa` (merge of `dev.yaml` with `qa.yaml`)
and `vh/single` in `dev`. -/
theorem mergeConfig_base_selection_witness :
    (fileExists exWorld ("vh/app".toList ++ "/".toList ++ "prod".toList ++ ".yaml".toList) = true ∧
      parseSecretConfig exWorld ("vh/app".toList ++ "/".toList ++ "prod".toList ++ ".yaml".toList)
        = Except.ok exProd ∧
      fileExists exWorld ("vh/app".toList ++ "/base.yaml".toList) = true ∧
      "prod".toList ≠ "base".toList ∧
      parseSecretConfig exWorld ("vh/app".toList ++ "/base.yaml".toList) = Except.ok exBase ∧
      mergeConfig exWorld "vh/app".toList "prod".toList = Except.ok (mergeStep exBase exProd)) ∧
    (fileExists exWorld ("vh/twin".toList ++ "/".toList ++ "base".toList ++ ".yaml".toList) = true ∧
      mergeConfig exWorld "vh/twin".toList "base".toList = Except.ok exTwin) ∧
    (fileExists exWorld ("pol/a".toList ++ "/".toList ++ "qa".toList ++ ".yaml".toList) = true ∧
      fileExists exWorld ("pol/a".toList ++ "/base.yaml".toList) = false ∧
      fileExists exWorld ("pol/a".toList ++ "/dev.yaml".toList) = true ∧
      mergeConfig exWorld "pol/a".toList "qa".toList = Except.ok (mergeStep exPolA exPolAQa)) ∧
    (fileExists exWorld ("vh/single".toList ++ "/".toList ++ "dev".toList ++ ".yaml".toList) = true ∧
      fileExists exWorld ("vh/single".toList ++ "/base.yaml".toList) = false ∧
      mergeConfig exWorld "vh/single".toList "dev".toList = Except.ok exSingle) :=
  ⟨⟨by decide, by rfl, by decide, by decide, by rfl,
      (mergeConfig_base_selection exWorld "vh/app".toList "prod".toList exProd (by decide)
        (by rfl)).1 (by decide) (by decide) exBase (by rfl)⟩,
    ⟨by decide,
      (mergeConfig_base_selection exWorld "vh/twin".toList "base".toList exTwin (by decide)
        (by rfl)).2.1 (by decide) rfl⟩,
    ⟨by decide, by decide, by decide,
      (mergeConfig_base_selection exWorld "pol/a".toList "qa".toList exPolAQa (by decide)
        (by rfl)).2.2.1 (by decide) (by decide) (by decide) exPolA (by rfl)⟩,
    ⟨by decide, by decide,
      (mergeConfig_base_selection exWorld "vh/single".toList "dev".toList exSingle (by decide)
        (by rfl)).2.2.2 (by decide) rfl⟩⟩

/-- C22. In `vh/solo`, which holds `prod.yaml` and neither `base.yaml` nor `dev.yaml`,
`mergeConfig` for `prod` does not return the parsed `prod.yaml`: it ends in the fatal error
`could not find basefile (base.yaml or dev.yaml)`, although `prod.yaml` is there and
parses. -/
theorem mergeConfig_solo_fatal :
    fileExists exWorld "vh/solo/prod.yaml".toList = true ∧
    fileExists exWorld "vh/solo/base.yaml".toList = false ∧
    fileExists exWorld "vh/solo/dev.yaml".toList = false ∧
    parseSecretConfig exWorld "vh/solo/prod.yaml".toList = Except.ok exSolo ∧
    mergeConfig exWorld "vh/solo".toList "prod".toList
      = Except.error
          "could not find basefile (base.yaml or dev.yaml): vh/solo/dev.yaml".toList :=
  ⟨by decide, by decide, by decide, by rfl, by rfl⟩

/-- C23, as stated, fails: `vh/app` has no `staging.yaml`, and `mergeConfig` for `staging`
returns the manifest of `base.yaml`, a manifest built from another file of the folder. -/
theorem mergeConfig_missing_env_counterexample :
    fileExists exWorld ("vh/app".toList ++ "/".toList ++ "staging".toList ++ ".yaml".toList)
      = false ∧
    mergeConfig exWorld "vh/app".toList "staging".toList = Except.ok exBase :=
  ⟨by decide, by rfl⟩

/-- C23, amended. When the file of the requested environment is missing, `mergeConfig` falls
back to the base file: with `base.yaml` present it ends as parsing `base.yaml` ends (the
parsed manifest, unchanged), with `base.yaml` missing and `dev.yaml` present it ends as
parsing `dev.yaml` ends, and only with both missing does it end in the fatal error
`could not find basefile (base.yaml or dev.yaml)`. -/
theorem mergeConfig_missing_env (w : World) (folder env : Str)
    (henv : fileExists w (folder ++ "/".toList ++ env ++ ".yaml".toList) = false) :
    (fileExists w (folder ++ "/base.yaml".toList) = true →
      mergeConfig w folder env = parseSecretConfig w (folder ++ "/base.yaml".toList)) ∧
    (fileExists w (folder ++ "/base.yaml".toList) = false →
      fileExists w (folder ++ "/dev.yaml".toList) = true →
      mergeConfig w folder env = parseSecretConfig w (folder ++ "/dev.yaml".toList)) ∧
    (fileExists w (folder ++ "/base.yaml".toList) = false →
      fileExists w (folder ++ "/dev.yaml".toList) = false →
      mergeConfig w folder env
        = Except.error ("could not find basefile (base.yaml or dev.yaml): ".toList
            ++ (folder ++ "/dev.yaml".toList))) := by
  have heq := envFileOf_of_noEnv w folder env henv
  refine ⟨?_, ?_, ?_⟩
  · intro hb
    have hbf := baseFileOf_of_base w folder hb
    rw [mergeConfig_same_file w folder env (by rw [hbf]; exact hb) heq, hbf]
  · intro hb hd
    have hbf := baseFileOf_of_noBase w folder hb
    rw [mergeConfig_same_file w folder env (by rw [hbf]; exact hd) heq, hbf]
  · intro hb hd
    have hbf := baseFileOf_of_noBase w folder hb
    rw [mergeConfig_no_basefile w folder env (by rw [hbf]; exact hd), hbf]

/-- Witness for the amended C23: `vh/app` in `staging` (falls back to `base.yaml`), `pol/a`
in `staging` (falls back to `dev.yaml`) and `vh/solo` in `staging` (no base file). -/
theorem mergeConfig_missing_env_witness :
    (fileExists exWorld ("vh/app".toList ++ "/".toList ++ "staging".toList ++ ".yaml".toList)
        = false ∧
      fileExists exWorld ("vh/app".toList ++ "/base.yaml".toList) = true ∧
      mergeConfig exWorld "vh/app".toList "staging".toList
        = parseSecretConfig exWorld ("vh/app".toList ++ "/base.yaml".toList)) ∧
    (fileExists exWorld ("pol/a".toList ++ "/".toList ++ "staging".toList ++ ".yaml".toList)
        = false ∧
      fileExists exWorld ("pol/a".toList ++ "/base.yaml".toList) = false ∧
      fileExists exWorld ("pol/a".toList ++ "/dev.yaml".toList) = true ∧
      mergeConfig exWorld "pol/a".toList "staging".toList
        = parseSecretConfig exWorld ("pol/a".toList ++ "/dev.yaml".toList)) ∧
    (fileExists exWorld ("vh/solo".toList ++ "/".toList ++ "staging".toList ++ ".yaml".toList)
        = false ∧
      fileExists exWorld ("vh/solo".toList ++ "/base.yaml".toList) = false ∧
      fileExists exWorld ("vh/solo".toList ++ "/dev.yaml".toList) = false ∧
      mergeConfig exWorld "vh/solo".toList "staging".toList
        = Except.error ("could not find basefile (base.yaml or dev.yaml): ".toList
            ++ ("vh/solo".toList ++ "/dev.yaml".toList))) :=
  ⟨⟨by decide, by decide,
      (mergeConfig_missing_env exWorld "vh/app".toList "staging".toList (by decide)).1
        (by decide)⟩,
    ⟨by decide, by decide, by decide,
      (mergeConfig_missing_env exWorld "pol/a".toList "staging".toList (by decide)).2.1
        (by decide) (by decide)⟩,
    ⟨by decide, by decide, by decide,
      (mergeConfig_missing_env exWorld "vh/solo".toList "staging".toList (by decide)).2.2
        (by decide) (by decide)⟩⟩

/-! ## `modSecretPath` is injective -/

theorem modSecretPath_closed (p : Str) :
    modSecretPath p
      = p.takeWhile (fun c => c != '/') ++ "/data".toList ++ p.dropWhile (fun c => c != '/') := by
  have hs : ∀ c ∈ p.takeWhile (fun c => c != '/'), c ≠ '/' := by
    intro c hc
    have := List.mem_takeWhile_imp hc
    simpa using this
  have hr : p.dropWhile (fun c => c != '/') = [] ∨
      ∃ t, p.dropWhile (fun c => c != '/') = '/' :: t := by
    cases hd : p.dropWhile (fun c => c != '/') with
    | nil => exact Or.inl rfl
    | cons d t =>
      right
      have := List.head_dropWhile_not (fun c => c != '/') p (by simp [hd])
      simp [hd] at this
      exact ⟨t, by rw [this]⟩
  have hst : findStore p = p.takeWhile (fun c => c != '/') := rfl
  have hne : p.takeWhile (fun c => c != '/') ≠ "/data".toList := by
    intro h
    exact hs '/' (by rw [h]; decide) rfl
  have hp : p = p.takeWhile (fun c => c != '/') ++ p.dropWhile (fun c => c != '/') :=
    (List.takeWhile_append_dropWhile _ p).symm
  simp only [modSecretPath, hst]
  generalize p.takeWhile (fun c => c != '/') = s at hs hne hp ⊢
  generalize p.dropWhile (fun c => c != '/') = r at hr hp ⊢
  subst hp
  cases s with
  | nil => exact stringsReplace_once_emptyOld r "/data".toList (by decide)
  | cons c s => rw [stringsReplace_once_leading c s r "/data".toList hne, List.append_assoc]

theorem findStore_modSecretPath (p : Str) : findStore (modSecretPath p) = findStore p := by
  rw [modSecretPath_closed, List.append_assoc]
  exact findStore_append _ _
    (by
      intro c hc
      have := List.mem_takeWhile_imp hc
      simpa using this)
    (Or.inr ⟨"data".toList ++ p.dropWhile (fun c => c != '/'), rfl⟩)

theorem modSecretPath_inj (p q : Str) (h : modSecretPath p = modSecretPath q) : p = q := by
  have hs : findStore p = findStore q := by
    rw [← findStore_modSecretPath p, ← findStore_modSecretPath q, h]
  have hs2 : p.takeWhile (fun c => c != '/') = q.takeWhile (fun c => c != '/') := hs
  rw [modSecretPath_closed, modSecretPath_closed, hs2, List.append_assoc, List.append_assoc] at h
  have hd : p.dropWhile (fun c => c != '/') = q.dropWhile (fun c => c != '/') :=
    List.append_cancel_left (List.append_cancel_left h)
  rw [← List.takeWhile_append_dropWhile (fun c => c != '/') p,
    ← List.takeWhile_append_dropWhile (fun c => c != '/') q, hs2, hd]

theorem keepNew_map_inj (f : Str → Str) (hf : ∀ a b, f a = f b → a = b) :
    ∀ (l seen : List Str), keepNew (seen.map f) (l.map f) = (keepNew seen l).map f := by
  intro l
  induction l with
  | nil => intro seen; rfl
  | cons x l ih =>
    intro seen
    have hmem : f x ∈ seen.map f ↔ x ∈ seen := by
      constructor
      · intro h
        obtain ⟨y, hy, hxy⟩ := List.mem_map.1 h
        rw [← hf y x hxy]
        exact hy
      · exact fun h => List.mem_map.2 ⟨x, h, rfl⟩
    by_cases hx : x ∈ seen
    · simp only [List.map_cons, keepNew, if_pos hx, if_pos (hmem.2 hx)]
      exact ih seen
    · have hx2 : f x ∉ seen.map f := fun h => hx (hmem.1 h)
      simp only [List.map_cons, keepNew, if_neg hx, if_neg hx2]
      rw [← ih (x :: seen)]
      rfl

/-- C28. `modSecretPath` is injective, so de-duplicating a list of paths after normalization
keeps exactly the normalized entries that de-duplicating the raw paths keeps: two distinct
declared paths are never merged. -/
theorem modSecretPath_injective :
    (∀ p q : Str, modSecretPath p = modSecretPath q → p = q) ∧
    (∀ l : List Str, keepNew [] (l.map modSecretPath) = (keepNew [] l).map modSecretPath) :=
  ⟨modSecretPath_inj, fun l => keepNew_map_inj modSecretPath modSecretPath_inj l []⟩

/-- Witness for C28: the paths `secret/a` and `secret/a` have the same image and are
equal, and the list `secret/a, secret//a, secret/a` keeps its first two entries. -/
theorem modSecretPath_injective_witness :
    modSecretPath "secret/a".toList = modSecretPath "secret/a".toList ∧
    "secret/a".toList = "secret/a".toList ∧
    keepNew [] (["secret/a".toList, "secret//a".toList, "secret/a".toList].map modSecretPath)
      = ["secret/data/a".toList, "secret/data//a".toList] :=
  ⟨rfl, modSecretPath_injective.1 "secret/a".toList "secret/a".toList rfl, by decide⟩

/-! ## A role the store refuses -/

/-- C24. With a store that refuses the role of `dev`, `applyRole` returns the error for
`dev`, and `genAllRolesAndPolicies` (apply enabled, environments `dev`, `local`, `qa`) goes
on to `qa` and returns a nil error: the policy of `dev` is stored without its role, and the
policy and the role of `qa` are stored after the failure. -/
theorem genAll_role_failure_dropped :
    (exConfig ["a".toList]).applyConfig = true ∧
    collectEnvs exOutsideRoleFails (exConfig ["a".toList]).vhFolder (exConfig ["a".toList]).apps []
      = Except.ok ["dev".toList, "local".toList, "qa".toList] ∧
    applyRole exOutsideRoleFails "vh-main-dev".toList
        (destRoleFile (exConfig ["a".toList]) "dev".toList)
      = ([], some "permission denied".toList) ∧
    (genAllRolesAndPolicies exWorld exOutsideRoleFails (exConfig ["a".toList])).outcome
      = Outcome.returned none ∧
    (genAllRolesAndPolicies exWorld exOutsideRoleFails (exConfig ["a".toList])).trace.countP
      (Action.isApply "vh-main-dev".toList) = 1 ∧
    (genAllRolesAndPolicies exWorld exOutsideRoleFails (exConfig ["a".toList])).trace.countP
      (Action.isApply "vh-main-qa".toList) = 2 :=
  ⟨rfl, by rfl, by rfl, by rfl, by rfl, by rfl⟩

/-! ## The matches of a text and the warnings -/

theorem head?_append_close (name rest : Str) :
    (name ++ '}' :: '}' :: rest).head? = (name ++ ['}']).head? := by
  cases name <;> rfl

theorem scanName_shape :
    ∀ (t name rest : Str), scanName t = some (name, rest) →
      '\n' ∉ name ∧ hasDoubleClose (name ++ ['}']) = false ∧ t = name ++ '}' :: '}' :: rest := by
  intro t
  induction t with
  | nil => intro name rest h; cases h
  | cons c t ih =>
    intro name rest h
    by_cases h1 : c = '}' ∧ t.head? = some '}'
    · simp only [scanName, if_pos h1, Option.some.injEq, Prod.mk.injEq] at h
      obtain ⟨hn, hr⟩ := h
      subst hn
      refine ⟨by simp, by decide, ?_⟩
      obtain ⟨hc, ht⟩ := h1
      cases t with
      | nil => cases ht
      | cons d t =>
        simp only [List.head?_cons, Option.some.injEq] at ht
        simp only [List.tail_cons] at hr
        rw [hc, ht, hr]
        rfl
    · by_cases h2 : c = '\n'
      · simp only [scanName, if_neg h1, if_pos h2] at h
        cases h
      · simp only [scanName, if_neg h1, if_neg h2] at h
        cases hs : scanName t with
        | none => rw [hs] at h; cases h
        | some p =>
          obtain ⟨name1, rest1⟩ := p
          rw [hs] at h
          simp only [Option.map_some', Option.some.injEq, Prod.mk.injEq] at h
          obtain ⟨hn, hr⟩ := h
          subst hn
          subst hr
          obtain ⟨i1, i2, i3⟩ := ih name1 rest1 hs
          refine ⟨?_, ?_, by rw [i3]; rfl⟩
          · intro hmem
            rcases List.mem_cons.1 hmem with hc | hc
            · exact h2 hc.symm
            · exact i1 hc
          · have hhead : ¬ (c = '}' ∧ (name1 ++ ['}']).head? = some '}') := by
              rw [← head?_append_close name1 rest1, ← i3]
              exact h1
            have hfirst : (c == '}' && (name1 ++ ['}']).head? == some '}') = false := by
              by_cases hc : c = '}'
              · have hh : ((name1 ++ ['}']).head? == some '}') = false :=
                  Bool.eq_false_iff.2 (fun hb => hhead ⟨hc, eq_of_beq hb⟩)
                rw [hh, Bool.and_false]
              · simp [hc]
            show ((c == '}' && (name1 ++ ['}']).head? == some '}')
              || hasDoubleClose (name1 ++ ['}'])) = false
            rw [hfirst, i2]
            rfl

theorem matchPlaceholder_shape (s m : Str) (h : matchPlaceholder s = some m) :
    ∃ name, m = placeholder name ∧ '\n' ∉ name ∧ hasDoubleClose (name ++ ['}']) = false := by
  match s, h with
  | c1 :: c2 :: t, h =>
    by_cases hc : c1 = '{' ∧ c2 = '{'
    · simp only [matchPlaceholder, if_pos hc] at h
      cases hs : scanName t with
      | none => rw [hs] at h; cases h
      | some p =>
        obtain ⟨name, rest⟩ := p
        rw [hs] at h
        simp only [Option.map_some', Option.some.injEq] at h
        obtain ⟨i1, i2, _⟩ := scanName_shape t name rest hs
        exact ⟨name, h.symm, i1, i2⟩
    · simp only [matchPlaceholder, if_neg hc] at h
      cases h
  | [], h => cases h
  | [_], h => cases h

theorem findAllFrom_shape :
    ∀ (s : Str) (skip : Nat) (m : Str), m ∈ findAllFrom skip s →
      ∃ name, m = placeholder name ∧ '\n' ∉ name ∧ hasDoubleClose (name ++ ['}']) = false := by
  intro s
  induction s with
  | nil => intro skip m h; cases skip <;> cases h
  | cons c rest ih =>
    intro skip m h
    cases skip with
    | succ k => exact ih k m h
    | zero =>
      simp only [findAllFrom] at h
      cases hm : matchPlaceholder (c :: rest) with
      | none =>
        rw [hm] at h
        exact ih 0 m h
      | some m1 =>
        rw [hm] at h
        rcases List.mem_cons.1 h with h1 | h1
        · rw [h1]
          exact matchPlaceholder_shape _ _ hm
        · exact ih _ m h1

theorem resolveLoop_log (lookupEnv : Str → Option Str) (ident : Str) :
    ∀ (ms : List Str) (s : Str) (log : List Str),
      (resolveLoop lookupEnv ident ms (s, log)).2
        = log ++ (ms.filter (fun m => (lookupEnv (lookedUp m)).isNone)).map (warnLine ident) := by
  intro ms
  induction ms with
  | nil => intro s log; simp [resolveLoop]
  | cons m ms ih =>
    intro s log
    cases hl : lookupEnv (lookedUp m) with
    | some v =>
      have hstep : resolveLoop lookupEnv ident (m :: ms) (s, log)
          = resolveLoop lookupEnv ident ms (stringsReplaceAll s m v, log) := by
        simp only [resolveLoop]
        rw [show stringsTrim (stringsTrim m ['{']) ['}'] = lookedUp m from rfl, hl]
      rw [hstep, ih, List.filter_cons_of_neg (by rw [hl]; simp)]
    | none =>
      have hstep : resolveLoop lookupEnv ident (m :: ms) (s, log)
          = resolveLoop lookupEnv ident ms
              (stringsReplaceAll s m envVarNotFound, log ++ [warnLine ident m]) := by
        simp only [resolveLoop]
        rw [show stringsTrim (stringsTrim m ['{']) ['}'] = lookedUp m from rfl, hl]
        rfl
      rw [hstep, ih, List.filter_cons_of_pos (by rw [hl]; rfl), List.map_cons,
        List.append_assoc]
      rfl

theorem resolve_log (lookupEnv : Str → Option Str) (text ident : Str) :
    (resolveEnvVarsInString lookupEnv text ident).log
      = (undefinedMatches lookupEnv text).map (warnLine ident) := by
  have h := resolveLoop_log lookupEnv ident (findAllPlaceholders text) text []
  simpa [resolveEnvVarsInString, undefinedMatches] using h

/-- C25, as stated, fails: in `x {{a}b}} y` the match is `{{a}b}}`, whose name `a}b` holds a
closing brace; and in `{{{a}}` the match is `{{{a}}`, of the form `{{NAME}}` for the name
`{a` only, while the name looked up is `a`. -/
theorem placeholder_brace_counterexample :
    findAllPlaceholders "x \x7b\x7ba\x7db\x7d\x7d y".toList = [placeholder "a\x7db".toList] ∧
    '}' ∈ "a\x7db".toList ∧
    findAllPlaceholders "\x7b\x7b\x7ba\x7d\x7d".toList = [placeholder "\x7ba".toList] ∧
    lookedUp (placeholder "\x7ba".toList) = "a".toList ∧
    "a".toList ≠ "\x7ba".toList :=
  ⟨by decide, by decide, by decide, by decide, by decide⟩

/-- C25, amended. Every match `m` that `resolveEnvVarsInString` treats as a placeholder in a
text has the form `{{NAME}}` where `NAME` holds no newline and ends before the first `}}`
(`NAME` followed by one `}` holds no two closing braces in a row); the name looked up is `m`
trimmed of `{` and of `}`, which is `NAME` itself when `NAME` holds no brace; and when the
lookup does not define that name, the warning for it is logged. -/
theorem placeholder_shape (lookupEnv : Str → Option Str) (text ident m : Str)
    (hm : m ∈ findAllPlaceholders text) :
    ∃ NAME, m = placeholder NAME ∧ '\n' ∉ NAME ∧ hasDoubleClose (NAME ++ ['}']) = false ∧
      ((∀ x ∈ NAME, x ≠ '{' ∧ x ≠ '}') → lookedUp m = NAME) ∧
      (lookupEnv (lookedUp m) = none →
        "WARN: unable to lookup env var ".toList ++ lookedUp m ++ " passed in string: ".toList
            ++ ident
          ∈ (resolveEnvVarsInString lookupEnv text ident).log) := by
  obtain ⟨NAME, h1, h2, h3⟩ := findAllFrom_shape text 0 m hm
  refine ⟨NAME, h1, h2, h3, ?_, ?_⟩
  · intro hN
    rw [h1]
    exact stringsTrim_placeholder NAME hN
  · intro hl
    rw [resolve_log]
    exact List.mem_map.2 ⟨m, List.mem_filter.2 ⟨hm, by rw [hl]; rfl⟩, rfl⟩

/-- Witness for the amended C25: the match `{{FRANK}}` of `my {{FRANK}} is at the dentist`. -/
theorem placeholder_shape_witness :
    placeholder "FRANK".toList
      ∈ findAllPlaceholders "my \x7b\x7bFRANK\x7d\x7d is at the dentist".toList ∧
    ∃ NAME, placeholder "FRANK".toList = placeholder NAME ∧ '\n' ∉ NAME ∧
      hasDoubleClose (NAME ++ ['}']) = false ∧
      ((∀ x ∈ NAME, x ≠ '{' ∧ x ≠ '}') → lookedUp (placeholder "FRANK".toList) = NAME) ∧
      (exLookupEnv (lookedUp (placeholder "FRANK".toList)) = none →
        "WARN: unable to lookup env var ".toList ++ lookedUp (placeholder "FRANK".toList)
            ++ " passed in string: ".toList ++ "yourmomshouse.yaml".toList
          ∈ (resolveEnvVarsInString exLookupEnv
              "my \x7b\x7bFRANK\x7d\x7d is at the dentist".toList
              "yourmomshouse.yaml".toList).log) :=
  ⟨by decide,
    placeholder_shape exLookupEnv "my \x7b\x7bFRANK\x7d\x7d is at the dentist".toList
      "yourmomshouse.yaml".toList (placeholder "FRANK".toList) (by decide)⟩

/-- C26, as stated, fails: `{{FRANK}} and {{FRANK}}` holds one distinct placeholder that the
lookup does not define, and two warnings are logged, one per occurrence. -/
theorem resolve_warnings_counterexample :
    exLookupEnv "FRANK".toList = none ∧
    findAllPlaceholders "\x7b\x7bFRANK\x7d\x7d and \x7b\x7bFRANK\x7d\x7d".toList
      = [placeholder "FRANK".toList, placeholder "FRANK".toList] ∧
    (findAllPlaceholders "\x7b\x7bFRANK\x7d\x7d and \x7b\x7bFRANK\x7d\x7d".toList).dedup.length
      = 1 ∧
    (resolveEnvVarsInString exLookupEnv "\x7b\x7bFRANK\x7d\x7d and \x7b\x7bFRANK\x7d\x7d".toList
        "f".toList).log
      = ["WARN: unable to lookup env var FRANK passed in string: f".toList,
         "WARN: unable to lookup env var FRANK passed in string: f".toList] ∧
    (resolveEnvVarsInString exLookupEnv "\x7b\x7bFRANK\x7d\x7d and \x7b\x7bFRANK\x7d\x7d".toList
        "f".toList).log.length = 2 :=
  ⟨by decide, by decide, by decide, by decide, by decide⟩

/-- C26, amended. The warnings `resolveEnvVarsInString` logs are one per match of the text
(per occurrence of a placeholder) whose name the lookup does not define, in the order of the
matches; so their number is the number of such occurrences, none is logged when every
placeholder resolves, and exactly one is logged for `my {{FRANK}} is at the dentist` with
`FRANK` undefined. -/
theorem resolveEnvVarsInString_warnings (lookupEnv : Str → Option Str) (text ident : Str) :
    (resolveEnvVarsInString lookupEnv text ident).log
        = (undefinedMatches lookupEnv text).map (warnLine ident) ∧
    (resolveEnvVarsInString lookupEnv text ident).log.length
        = (undefinedMatches lookupEnv text).length ∧
    ((∀ m ∈ findAllPlaceholders text, lookupEnv (lookedUp m) ≠ none) →
      (resolveEnvVarsInString lookupEnv text ident).log = []) ∧
    (resolveEnvVarsInString exLookupEnv "my \x7b\x7bFRANK\x7d\x7d is at the dentist".toList
        "yourmomshouse.yaml".toList).log.length = 1 := by
  refine ⟨resolve_log lookupEnv text ident, ?_, ?_, by decide⟩
  · rw [resolve_log, List.length_map]
  · intro h
    rw [resolve_log]
    have hnil : undefinedMatches lookupEnv text = [] := by
      apply List.filter_eq_nil_iff.2
      intro m hm
      cases hl : lookupEnv (lookedUp m) with
      | none => exact absurd hl (h m hm)
      | some v => simp
    rw [hnil]
    rfl

/-- Witness for the amended C26: every placeholder of `my {{ANIMAL}} is at the dentist`
resolves, and nothing is logged. -/
theorem resolveEnvVarsInString_warnings_witness :
    (∀ m ∈ findAllPlaceholders "my \x7b\x7bANIMAL\x7d\x7d is at the dentist".toList,
      exLookupEnv (lookedUp m) ≠ none) ∧
    (resolveEnvVarsInString exLookupEnv "my \x7b\x7bANIMAL\x7d\x7d is at the dentist".toList
        "yourmomshouse.yaml".toList).log = [] :=
  ⟨by decide,
    (resolveEnvVarsInString_warnings exLookupEnv
      "my \x7b\x7bANIMAL\x7d\x7d is at the dentist".toList "yourmomshouse.yaml".toList).2.2.1
      (by decide)⟩

/-! ## The env file -/

theorem envFileLoop_eq (secrets : Secrets) (removeExport : Bool) :
    ∀ (keys : List Str) (acc : Str),
      envFileLoop secrets removeExport keys acc
        = acc ++ (keys.map
            (fun k => envLine removeExport k ((mapGet secrets k).getD []))).flatten := by
  intro keys
  induction keys with
  | nil => intro acc; simp [envFileLoop]
  | cons k keys ih =>
    intro acc
    simp only [envFileLoop, List.map_cons, List.flatten_cons]
    rw [ih, List.append_assoc]
    cases removeExport <;> rfl

theorem mapGet_some_mem {V : Type} (m : GoMap V) (k : Str) (v : V) (h : mapGet m k = some v) :
    (k, v) ∈ m := by
  induction m with
  | nil => rw [mapGet_nil] at h; cases h
  | cons e m ih =>
    obtain ⟨k1, v1⟩ := e
    rw [mapGet_cons] at h
    by_cases hk : k1 = k
    · rw [if_pos hk] at h
      cases h
      rw [hk]
      exact List.mem_cons_self _ _
    · rw [if_neg hk] at h
      exact List.mem_cons_of_mem _ (ih h)

/-- C27. The content `writeEnvFile` produces is the concatenation, over the keys of the map
in ascending order (a sorted rearrangement of the map's keys, so one line per key), of the
line `export K="V"` and a newline when `removeExport` is false, and of `K="V"` and a newline
when it is true, `V` being the map's value for `K`; each line of the first kind is `export `
followed by the line of the second kind. The two outputs for the map
`EXAMPLE_2 ↦ anotherthing, EXAMPLE_1 ↦ something` are as expected. -/
theorem writeEnvFile_contents (o : Outside) (secrets : Secrets) (filename : Str)
    (removeExport : Bool) :
    (∃ keys : List Str, keys.Perm (secrets.map Prod.fst) ∧ keys.Sorted (fun a b => a ≤ b) ∧
      keys.length = secrets.length ∧
      (∀ k ∈ keys, ∃ v, (k, v) ∈ secrets ∧ mapGet secrets k = some v) ∧
      (writeEnvFile o secrets filename removeExport).contents
        = (keys.map (fun k => envLine removeExport k ((mapGet secrets k).getD []))).flatten) ∧
    (∀ k v : Str,
      envLine false k v = "export ".toList ++ k ++ "=\x22".toList ++ v ++ "\x22\n".toList ∧
      envLine true k v = k ++ "=\x22".toList ++ v ++ "\x22\n".toList ∧
      envLine false k v = "export ".toList ++ envLine true k v) ∧
    (writeEnvFile exOutside
        [("EXAMPLE_2".toList, "anotherthing".toList), ("EXAMPLE_1".toList, "something".toList)]
        "some.env".toList false).contents
      = "export EXAMPLE_1=\x22something\x22\nexport EXAMPLE_2=\x22anotherthing\x22\n".toList ∧
    (writeEnvFile exOutside
        [("EXAMPLE_2".toList, "anotherthing".toList), ("EXAMPLE_1".toList, "something".toList)]
        "some.env".toList true).contents
      = "EXAMPLE_1=\x22something\x22\nEXAMPLE_2=\x22anotherthing\x22\n".toList := by
  refine ⟨⟨sortStrings (secrets.map Prod.fst), List.perm_insertionSort _ _,
    List.sorted_insertionSort _ _, ?_, ?_, ?_⟩, ?_, by decide, by decide⟩
  · have h := (List.perm_insertionSort (fun a b : Str => a ≤ b) (secrets.map Prod.fst)).length_eq
    rw [List.length_map] at h
    exact h
  · intro k hk
    have hk2 : k ∈ secrets.map Prod.fst :=
      (List.perm_insertionSort (fun a b : Str => a ≤ b) (secrets.map Prod.fst)).subset hk
    obtain ⟨v, hv⟩ := mapGet_of_mem_keys secrets k hk2
    exact ⟨v, mapGet_some_mem secrets k v hv, hv⟩
  · have h := envFileLoop_eq secrets removeExport (sortStrings (secrets.map Prod.fst)) []
    rw [List.nil_append] at h
    exact h
  · intro k v
    refine ⟨rfl, rfl, ?_⟩
    simp only [envLine, List.append_assoc]
    rfl

/-! ## A key named like a pulled field -/

theorem pulled_isSome (w : World) (K : Str) :
    ∀ (F : GoMap Val) (secrets : Secrets),
      ((mapGet secrets K).isSome = true ∨ ∃ e ∈ F, w.toUpper e.1 = K) →
      (mapGet (pulled w F secrets) K).isSome = true := by
  intro F
  induction F with
  | nil =>
    intro secrets h
    rcases h with h | ⟨e, he, _⟩
    · exact h
    · cases he
  | cons e F ih =>
    intro secrets h
    obtain ⟨k, v⟩ := e
    simp only [pulled]
    apply ih
    by_cases hk : w.toUpper k = K
    · left
      rw [mapGet_mapSet, if_pos hk]
      rfl
    · rcases h with h | ⟨e, he, hek⟩
      · left
        rw [mapGet_mapSet, if_neg hk]
        exact h
      · rcases List.mem_cons.1 he with he1 | he1
        · rw [he1] at hek
          exact absurd hek hk
        · exact Or.inr ⟨e, he1, hek⟩

theorem fullPathPass_isSome (w : World) (client : Client) (K : Str) :
    ∀ (l : List Str) (secrets secrets1 : Secrets),
      fullPathPass w client l secrets = Except.ok secrets1 →
      ((mapGet secrets K).isSome = true ∨
        ∃ p ∈ l, ∃ secret F, getSecret (modSecretPath p) client = Except.ok secret ∧
          unwrappedFields secret = some F ∧ ∃ e ∈ F, w.toUpper e.1 = K) →
      (mapGet secrets1 K).isSome = true := by
  intro l
  induction l with
  | nil =>
    intro secrets secrets1 h hor
    rw [← Except.ok.inj h]
    rcases hor with h1 | ⟨p, hp, _⟩
    · exact h1
    · cases hp
  | cons x l ih =>
    intro secrets secrets1 h hor
    simp only [fullPathPass] at h
    cases hs : fullPathStep w client x secrets with
    | error e => rw [hs] at h; cases h
    | ok s1 =>
      rw [hs] at h
      obtain ⟨secret, F, hget, hF, hs1⟩ := fullPathStep_ok w client x secrets s1 hs
      apply ih s1 secrets1 h
      rcases hor with h1 | ⟨p, hp, secretP, FP, hgp, hFP, hex⟩
      · left
        rw [hs1]
        exact pulled_isSome w K F secrets (Or.inl h1)
      · rcases List.mem_cons.1 hp with hpx | hpl
        · left
          rw [hpx, hget] at hgp
          have hsec : secret = secretP := Except.ok.inj hgp
          rw [← hsec, hF] at hFP
          have hFF : F = FP := Option.some.inj hFP
          rw [hs1, hFF]
          exact pulled_isSome w K FP secrets (Or.inr hex)
        · exact Or.inr ⟨p, hpl, secretP, FP, hgp, hFP, hex⟩

/-- C29. For a merged manifest in which a KeySet name `K` (with definition `kd`) equals the
upper-cased name of a field `f` pulled by a full-path entry `p`, a successful `getSecrets`
returns under `K` the value of the key definition (the stringified field `kd.Key` of the
secret at `kd.Path`, resolved, and base64-encoded when requested): the full-path pass has put
a value under `K`, and the key pass, which runs on its result, replaces it. -/
theorem getSecrets_key_over_fullPath (w : World) (client : Client) (folder env : Str)
    (data : SecretConfig) (name : Str) (secrets : Secrets) (K : Str) (kd : KeyDef)
    (p : Str) (secretP : Secret) (FP : GoMap Val) (f : Str) (v : Val)
    (hm : mergeConfig w folder env = Except.ok data)
    (hnd : ((entries data.KeyConfig).map Prod.fst).Nodup)
    (hk : (K, kd) ∈ entries data.KeyConfig)
    (hp : p ∈ elems data.FullSecretConfigPaths)
    (hgp : getSecret (modSecretPath p) client = Except.ok secretP)
    (hFP : unwrappedFields secretP = some FP)
    (hf : (f, v) ∈ FP) (hup : w.toUpper f = K)
    (h : getSecrets w client folder env
      = Except.ok { secretName := name, secrets := some secrets, err := none }) :
    (∃ secrets0,
      fullPathPass w client (elems data.FullSecretConfigPaths) [] = Except.ok secrets0 ∧
      (mapGet secrets0 K).isSome = true ∧
      keyPass w client (entries data.KeyConfig) secrets0 = Except.ok secrets) ∧
    ∃ secret F, getSecret (modSecretPath kd.Path) client = Except.ok secret ∧
      unwrappedFields secret = some F ∧
      mapGet secrets K = some
        (if kd.Base64 then base64StdEncode (resolveValue w (mapIndex F kd.Key))
          else resolveValue w (mapIndex F kd.Key)) := by
  obtain ⟨_, s0, hfp, hkp⟩ := getSecrets_ok w client folder env data name secrets hm h
  refine ⟨⟨s0, hfp, ?_, hkp⟩, ?_⟩
  · exact fullPathPass_isSome w client K _ [] s0 hfp
      (Or.inr ⟨p, hp, secretP, FP, hgp, hFP, (f, v), hf, hup⟩)
  · exact keyPass_get_of_mem w client K kd (entries data.KeyConfig) s0 secrets hkp hnd hk

/-- Witness for C29: in `vh/clash` the key `DB_USER` has the upper-cased name of the field
`db_user` of `config/app/base`; the full-path pass stores `admin` under `DB_USER`, and the
value returned is `k1`, the field `API_KEY` of `secret/machine/api`. -/
theorem getSecrets_key_over_fullPath_witness :
    mergeConfig exWorld "vh/clash".toList "dev".toList = Except.ok exClash ∧
    ((entries exClash.KeyConfig).map Prod.fst).Nodup ∧
    (("DB_USER".toList,
        ({ Path := "secret/machine/api".toList, Key := "API_KEY".toList, Base64 := false } : KeyDef))
      ∈ entries exClash.KeyConfig) ∧
    "config/app/base".toList ∈ elems exClash.FullSecretConfigPaths ∧
    getSecret (modSecretPath "config/app/base".toList) exClient = Except.ok exBaseSecret ∧
    unwrappedFields exBaseSecret = some exBaseFields ∧
    ("db_user".toList, Val.str "admin".toList) ∈ exBaseFields ∧
    exWorld.toUpper "db_user".toList = "DB_USER".toList ∧
    getSecrets exWorld exClient "vh/clash".toList "dev".toList
      = Except.ok
          { secretName := "clash".toList
            secrets := some
              [("DB_USER".toList, "k1".toList), ("REGION".toList, "core-east".toList)]
            err := none } ∧
    fullPathPass exWorld exClient (elems exClash.FullSecretConfigPaths) []
      = Except.ok [("DB_USER".toList, "admin".toList), ("REGION".toList, "core-east".toList)] ∧
    mapGet [("DB_USER".toList, "k1".toList), ("REGION".toList, "core-east".toList)]
      "DB_USER".toList = some "k1".toList ∧
    ((∃ secrets0,
      fullPathPass exWorld exClient (elems exClash.FullSecretConfigPaths) []
        = Except.ok secrets0 ∧
      (mapGet secrets0 "DB_USER".toList).isSome = true ∧
      keyPass exWorld exClient (entries exClash.KeyConfig) secrets0
        = Except.ok [("DB_USER".toList, "k1".toList), ("REGION".toList, "core-east".toList)]) ∧
    ∃ secret F, getSecret (modSecretPath "secret/machine/api".toList) exClient
        = Except.ok secret ∧
      unwrappedFields secret = some F ∧
      mapGet [("DB_USER".toList, "k1".toList), ("REGION".toList, "core-east".toList)]
        "DB_USER".toList
        = some
          (if false then base64StdEncode (resolveValue exWorld (mapIndex F "API_KEY".toList))
            else resolveValue exWorld (mapIndex F "API_KEY".toList))) :=
  ⟨by rfl, by decide, by decide, by decide, by rfl, by rfl, List.mem_cons_self _ _, by decide,
    by rfl, by rfl, by decide,
    getSecrets_key_over_fullPath exWorld exClient "vh/clash".toList "dev".toList exClash
      "clash".toList [("DB_USER".toList, "k1".toList), ("REGION".toList, "core-east".toList)]
      "DB_USER".toList
      { Path := "secret/machine/api".toList, Key := "API_KEY".toList, Base64 := false }
      "config/app/base".toList exBaseSecret exBaseFields "db_user".toList
      (Val.str "admin".toList)
      (by rfl) (by decide) (by decide) (by decide) (by rfl) (by rfl) (List.mem_cons_self _ _)
      (by decide) (by rfl)⟩

/-! ## Deleting what was applied -/

theorem deleteTargets_eq (c : AppConfig) (envs : List Str) :
    deleteTargets c envs = envs.map (applyName c) := by
  unfold deleteTargets
  apply List.map_congr_left
  intro x _
  simp only [applyName, List.append_assoc]

theorem deletePolicy_actions (o : Outside) (n : Str) :
    ((deletePolicy o n).2 = none → (deletePolicy o n).1 = [Action.deletePolicy n]) ∧
    ∀ a ∈ (deletePolicy o n).1, a = Action.deletePolicy n := by
  cases h : o.deletePolicy n <;> simp [deletePolicy, h]

theorem deleteRole_actions (o : Outside) (n : Str) :
    ((deleteRole o n).2 = none → (deleteRole o n).1 = [Action.deleteRole n]) ∧
    ∀ a ∈ (deleteRole o n).1, a = Action.deleteRole n := by
  have hdef : deleteRole o n
      = match o.deleteRole ("auth/jwt/role/".toList ++ n) with
        | some err => ([], some err)
        | none => ([Action.deleteRole n], none) := rfl
  rw [hdef]
  cases o.deleteRole ("auth/jwt/role/".toList ++ n) with
  | none => exact ⟨fun _ => rfl, fun a ha => List.mem_singleton.1 ha⟩
  | some err => exact ⟨fun hh => (by cases hh), fun a ha => (by cases ha)⟩

theorem deleteLoop_mem (o : Outside) (c : AppConfig) (a : Action) :
    ∀ (envs : List Str) (trace0 : List Action), a ∈ (deleteLoop o c envs trace0).trace →
      a ∈ trace0 ∨ ∃ n ∈ deleteTargets c envs,
        a = Action.deletePolicy n ∨ a = Action.deleteRole n := by
  intro envs
  induction envs with
  | nil => intro trace0 h; exact Or.inl h
  | cons x rest ih =>
    intro trace0 h
    have hx : c.policyPrefix ++ "-".toList ++ c.appName ++ "-".toList ++ x
        ∈ deleteTargets c (x :: rest) := List.mem_cons_self _ _
    have hrest : ∀ n ∈ deleteTargets c rest, n ∈ deleteTargets c (x :: rest) :=
      fun n hn => List.mem_cons_of_mem _ hn
    have hp := (deletePolicy_actions o
      (c.policyPrefix ++ "-".toList ++ c.appName ++ "-".toList ++ x)).2
    have hr := (deleteRole_actions o
      (c.policyPrefix ++ "-".toList ++ c.appName ++ "-".toList ++ x)).2
    simp only [deleteLoop] at h
    cases hdp : deletePolicy o (c.policyPrefix ++ "-".toList ++ c.appName ++ "-".toList ++ x) with
    | mk pa e1 =>
      rw [hdp] at h hp
      cases e1 with
      | some err =>
        rcases List.mem_append.1 h with h1 | h1
        · exact Or.inl h1
        · exact Or.inr ⟨_, hx, Or.inl (hp a h1)⟩
      | none =>
        cases hdr : deleteRole o
            (c.policyPrefix ++ "-".toList ++ c.appName ++ "-".toList ++ x) with
        | mk ra e2 =>
          rw [hdr] at h hr
          have hstep : ∀ b ∈ trace0 ++ pa ++ ra, b ∈ trace0 ∨ ∃ n ∈ deleteTargets c (x :: rest),
              b = Action.deletePolicy n ∨ b = Action.deleteRole n := by
            intro b hb
            rcases List.mem_append.1 hb with hb1 | hb1
            · rcases List.mem_append.1 hb1 with hb2 | hb2
              · exact Or.inl hb2
              · exact Or.inr ⟨_, hx, Or.inl (hp b hb2)⟩
            · exact Or.inr ⟨_, hx, Or.inr (hr b hb1)⟩
          cases e2 with
          | some err => exact hstep a h
          | none =>
            rcases ih _ h with h1 | ⟨n, hn, hna⟩
            · exact hstep a h1
            · exact Or.inr ⟨n, hrest n hn, hna⟩

theorem deleteLoop_ok (o : Outside) (c : AppConfig) :
    ∀ (envs : List Str) (trace0 : List Action),
      (deleteLoop o c envs trace0).outcome = Outcome.returned none →
      (deleteLoop o c envs trace0).trace
        = trace0 ++ ((deleteTargets c envs).map
            (fun n => [Action.deletePolicy n, Action.deleteRole n])).flatten := by
  intro envs
  induction envs with
  | nil => intro trace0 _; simp [deleteLoop, deleteTargets]
  | cons x rest ih =>
    intro trace0 h
    have hp := (deletePolicy_actions o
      (c.policyPrefix ++ "-".toList ++ c.appName ++ "-".toList ++ x)).1
    have hr := (deleteRole_actions o
      (c.policyPrefix ++ "-".toList ++ c.appName ++ "-".toList ++ x)).1
    simp only [deleteLoop] at h ⊢
    cases hdp : deletePolicy o (c.policyPrefix ++ "-".toList ++ c.appName ++ "-".toList ++ x) with
    | mk pa e1 =>
      rw [hdp] at h hp
      cases e1 with
      | some err => cases h
      | none =>
        cases hdr : deleteRole o
            (c.policyPrefix ++ "-".toList ++ c.appName ++ "-".toList ++ x) with
        | mk ra e2 =>
          rw [hdr] at h hr
          cases e2 with
          | some err => cases h
          | none =>
            have hpa := hp rfl
            have hra := hr rfl
            simp only at hpa hra h ⊢
            rw [ih _ h, hpa, hra]
            simp [deleteTargets]

/-- C30. For the environments `envs` discovered in the application folders: every name under
which `genAllRolesAndPolicies` stores a policy or a role is `policyPrefix-appName-x` for a
discovered `x` other than `local`, and it is among the names `deleteAllPoliciesAndRoles` goes
through for the same configuration; those names are `policyPrefix-appName-x` for every
discovered `x` (also `local`), without duplicates; every deletion of a run is of one of them,
and a run that returns a nil error deletes the policy and the role of each, in order. -/
theorem genAll_applied_among_deleted (w : World) (o : Outside) (c : AppConfig)
    (envs : List Str) (hce : collectEnvs o c.vhFolder c.apps [] = Except.ok envs) :
    (∀ n f, (Action.putPolicy n f ∈ (genAllRolesAndPolicies w o c).trace ∨
        Action.writeRole n f ∈ (genAllRolesAndPolicies w o c).trace) →
      (∃ x ∈ envs, x ≠ "local".toList ∧
        n = c.policyPrefix ++ "-".toList ++ c.appName ++ "-".toList ++ x) ∧
      n ∈ deleteTargets c envs) ∧
    deleteTargets c envs
      = envs.map (fun x => c.policyPrefix ++ "-".toList ++ c.appName ++ "-".toList ++ x) ∧
    (deleteTargets c envs).Nodup ∧
    (∀ a ∈ (deleteAllPoliciesAndRoles o c).trace, ∃ n ∈ deleteTargets c envs,
      a = Action.deletePolicy n ∨ a = Action.deleteRole n) ∧
    ((deleteAllPoliciesAndRoles o c).outcome = Outcome.returned none →
      (deleteAllPoliciesAndRoles o c).trace
        = ((deleteTargets c envs).map
            (fun n => [Action.deletePolicy n, Action.deleteRole n])).flatten) := by
  have hname : ∀ x, applyName c x
      = c.policyPrefix ++ "-".toList ++ c.appName ++ "-".toList ++ x := by
    intro x
    simp only [applyName, List.append_assoc]
  refine ⟨?_, rfl, ?_, ?_, ?_⟩
  · intro n f h
    have key : ∀ a, a ∈ (genAllRolesAndPolicies w o c).trace →
        a = Action.putPolicy n f ∨ a = Action.writeRole n f →
        ∃ x ∈ envs, x ≠ "local".toList ∧ n = applyName c x := by
      intro a ha hshape
      simp only [genAllRolesAndPolicies, hce] at ha
      rcases envLoop_mem w o c a envs _ ha with h1 | ⟨x, hx, hxl, hact⟩
      · have h2 := List.mem_singleton.1 h1
        rcases hshape with hs | hs <;> rw [hs] at h2 <;> cases h2
      · refine ⟨x, hx, hxl, ?_⟩
        rcases hact with ⟨blocks, hb⟩ | hb | hb | hb
        · rcases hshape with hs | hs <;> rw [hs] at hb <;> cases hb
        · rcases hshape with hs | hs <;> rw [hs] at hb <;> cases hb
        · rcases hshape with hs | hs
          · rw [hs] at hb
            cases hb
            rfl
          · rw [hs] at hb
            cases hb
        · rcases hshape with hs | hs
          · rw [hs] at hb
            cases hb
          · rw [hs] at hb
            cases hb
            rfl
    have hex : ∃ x ∈ envs, x ≠ "local".toList ∧ n = applyName c x := by
      rcases h with h | h
      · exact key _ h (Or.inl rfl)
      · exact key _ h (Or.inr rfl)
    obtain ⟨x, hx, hxl, hn⟩ := hex
    refine ⟨⟨x, hx, hxl, by rw [hn, hname]⟩, ?_⟩
    rw [deleteTargets_eq, hn]
    exact List.mem_map.2 ⟨x, hx, rfl⟩
  · rw [deleteTargets_eq]
    exact (collectEnvs_nodup o c.vhFolder c.apps [] envs hce List.nodup_nil).map
      (fun x y hxy => applyName_inj c x y hxy)
  · intro a ha
    simp only [deleteAllPoliciesAndRoles, hce] at ha
    rcases deleteLoop_mem o c a envs [] ha with h1 | h1
    · cases h1
    · exact h1
  · intro hout
    simp only [deleteAllPoliciesAndRoles, hce] at hout ⊢
    rw [deleteLoop_ok o c envs [] hout, List.nil_append]

/-- Witness for C30: the application `a` of the example, with the discovered environments
`dev`, `local` and `qa`. -/
theorem genAll_applied_among_deleted_witness :
    collectEnvs exOutside (exConfig ["a".toList]).vhFolder
        (exConfig ["a".toList]).apps []
      = Except.ok ["dev".toList, "local".toList, "qa".toList] ∧
    deleteTargets (exConfig ["a".toList])
        ["dev".toList, "local".toList, "qa".toList]
      = ["vh-main-dev".toList, "vh-main-local".toList, "vh-main-qa".toList] ∧
    (deleteAllPoliciesAndRoles exOutside (exConfig ["a".toList])).outcome
      = Outcome.returned none ∧
    (genAllRolesAndPolicies exWorld exOutside (exConfig ["a".toList])).trace.countP
      (Action.isApply "vh-main-qa".toList) = 2 ∧
    (deleteTargets (exConfig ["a".toList])
      ["dev".toList, "local".toList, "qa".toList]).Nodup :=
  ⟨by rfl, by decide, by rfl, by rfl,
    (genAll_applied_among_deleted exWorld exOutside (exConfig ["a".toList])
      ["dev".toList, "local".toList, "qa".toList] (by rfl)).2.2.1⟩

end VaultHunter
